import Mathlib

/-!
# OpenGLScene: camera control and render loop of `Project10/Source.cpp`

A shallow embedding of the fly-camera demo.  Scalars are real numbers and
the arithmetic of the camera and of the light orbit is exact; the conversions
of `Source.cpp` that narrow a `double` to a `float` (the cursor position, the
two pointer offsets, the clock reading) and the `float` subtraction of the
frame timing round as IEEE 754 does.  GLFW and OpenGL are reduced to the parts
of their state that `Source.cpp` reads or writes, and every function of
`Source.cpp` that is modelled keeps its name.

The `Camera` class lives in `camera.h`, which is included by `Source.cpp` but
is not part of the sources at hand; its operations are modelled from the
written specification of the component and are marked as such.
-/

namespace OpenGLScene

noncomputable section

/-! ## Vectors and matrices (the part of glm that the program uses) -/

/-- A `glm::vec3` with real components. -/
@[ext]
structure Vec3 where
  x : ℝ
  y : ℝ
  z : ℝ

namespace Vec3

/-- Component-wise sum, `a + b`. -/
def add (a b : Vec3) : Vec3 := ⟨a.x + b.x, a.y + b.y, a.z + b.z⟩

/-- Component-wise difference, `a - b`. -/
def sub (a b : Vec3) : Vec3 := ⟨a.x - b.x, a.y - b.y, a.z - b.z⟩

/-- Scaling by a scalar, `a * k`. -/
def smul (k : ℝ) (a : Vec3) : Vec3 := ⟨k * a.x, k * a.y, k * a.z⟩

/-- Inner product, `glm::dot`. -/
def dot (a b : Vec3) : ℝ := a.x * b.x + a.y * b.y + a.z * b.z

/-- Vector product, `glm::cross`. -/
def cross (a b : Vec3) : Vec3 :=
  ⟨a.y * b.z - b.y * a.z, a.z * b.x - b.z * a.x, a.x * b.y - b.x * a.y⟩

/-- Euclidean length, `glm::length`. -/
def length (a : Vec3) : ℝ := Real.sqrt (dot a a)

/-- The vector scaled by the inverse square root of its squared length,
`glm::normalize`. -/
def normalize (a : Vec3) : Vec3 := smul (1 / Real.sqrt (dot a a)) a

end Vec3

/-- Degrees to radians, `glm::radians`. -/
def radians (degrees : ℝ) : ℝ := degrees * (Real.pi / 180)

/-! ## The camera (`camera.h`) -/

/-- The six movement directions accepted by `ProcessKeyboard`. -/
inductive Camera_Movement where
  | FORWARD
  | BACKWARD
  | LEFT
  | RIGHT
  | UP
  | DOWN
  deriving DecidableEq, Repr

/-- Modelled from the spec: the `Camera` class of `camera.h`, which is not among
the sources.  The fields are those of the data model: position, worldUp, front,
right, up, yaw and pitch (degrees), movementSpeed, mouseSensitivity and zoom
(degrees).  `Position` and `Zoom` are spelled as `Source.cpp` reads them. -/
@[ext]
structure Camera where
  Position : Vec3
  WorldUp : Vec3
  Front : Vec3
  Right : Vec3
  Up : Vec3
  Yaw : ℝ
  Pitch : ℝ
  MovementSpeed : ℝ
  MouseSensitivity : ℝ
  Zoom : ℝ

/-- Modelled from the spec: the derived-vector update of `camera.h`.
The front axis comes from yaw and pitch and is normalised, right is
`normalize(cross(front, worldUp))` and up is `normalize(cross(right, front))`. -/
def updateCameraVectors (c : Camera) : Camera :=
  let front : Vec3 := Vec3.normalize
    ⟨Real.cos (radians c.Yaw) * Real.cos (radians c.Pitch),
     Real.sin (radians c.Pitch),
     Real.sin (radians c.Yaw) * Real.cos (radians c.Pitch)⟩
  let right : Vec3 := Vec3.normalize (Vec3.cross front c.WorldUp)
  let up : Vec3 := Vec3.normalize (Vec3.cross right front)
  { c with Front := front, Right := right, Up := up }

/-- Modelled from the spec: the constructor of `camera.h`,
`new(position, worldUp, yaw, pitch)`, which derives the triad at once.  The
speed, sensitivity and initial zoom are constants of `camera.h` that the
specification leaves open; they are parameters here. -/
def Camera.new (position worldUp : Vec3) (yaw pitch : ℝ)
    (movementSpeed mouseSensitivity zoom : ℝ) : Camera :=
  updateCameraVectors
    { Position := position, WorldUp := worldUp,
      Front := ⟨0, 0, -1⟩, Right := ⟨0, 0, 0⟩, Up := ⟨0, 0, 0⟩,
      Yaw := yaw, Pitch := pitch,
      MovementSpeed := movementSpeed, MouseSensitivity := mouseSensitivity,
      Zoom := zoom }

/-- Modelled from the spec: `Camera::ProcessKeyboard` of `camera.h`.  The
position moves by `velocity = movementSpeed * deltaTimeSeconds` along front,
right or worldUp, with the sign of the direction. -/
def ProcessKeyboard (c : Camera) (direction : Camera_Movement)
    (deltaTimeSeconds : ℝ) : Camera :=
  let velocity := c.MovementSpeed * deltaTimeSeconds
  match direction with
  | .FORWARD => { c with Position := Vec3.add c.Position (Vec3.smul velocity c.Front) }
  | .BACKWARD => { c with Position := Vec3.sub c.Position (Vec3.smul velocity c.Front) }
  | .LEFT => { c with Position := Vec3.sub c.Position (Vec3.smul velocity c.Right) }
  | .RIGHT => { c with Position := Vec3.add c.Position (Vec3.smul velocity c.Right) }
  | .UP => { c with Position := Vec3.add c.Position (Vec3.smul velocity c.WorldUp) }
  | .DOWN => { c with Position := Vec3.sub c.Position (Vec3.smul velocity c.WorldUp) }

/-- Modelled from the spec: the pitch clamp of `camera.h`, a pitch above the
upper clamp bound being set to the bound and a pitch below its mirror image to
the mirror image.  The bound is the argument `pitchBound`; the bound that the
specification names is 89 degrees, and that is the one `main` runs with. -/
def constrainPitchTo (pitchBound pitch : ℝ) : ℝ :=
  let pitch := if pitch > pitchBound then pitchBound else pitch
  if pitch < -pitchBound then -pitchBound else pitch

/-- Modelled from the spec: `Camera::ProcessMouseMovement` of `camera.h`.
Yaw and pitch grow by the offsets scaled with the sensitivity, the pitch is
clamped when `constrainPitch` is set, and the triad is derived again. -/
def ProcessMouseMovement (pitchBound : ℝ) (c : Camera)
    (xOffsetPixels yOffsetPixels : ℝ) (constrainPitch : Bool) : Camera :=
  let yaw := c.Yaw + xOffsetPixels * c.MouseSensitivity
  let pitch := c.Pitch + yOffsetPixels * c.MouseSensitivity
  let pitch := if constrainPitch then constrainPitchTo pitchBound pitch else pitch
  updateCameraVectors { c with Yaw := yaw, Pitch := pitch }

/-- Modelled from the spec: `Camera::ProcessMouseScroll` of `camera.h`,
`zoom -= yOffsetTicks` followed by the clamp of zoom to [1, 45]. -/
def ProcessMouseScroll (c : Camera) (yOffsetTicks : ℝ) : Camera :=
  let zoom := c.Zoom - yOffsetTicks
  let zoom := if zoom < 1 then 1 else zoom
  let zoom := if zoom > 45 then 45 else zoom
  { c with Zoom := zoom }

/-- A `glm::vec4` with real components. -/
@[ext]
structure Vec4 where
  x : ℝ
  y : ℝ
  z : ℝ
  w : ℝ

/-- A `glm::mat4`, stored as glm stores it: four columns, so that `m[i][j]`
of the C++ text is row `j` of column `i`. -/
@[ext]
structure Mat4 where
  col0 : Vec4
  col1 : Vec4
  col2 : Vec4
  col3 : Vec4

/-- Matrix times column vector, `m * v`: the combination of the columns of
`m` with the components of `v`. -/
def Mat4.mulVec (m : Mat4) (v : Vec4) : Vec4 :=
  ⟨m.col0.x * v.x + m.col1.x * v.y + m.col2.x * v.z + m.col3.x * v.w,
   m.col0.y * v.x + m.col1.y * v.y + m.col2.y * v.z + m.col3.y * v.w,
   m.col0.z * v.x + m.col1.z * v.y + m.col2.z * v.z + m.col3.z * v.w,
   m.col0.w * v.x + m.col1.w * v.y + m.col2.w * v.z + m.col3.w * v.w⟩

/-- The right-handed `glm::lookAt(eye, center, up)`. -/
def lookAt (eye center up : Vec3) : Mat4 :=
  let f := Vec3.normalize (Vec3.sub center eye)
  let s := Vec3.normalize (Vec3.cross f up)
  let u := Vec3.cross s f
  { col0 := ⟨s.x, u.x, -f.x, 0⟩,
    col1 := ⟨s.y, u.y, -f.y, 0⟩,
    col2 := ⟨s.z, u.z, -f.z, 0⟩,
    col3 := ⟨-Vec3.dot s eye, -Vec3.dot u eye, Vec3.dot f eye, 1⟩ }

/-- The two-argument `glm::rotate(angle, v)` of `gtx/transform`: the rotation
by `angle` radians about the axis `v`, applied to the identity matrix. -/
def rotate (angle : ℝ) (v : Vec3) : Mat4 :=
  let c := Real.cos angle
  let s := Real.sin angle
  let axis := Vec3.normalize v
  let temp := Vec3.smul (1 - c) axis
  { col0 := ⟨c + temp.x * axis.x, temp.x * axis.y + s * axis.z, temp.x * axis.z - s * axis.y, 0⟩,
    col1 := ⟨temp.y * axis.x - s * axis.z, c + temp.y * axis.y, temp.y * axis.z + s * axis.x, 0⟩,
    col2 := ⟨temp.z * axis.x + s * axis.y, temp.z * axis.y - s * axis.x, c + temp.z * axis.z, 0⟩,
    col3 := ⟨0, 0, 0, 1⟩ }

/-- Modelled from the spec: `Camera::GetViewMatrix` of `camera.h`, the look-at
transform built from position, position + front and up.  It is a read: the
camera is handed back as it came. -/
def GetViewMatrix (c : Camera) : Mat4 × Camera :=
  (lookAt c.Position (Vec3.add c.Position c.Front) c.Up, c)

/-! ## Rounding to `float` and `double` -/

/-- Rounding of a real number to the nearest integer, a tie going to the even
neighbour: the default rounding of IEEE 754 arithmetic. -/
def roundHalfEven (y : ℝ) : ℤ :=
  if y - ⌊y⌋ < 1 / 2 then ⌊y⌋
  else if 1 / 2 < y - ⌊y⌋ then ⌊y⌋ + 1
  else if ⌊y⌋ % 2 = 0 then ⌊y⌋ else ⌊y⌋ + 1

/-- The exponent of the unit in the last place of `x` in a binary format with
`precision` significand bits whose smallest normal exponent is `emin`; below
`2 ^ emin` the spacing stays that of the subnormal numbers. -/
def ulpExponent (precision : ℕ) (emin : ℤ) (x : ℝ) : ℤ :=
  max (Int.log 2 |x|) emin - ((precision : ℤ) - 1)

/-- The value of `x` rounded to the nearest number of the binary format, ties
to even.  The overflow to infinity beyond the largest finite number of the
format is left out. -/
def roundBinary (precision : ℕ) (emin : ℤ) (x : ℝ) : ℝ :=
  roundHalfEven (x / 2 ^ ulpExponent precision emin x) * 2 ^ ulpExponent precision emin x

/-- The conversion to `float` (binary32: 24 significand bits, smallest normal
exponent -126), as applied when a `double` is stored in a `float` and to the
result of a `float` operation. -/
def toFloat (x : ℝ) : ℝ := roundBinary 24 (-126) x

/-- The rounding of the result of a `double` operation (binary64: 53
significand bits, smallest normal exponent -1022). -/
def toDouble (x : ℝ) : ℝ := roundBinary 53 (-1022) x

/-! ## The program state of `Source.cpp` -/

/-- The keys that `UProcessInput` polls with `glfwGetKey`. -/
inductive Key where
  | ESCAPE
  | W
  | S
  | A
  | D
  | Q
  | E
  | J
  | K
  deriving DecidableEq, Repr

/-- A member call on `gCamera`, as recorded in the call log of the program. -/
inductive CameraCall where
  | keyboard (direction : Camera_Movement) (deltaTime : ℝ)
  | mouseMovement (xoffset yoffset : ℝ) (constrainPitch : Bool)
  | mouseScroll (yoffset : ℝ)
  | getViewMatrix

/-- The effect of one recorded call on the camera. -/
def CameraCall.run (pitchBound : ℝ) (c : Camera) : CameraCall → Camera
  | .keyboard direction deltaTime => ProcessKeyboard c direction deltaTime
  | .mouseMovement xoffset yoffset constrainPitch =>
      ProcessMouseMovement pitchBound c xoffset yoffset constrainPitch
  | .mouseScroll yoffset => ProcessMouseScroll c yoffset
  | .getViewMatrix => (GetViewMatrix c).2

/-- The globals of the anonymous namespace that the input handlers and the
render function touch, the close flag of `gWindow`, and the log of the calls
made on `gCamera` so far (oldest first). -/
structure Globals where
  windowShouldClose : Bool
  gCamera : Camera
  gLastX : ℝ
  gLastY : ℝ
  gFirstMouse : Bool
  gDeltaTime : ℝ
  gLastFrame : ℝ
  gLightPosition : Vec3
  gIsLampOrbiting : Bool
  cameraCalls : List CameraCall

/-- Make a call on `gCamera`: the camera takes the effect and the call is
appended to the log. -/
def Globals.call (pitchBound : ℝ) (g : Globals) (k : CameraCall) : Globals :=
  { g with gCamera := k.run pitchBound g.gCamera, cameraCalls := g.cameraCalls ++ [k] }

/-- `UProcessInput`: `keys k` is true when `glfwGetKey(window, k) == GLFW_PRESS`. -/
def UProcessInput (pitchBound : ℝ) (keys : Key → Bool) (g : Globals) : Globals :=
  let g := if keys .ESCAPE then { g with windowShouldClose := true } else g
  let g := if keys .W then g.call pitchBound (.keyboard .FORWARD g.gDeltaTime) else g
  let g := if keys .S then g.call pitchBound (.keyboard .BACKWARD g.gDeltaTime) else g
  let g := if keys .A then g.call pitchBound (.keyboard .LEFT g.gDeltaTime) else g
  let g := if keys .D then g.call pitchBound (.keyboard .RIGHT g.gDeltaTime) else g
  let g := if keys .Q then g.call pitchBound (.keyboard .UP g.gDeltaTime) else g
  let g := if keys .E then g.call pitchBound (.keyboard .DOWN g.gDeltaTime) else g
  if keys .J && !g.gIsLampOrbiting then { g with gIsLampOrbiting := true }
  else if keys .K && g.gIsLampOrbiting then { g with gIsLampOrbiting := false }
  else g

/-- `UMousePositionCallback`; the call on the camera uses the default
`constrainPitch = true` of `ProcessMouseMovement`.  `xpos` and `ypos` are
`double`, `gLastX`, `gLastY`, `xoffset` and `yoffset` are `float`: each
assignment to the globals narrows, and each offset is a `double` difference
narrowed to `float`. -/
def UMousePositionCallback (pitchBound : ℝ) (g : Globals) (xpos ypos : ℝ) : Globals :=
  let g := if g.gFirstMouse then
      { g with gLastX := toFloat xpos, gLastY := toFloat ypos, gFirstMouse := false }
    else g
  let xoffset := toFloat (toDouble (xpos - g.gLastX))
  let yoffset := toFloat (toDouble (g.gLastY - ypos))
  let g := { g with gLastX := toFloat xpos, gLastY := toFloat ypos }
  g.call pitchBound (.mouseMovement xoffset yoffset true)

/-- `UMouseScrollCallback`. -/
def UMouseScrollCallback (pitchBound : ℝ) (g : Globals) (_xoffset yoffset : ℝ) : Globals :=
  g.call pitchBound (.mouseScroll yoffset)

/-- `UMouseButtonCallback` only prints a message; no global changes. -/
def UMouseButtonCallback (g : Globals) (_button _action _mods : Int) : Globals := g

/-- `UResizeWindow` only sets the viewport; no global changes. -/
def UResizeWindow (g : Globals) (_width _height : Int) : Globals := g

/-- What `URender` hands to the shaders for one frame: the view matrix, the
field of view given to `glm::perspective` (radians), the light position and
the eye position. -/
structure RenderedFrame where
  view : Mat4
  fovy : ℝ
  lightPos : Vec3
  viewPosition : Vec3

/-- `URender`, reduced to the values it computes from the globals: the orbit
step of the light, the view matrix read from the camera and the field of view.
The draw calls themselves are not part of this record. -/
def URender (pitchBound : ℝ) (g : Globals) : Globals × RenderedFrame :=
  let angularVelocity := radians 45
  let g := if g.gIsLampOrbiting then
      let newPosition := (rotate (angularVelocity * g.gDeltaTime) ⟨0, 1, 0⟩).mulVec
        ⟨g.gLightPosition.x, g.gLightPosition.y, g.gLightPosition.z, 1⟩
      { g with gLightPosition := ⟨newPosition.x, newPosition.y, newPosition.z⟩ }
    else g
  let view := (GetViewMatrix g.gCamera).1
  let g := g.call pitchBound .getViewMatrix
  let fovy := radians g.gCamera.Zoom
  (g, { view := view, fovy := fovy, lightPos := g.gLightPosition,
        viewPosition := g.gCamera.Position })

/-- An input event waiting in the GLFW queue.  GLFW hands each one to the
callback that `UInitialize` registered for it when the program calls
`glfwPollEvents`; a close request only raises the close flag of the window. -/
inductive Event where
  | cursorPos (xpos ypos : ℝ)
  | scroll (xoffset yoffset : ℝ)
  | mouseButton (button action mods : Int)
  | framebufferSize (width height : Int)
  | windowClose

/-- The callback registered in `UInitialize` for one event. -/
def dispatchEvent (pitchBound : ℝ) (g : Globals) : Event → Globals
  | .cursorPos xpos ypos => UMousePositionCallback pitchBound g xpos ypos
  | .scroll xoffset yoffset => UMouseScrollCallback pitchBound g xoffset yoffset
  | .mouseButton button action mods => UMouseButtonCallback g button action mods
  | .framebufferSize width height => UResizeWindow g width height
  | .windowClose => { g with windowShouldClose := true }

/-- `glfwPollEvents`: the pending events are dispatched in order. -/
def glfwPollEvents (pitchBound : ℝ) (g : Globals) (events : List Event) : Globals :=
  events.foldl (dispatchEvent pitchBound) g

/-- What the outside world supplies to one iteration of the render loop: the
reading of `glfwGetTime`, the key states seen by `glfwGetKey`, and the events
that are pending when `glfwPollEvents` is reached. -/
structure FrameInput where
  currentFrame : ℝ
  keys : Key → Bool
  events : List Event

/-- The body of the render loop of `main`: frame timing, `UProcessInput`,
`URender`, `glfwPollEvents`.  The `double` that `glfwGetTime` returns is stored
in the `float currentFrame`, and the difference is a `float` subtraction. -/
def renderLoopBody (pitchBound : ℝ) (g : Globals) (i : FrameInput) :
    Globals × RenderedFrame :=
  let currentFrame := toFloat i.currentFrame
  let g := { g with gDeltaTime := toFloat (currentFrame - g.gLastFrame) }
  let g := { g with gLastFrame := currentFrame }
  let g := UProcessInput pitchBound i.keys g
  let r := URender pitchBound g
  (glfwPollEvents pitchBound r.1 i.events, r.2)

/-- The render loop of `main`, `while (!glfwWindowShouldClose(gWindow))`, run
on the supplied frame inputs: it stops when the close flag is up, or when the
inputs are used up (the window is then still open). -/
def renderLoop (pitchBound : ℝ) : Globals → List FrameInput → Globals × List RenderedFrame
  | g, [] => (g, [])
  | g, i :: rest =>
    if g.windowShouldClose then (g, [])
    else
      let r := renderLoopBody pitchBound g i
      let s := renderLoop pitchBound r.1 rest
      (s.1, r.2 :: s.2)

end

/-! ## Textures -/

/-- One byte swap of the inner loop of `flipImageVertically`. -/
def swapBytes (image : List Nat) (index1 index2 : Nat) : List Nat :=
  let tmp := image.getD index1 0
  let image := image.set index1 (image.getD index2 0)
  image.set index2 tmp

/-- The inner loop of `flipImageVertically`, with `i` iterations still to run. -/
def flipRow (image : List Nat) (index1 index2 : Nat) : Nat → List Nat
  | 0 => image
  | i + 1 => flipRow (swapBytes image index1 index2) (index1 + 1) (index2 + 1) i

/-- The outer loop of `flipImageVertically` at row `j`, with `n` iterations
still to run. -/
def flipRows (width height channels : Nat) : Nat → Nat → List Nat → List Nat
  | 0, _, image => image
  | n + 1, j, image =>
    let index1 := j * width * channels
    let index2 := (height - 1 - j) * width * channels
    flipRows width height channels n (j + 1) (flipRow image index1 index2 (width * channels))

/-- `flipImageVertically` on a byte buffer, read with unbounded integers and
unchecked accesses.  `flipImageVerticallyInt` is the same function with `int`
arithmetic and checked accesses; the two agree whenever
width * height * channels fits an `int`. -/
def flipImageVertically (image : List Nat) (width height channels : Nat) : List Nat :=
  flipRows width height channels (height / 2) 0 image

/-- A decoded image as `stbi_load` returns it. -/
structure Image where
  width : Nat
  height : Nat
  channels : Nat
  pixels : List Nat

/-- The internal formats that `UCreateTexture` uploads. -/
inductive TexFormat where
  | GL_RGB8
  | GL_RGBA8
  deriving DecidableEq, Repr

/-- An image uploaded with `glTexImage2D`. -/
structure TexImage where
  internalFormat : TexFormat
  width : Nat
  height : Nat
  pixels : List Nat

/-- The texture part of the OpenGL context: the texture names in use, the
name bound to `GL_TEXTURE_2D`, and the uploaded images by name. -/
structure GLTextures where
  names : List Nat
  bound : Nat
  images : List (Nat × TexImage)

/-- `glGenTextures(1, &id)`: a name that is not in use is taken into use and
returned. -/
def glGenTextures (gl : GLTextures) : GLTextures × Nat :=
  let id := gl.names.foldr max 0 + 1
  ({ gl with names := id :: gl.names }, id)

/-- `glBindTexture(GL_TEXTURE_2D, id)`. -/
def glBindTexture (gl : GLTextures) (id : Nat) : GLTextures :=
  { gl with bound := id }

/-- `glTexImage2D` on the bound texture. -/
def glTexImage2D (gl : GLTextures) (img : TexImage) : GLTextures :=
  { gl with images := (gl.bound, img) :: gl.images }

/-- `UCreateTexture`: the return value, the value left in the reference
parameter `textureId`, and the texture state. -/
def UCreateTexture (stbi_load : String → Option Image) (filename : String)
    (textureId : Nat) (gl : GLTextures) : Bool × Nat × GLTextures :=
  match stbi_load filename with
  | some image =>
    let pixels := flipImageVertically image.pixels image.width image.height image.channels
    let r := glGenTextures gl
    let gl := r.1
    let textureId := r.2
    let gl := glBindTexture gl textureId
    if image.channels = 3 then
      let gl := glTexImage2D gl ⟨.GL_RGB8, image.width, image.height, pixels⟩
      (true, textureId, glBindTexture gl 0)
    else if image.channels = 4 then
      let gl := glTexImage2D gl ⟨.GL_RGBA8, image.width, image.height, pixels⟩
      (true, textureId, glBindTexture gl 0)
    else
      (false, textureId, gl)
  | none => (false, textureId, gl)

/-- `UDestroyTexture`: `glGenTextures(1, &textureId)` on the by-value copy. -/
def UDestroyTexture (_textureId : Nat) (gl : GLTextures) : GLTextures :=
  (glGenTextures gl).1

/-! ## `main` -/

/-- The exit status `EXIT_SUCCESS` of `cstdlib`. -/
def EXIT_SUCCESS : Int := 0

/-- The exit status `EXIT_FAILURE` of `cstdlib`. -/
def EXIT_FAILURE : Int := 1

/-- What the driver reports for one shader program: the compile status of the
vertex shader, that of the fragment shader, and the link status. -/
structure ShaderStatus where
  vertexCompiles : Bool
  fragmentCompiles : Bool
  links : Bool

/-- The return value of `UCreateShaderProgram`. -/
def UCreateShaderProgram (s : ShaderStatus) : Bool :=
  if !s.vertexCompiles then false
  else if !s.fragmentCompiles then false
  else if !s.links then false
  else true

/-- The five texture globals of the anonymous namespace. -/
structure TextureIds where
  gTextureIdBlack : Nat
  gTextureIdScreen : Nat
  gTextureIdWood : Nat
  gTextureIdKeyboard : Nat
  gTextureIdPhoto : Nat

noncomputable section

/-- Everything outside the program that one run of `main` depends on: whether
the window and GLEW come up, the shader statuses, the image decoder with the
files it finds, the frame inputs, and the three constants of `camera.h` that
the specification leaves open. -/
structure Env where
  windowCreated : Bool
  glewInitOk : Bool
  objectsShader : ShaderStatus
  lampShader : ShaderStatus
  stbi_load : String → Option Image
  frameInputs : List FrameInput
  movementSpeed : ℝ
  mouseSensitivity : ℝ
  zoom : ℝ

/-- The return value of `UInitialize`. -/
def UInitialize (env : Env) : Bool :=
  if !env.windowCreated then false
  else if !env.glewInitOk then false
  else true

/-- The globals as their initialisers leave them: `gCamera` is constructed at
(0, 0, 3) with the default worldUp, yaw and pitch, the last pointer position
is the window centre, and the lamp is at rest. -/
def initialGlobals (movementSpeed mouseSensitivity zoom : ℝ) : Globals :=
  { windowShouldClose := false,
    gCamera := Camera.new ⟨0, 0, 3⟩ ⟨0, 1, 0⟩ (-90) 0 movementSpeed mouseSensitivity zoom,
    gLastX := 800 / 2,
    gLastY := 600 / 2,
    gFirstMouse := true,
    gDeltaTime := 0,
    gLastFrame := 0,
    gLightPosition := ⟨1 / 2, 5 / 2, 3⟩,
    gIsLampOrbiting := false,
    cameraCalls := [] }

/-- What a run of `main` leaves behind: the exit status (none when the frame
inputs are used up while the window is still open), the frames rendered, and
the final globals and texture state. -/
structure Outcome where
  exitCode : Option Int
  frames : List RenderedFrame
  globals : Globals
  textureIds : TextureIds
  gl : GLTextures

/-- The five texture blocks of `main`, in order: each loads one file into its
global, and the first failure stops the sequence.  The first component tells
whether all five succeeded. -/
def loadTextures (stbi_load : String → Option Image) (ids : TextureIds) (gl : GLTextures) :
    Bool × TextureIds × GLTextures :=
  let t := UCreateTexture stbi_load "blackPlastic.jpg" ids.gTextureIdBlack gl
  let ids := { ids with gTextureIdBlack := t.2.1 }
  if !t.1 then (false, ids, t.2.2) else
  let t := UCreateTexture stbi_load "screen.jpg" ids.gTextureIdScreen t.2.2
  let ids := { ids with gTextureIdScreen := t.2.1 }
  if !t.1 then (false, ids, t.2.2) else
  let t := UCreateTexture stbi_load "wood.jpg" ids.gTextureIdWood t.2.2
  let ids := { ids with gTextureIdWood := t.2.1 }
  if !t.1 then (false, ids, t.2.2) else
  let t := UCreateTexture stbi_load "keyboard.jpg" ids.gTextureIdKeyboard t.2.2
  let ids := { ids with gTextureIdKeyboard := t.2.1 }
  if !t.1 then (false, ids, t.2.2) else
  let t := UCreateTexture stbi_load "photo.png" ids.gTextureIdPhoto t.2.2
  let ids := { ids with gTextureIdPhoto := t.2.1 }
  if !t.1 then (false, ids, t.2.2) else
  (true, ids, t.2.2)

/-- The five `UDestroyTexture` calls at the end of `main`. -/
def releaseTextures (ids : TextureIds) (gl : GLTextures) : GLTextures :=
  let gl := UDestroyTexture ids.gTextureIdBlack gl
  let gl := UDestroyTexture ids.gTextureIdScreen gl
  let gl := UDestroyTexture ids.gTextureIdWood gl
  let gl := UDestroyTexture ids.gTextureIdKeyboard gl
  UDestroyTexture ids.gTextureIdPhoto gl

/-- The function `main` of `Source.cpp`.  The camera it runs is the one of the
specification, whose pitch clamp is at 89 degrees. -/
def main (env : Env) : Outcome :=
  let g := initialGlobals env.movementSpeed env.mouseSensitivity env.zoom
  let ids : TextureIds := ⟨0, 0, 0, 0, 0⟩
  let gl : GLTextures := ⟨[], 0, []⟩
  if !UInitialize env then ⟨some EXIT_FAILURE, [], g, ids, gl⟩ else
  if !UCreateShaderProgram env.objectsShader then ⟨some EXIT_FAILURE, [], g, ids, gl⟩ else
  if !UCreateShaderProgram env.lampShader then ⟨some EXIT_FAILURE, [], g, ids, gl⟩ else
  let t := loadTextures env.stbi_load ids gl
  if !t.1 then ⟨some EXIT_FAILURE, [], g, t.2.1, t.2.2⟩ else
  let r := renderLoop 89 g env.frameInputs
  if !r.1.windowShouldClose then ⟨none, r.2, r.1, t.2.1, t.2.2⟩ else
  ⟨some EXIT_SUCCESS, r.2, r.1, t.2.1, releaseTextures t.2.1 t.2.2⟩

end

/-! ## The mesh -/

/-- Vertices 0 to 5 of `verts`, under the comment `Monitor / Front face`. -/
def verts_face00 : List ℚ := [
  0.5, 0.3, 0, 0, 0, 1, 1, 1,
  0.5, -0.3, 0, 0, 0, 1, 1, 0,
  -0.5, -0.3, 0, 0, 0, 1, 0, 0,
  0.5, 0.3, 0, 0, 0, 1, 1, 1,
  -0.5, -0.3, 0, 0, 0, 1, 0, 0,
  -0.5, 0.3, 0, 0, 0, 1, 0, 1]

/-- Vertices 6 to 11 of `verts`, under the comment `Back face`. -/
def verts_face01 : List ℚ := [
  0.5, 0.3, -0.05, 0, 0, -1, 1, 1,
  0.5, -0.3, -0.05, 0, 0, -1, 1, 0,
  -0.5, -0.3, -0.05, 0, 0, -1, 0, 0,
  0.5, 0.3, -0.05, 0, 0, -1, 1, 1,
  -0.5, -0.3, -0.05, 0, 0, -1, 0, 0,
  -0.5, 0.3, -0.05, 0, 0, -1, 0, 1]

/-- Vertices 12 to 17 of `verts`, under the comment `Top face`. -/
def verts_face02 : List ℚ := [
  0.5, 0.3, 0, 0, 1, 0, 1, 0,
  0.5, 0.3, -0.05, 0, 1, 0, 1, 1,
  -0.5, 0.3, 0, 0, 1, 0, 0, 0,
  0.5, 0.3, -0.05, 0, 1, 0, 1, 1,
  -0.5, 0.3, 0, 0, 1, 0, 0, 0,
  -0.5, 0.3, -0.05, 0, 1, 0, 0, 1]

/-- Vertices 18 to 23 of `verts`, under the comment `Left face`. -/
def verts_face03 : List ℚ := [
  -0.5, 0.3, 0, -1, 0, 0, 1, 0,
  -0.5, 0.3, -0.05, -1, 0, 0, 1, 1,
  -0.5, -0.3, 0, -1, 0, 0, 0, 0,
  -0.5, 0.3, -0.05, -1, 0, 0, 1, 1,
  -0.5, -0.3, 0, -1, 0, 0, 0, 0,
  -0.5, -0.3, -0.05, -1, 0, 0, 0, 1]

/-- Vertices 24 to 29 of `verts`, under the comment `Right face`. -/
def verts_face04 : List ℚ := [
  0.5, 0.3, 0, 1, 0, 0, 0, 0,
  0.5, 0.3, -0.05, 1, 0, 0, 0, 1,
  0.5, -0.3, 0, 1, 0, 0, 1, 0,
  0.5, 0.3, -0.05, 1, 0, 0, 0, 1,
  0.5, -0.3, 0, 1, 0, 0, 1, 0,
  0.5, -0.3, -0.05, 1, 0, 0, 1, 1]

/-- Vertices 30 to 35 of `verts`, under the comment `Bottom face`. -/
def verts_face05 : List ℚ := [
  0.5, -0.3, 0, 0, -1, 0, 1, 0,
  0.5, -0.3, -0.05, 0, -1, 0, 1, 1,
  -0.5, -0.3, 0, 0, -1, 0, 0, 0,
  0.5, -0.3, -0.05, 0, -1, 0, 1, 1,
  -0.5, -0.3, 0, 0, -1, 0, 0, 0,
  -0.5, -0.3, -0.05, 0, -1, 0, 0, 1]

/-- Vertices 36 to 41 of `verts`, under the comment `Monitor Stand / Front face`. -/
def verts_face06 : List ℚ := [
  0.01, -0.1, -0.05, 0, 0, 1, 1, 1,
  0.01, -0.5, -0.1, 0, 0, 1, 1, 0,
  -0.01, -0.5, -0.1, 0, 0, 1, 0, 0,
  0.01, -0.5, -0.1, 0, 0, 1, 1, 0,
  -0.01, -0.5, -0.1, 0, 0, 1, 0, 0,
  -0.01, -0.1, -0.05, 0, 0, 1, 0, 1]

/-- Vertices 42 to 47 of `verts`, under the comment `Back face`. -/
def verts_face07 : List ℚ := [
  0.01, -0.1, -0.1, 0, 0, -1, 1, 1,
  0.01, -0.5, -0.15, 0, 0, -1, 1, 0,
  -0.01, -0.5, -0.15, 0, 0, -1, 0, 0,
  0.01, -0.5, -0.15, 0, 0, -1, 1, 1,
  -0.01, -0.5, -0.15, 0, 0, -1, 0, 0,
  -0.01, -0.1, -0.1, 0, 0, -1, 0, 1]

/-- Vertices 48 to 53 of `verts`, under the comment `Right face`. -/
def verts_face08 : List ℚ := [
  0.01, -0.1, -0.05, 1, 0, 0, 0, 1,
  0.01, -0.1, -0.1, 1, 0, 0, 1, 1,
  0.01, -0.5, -0.1, 1, 0, 0, 0, 0,
  0.01, -0.1, -0.1, 1, 0, 0, 1, 1,
  0.01, -0.5, -0.1, 1, 0, 0, 0, 0,
  0.01, -0.5, -0.15, 1, 0, 0, 0, 1]

/-- Vertices 54 to 59 of `verts`, under the comment `Left face`. -/
def verts_face09 : List ℚ := [
  -0.01, -0.1, -0.05, -1, 0, 0, 0, 1,
  -0.01, -0.1, -0.1, -1, 0, 0, 1, 1,
  -0.01, -0.5, -0.1, -1, 0, 0, 0, 0,
  -0.01, -0.1, -0.1, -1, 0, 0, 1, 1,
  -0.01, -0.5, -0.1, -1, 0, 0, 0, 0,
  -0.01, -0.5, -0.15, -1, 0, 0, 0, 1]

/-- Vertices 60 to 65 of `verts`, under the comment `Front face`. -/
def verts_face10 : List ℚ := [
  0.2, -0.5, 0.1, 0, 0, 1, 1, 1,
  0.2, -0.52, 0.1, 0, 0, 1, 0, 1,
  -0.2, -0.52, 0.1, 0, 0, 1, 0, 0,
  0.2, -0.5, 0.1, 0, 0, 1, 1, 1,
  -0.2, -0.52, 0.1, 0, 0, 1, 0, 0,
  -0.2, -0.5, 0.1, 0, 0, 1, 0, 1]

/-- Vertices 66 to 71 of `verts`, under the comment `Back face`. -/
def verts_face11 : List ℚ := [
  0.2, -0.5, -0.2, 0, 0, -1, 1, 1,
  0.2, -0.52, -0.2, 0, 0, -1, 0, 1,
  -0.2, -0.52, -0.2, 0, 0, -1, 0, 0,
  0.2, -0.5, -0.2, 0, 0, -1, 1, 1,
  -0.2, -0.52, -0.2, 0, 0, -1, 0, 0,
  -0.2, -0.5, -0.2, 0, 0, -1, 0, 1]

/-- Vertices 72 to 77 of `verts`, under the comment `Top face`. -/
def verts_face12 : List ℚ := [
  0.2, -0.5, 0.1, 0, 1, 0, 0, 1,
  0.2, -0.5, -0.2, 0, 1, 0, 1, 1,
  -0.2, -0.5, 0.1, 0, 1, 0, 0, 0,
  0.2, -0.5, -0.2, 0, 1, 0, 1, 1,
  -0.2, -0.5, 0.1, 0, 1, 0, 0, 0,
  -0.2, -0.5, -0.2, 0, 1, 0, 0, 1]

/-- Vertices 78 to 83 of `verts`, under the comment `Bottom face`. -/
def verts_face13 : List ℚ := [
  0.2, -0.52, 0.1, 0, -1, 0, 0, 1,
  0.2, -0.52, -0.2, 0, -1, 0, 1, 1,
  -0.2, -0.52, 0.1, 0, -1, 0, 0, 0,
  0.2, -0.52, -0.2, 0, -1, 0, 1, 1,
  -0.2, -0.52, 0.1, 0, -1, 0, 0, 0,
  -0.2, -0.52, -0.2, 0, -1, 0, 0, 1]

/-- Vertices 84 to 89 of `verts`, under the comment `Right face`. -/
def verts_face14 : List ℚ := [
  0.2, -0.5, 0.1, 1, 0, 0, 0, 1,
  0.2, -0.52, 0.1, 1, 0, 0, 0, 0,
  0.2, -0.5, -0.2, 1, 0, 0, 1, 1,
  0.2, -0.52, 0.1, 1, 0, 0, 0, 0,
  0.2, -0.5, -0.2, 1, 0, 0, 1, 1,
  0.2, -0.52, -0.2, 1, 0, 0, 1, 0]

/-- Vertices 90 to 95 of `verts`, under the comment `Left face`. -/
def verts_face15 : List ℚ := [
  -0.2, -0.5, 0.1, -1, 0, 0, 1, 1,
  -0.2, -0.52, 0.1, -1, 0, 0, 1, 0,
  -0.2, -0.5, -0.2, -1, 0, 0, 0, 1,
  -0.2, -0.52, 0.1, -1, 0, 0, 1, 0,
  -0.2, -0.5, -0.2, -1, 0, 0, 0, 1,
  -0.2, -0.52, -0.2, -1, 0, 0, 0, 0]

/-- Vertices 96 to 101 of `verts`, under the comment `Screen`. -/
def verts_face16 : List ℚ := [
  0.48, 0.28, 0.0001, 0, 0, 1, 1, 1,
  0.48, -0.28, 0.0001, 0, 0, 1, 1, 0,
  -0.48, -0.28, 0.0001, 0, 0, 1, 0, 0,
  0.48, 0.28, 0.0001, 0, 0, 1, 1, 1,
  -0.48, -0.28, 0.0001, 0, 0, 1, 0, 0,
  -0.48, 0.28, 0.0001, 0, 0, 1, 0, 1]

/-- Vertices 102 to 107 of `verts`, under the comment `Desk`. -/
def verts_face17 : List ℚ := [
  1.6, -0.53, -0.4, 0, 1, 0, 1, 1,
  1.6, -0.53, 1, 0, 1, 0, 0, 1,
  -1.4, -0.53, 1, 0, 1, 0, 0, 0,
  1.6, -0.53, -0.4, 0, 1, 0, 1, 1,
  -1.4, -0.53, 1, 0, 1, 0, 0, 0,
  -1.4, -0.53, -0.4, 0, 1, 0, 0, 1]

/-- Vertices 108 to 113 of `verts`, under the comment `Keyboard / Front face`. -/
def verts_face18 : List ℚ := [
  0.3, -0.515, 0.5, 0, 0, 1, 1, 1,
  0.3, -0.52, 0.5, 0, 0, 1, 0, 1,
  -0.3, -0.52, 0.5, 0, 0, 1, 0, 0,
  0.3, -0.515, 0.5, 0, 0, 1, 1, 1,
  -0.3, -0.52, 0.5, 0, 0, 1, 0, 0,
  -0.3, -0.515, 0.5, 0, 0, 1, 0, 1]

/-- Vertices 114 to 119 of `verts`, under the comment `Back face`. -/
def verts_face19 : List ℚ := [
  0.3, -0.5, 0.3, 0, 0, -1, 1, 1,
  0.3, -0.52, 0.3, 0, 0, -1, 1, 0,
  -0.3, -0.52, 0.3, 0, 0, -1, 0, 0,
  0.3, -0.5, 0.3, 0, 0, -1, 1, 1,
  -0.3, -0.52, 0.3, 0, 0, -1, 0, 0,
  -0.3, -0.5, 0.3, 0, 0, -1, 0, 1]

/-- Vertices 120 to 125 of `verts`, under the comment `Bottom face`. -/
def verts_face20 : List ℚ := [
  0.3, -0.52, 0.3, 0, -1, 0, 1, 1,
  0.3, -0.52, 0.5, 0, -1, 0, 1, 0,
  -0.3, -0.52, 0.5, 0, -1, 0, 0, 0,
  0.3, -0.52, 0.3, 0, -1, 0, 1, 1,
  -0.3, -0.52, 0.5, 0, -1, 0, 0, 0,
  -0.3, -0.52, 0.3, 0, -1, 0, 0, 1]

/-- Vertices 126 to 131 of `verts`, under the comment `Right face`. -/
def verts_face21 : List ℚ := [
  0.3, -0.5, 0.3, 1, 0, 0, 1, 1,
  0.3, -0.52, 0.3, 1, 0, 0, 1, 0,
  0.3, -0.52, 0.5, 1, 0, 0, 0, 0,
  0.3, -0.5, 0.3, 1, 0, 0, 1, 1,
  0.3, -0.52, 0.5, 1, 0, 0, 0, 0,
  0.3, -0.515, 0.5, 1, 0, 0, 0, 1]

/-- Vertices 132 to 137 of `verts`, under the comment `Left face`. -/
def verts_face22 : List ℚ := [
  -0.3, -0.515, 0.5, -1, 0, 0, 1, 1,
  -0.3, -0.52, 0.5, -1, 0, 0, 1, 0,
  -0.3, -0.52, 0.3, -1, 0, 0, 0, 0,
  -0.3, -0.515, 0.5, -1, 0, 0, 1, 1,
  -0.3, -0.52, 0.3, -1, 0, 0, 0, 0,
  -0.3, -0.5, 0.3, -1, 0, 0, 0, 1]

/-- Vertices 138 to 143 of `verts`, under the comment `Top face`. -/
def verts_face23 : List ℚ := [
  0.3, -0.5, 0.3, 0, 1, 0, 1, 1,
  0.3, -0.515, 0.5, 0, 1, 0, 1, 0,
  -0.3, -0.515, 0.5, 0, 1, 0, 0, 0,
  0.3, -0.5, 0.3, 0, 1, 0, 1, 1,
  -0.3, -0.515, 0.5, 0, 1, 0, 0, 0,
  -0.3, -0.5, 0.3, 0, 1, 0, 0, 1]

/-- Vertices 144 to 149 of `verts`, under the comment `Acrylic Photo Frame / Front face`. -/
def verts_face24 : List ℚ := [
  0.9, -0.2, 0.2, 0, 0, 1, 1, 1,
  0.9, -0.52, 0.2, 0, 0, 1, 1, 0,
  0.7, -0.52, 0.2, 0, 0, 1, 0, 0,
  0.9, -0.2, 0.2, 0, 0, 1, 1, 1,
  0.7, -0.52, 0.2, 0, 0, 1, 0, 0,
  0.7, -0.2, 0.2, 0, 0, 1, 0, 1]

/-- Vertices 150 to 155 of `verts`, under the comment `Back face`. -/
def verts_face25 : List ℚ := [
  0.7, -0.2, 0.15, 0, 0, -1, 1, 1,
  0.7, -0.52, 0.15, 0, 0, -1, 1, 0,
  0.9, -0.52, 0.15, 0, 0, -1, 0, 0,
  0.7, -0.2, 0.15, 0, 0, -1, 1, 1,
  0.9, -0.52, 0.15, 0, 0, -1, 0, 0,
  0.9, -0.2, 0.15, 0, 0, -1, 0, 1]

/-- Vertices 156 to 161 of `verts`, under the comment `Bottom face`. -/
def verts_face26 : List ℚ := [
  0.7, -0.52, 0.15, 0, -1, 0, 1, 1,
  0.7, -0.52, 0.2, 0, -1, 0, 1, 0,
  0.9, -0.52, 0.2, 0, -1, 0, 0, 0,
  0.7, -0.52, 0.15, 0, -1, 0, 1, 1,
  0.9, -0.52, 0.2, 0, -1, 0, 0, 0,
  0.9, -0.52, 0.15, 0, -1, 0, 0, 1]

/-- Vertices 162 to 167 of `verts`, under the comment `Right face`. -/
def verts_face27 : List ℚ := [
  0.7, -0.2, 0.15, -1, 0, 0, 1, 1,
  0.7, -0.52, 0.15, -1, 0, 0, 1, 0,
  0.7, -0.52, 0.2, -1, 0, 0, 0, 0,
  0.7, -0.2, 0.15, -1, 0, 0, 1, 1,
  0.7, -0.52, 0.2, -1, 0, 0, 0, 0,
  0.7, -0.2, 0.2, -1, 0, 0, 0, 1]

/-- Vertices 168 to 173 of `verts`, under the comment `Left face`. -/
def verts_face28 : List ℚ := [
  0.9, -0.2, 0.2, 1, 0, 0, 1, 1,
  0.9, -0.52, 0.2, 1, 0, 0, 1, 0,
  0.9, -0.52, 0.15, 1, 0, 0, 0, 0,
  0.9, -0.2, 0.2, 1, 0, 0, 1, 1,
  0.9, -0.52, 0.15, 1, 0, 0, 0, 0,
  0.9, -0.2, 0.15, 1, 0, 0, 0, 1]

/-- Vertices 174 to 179 of `verts`, under the comment `Top face`. -/
def verts_face29 : List ℚ := [
  0.7, -0.2, 0.15, 0, 1, 0, 1, 1,
  0.7, -0.2, 0.2, 0, 1, 0, 1, 0,
  0.9, -0.2, 0.2, 0, 1, 0, 0, 0,
  0.7, -0.2, 0.15, 0, 1, 0, 1, 1,
  0.9, -0.2, 0.2, 0, 1, 0, 0, 0,
  0.9, -0.2, 0.15, 0, 1, 0, 0, 1]

/-- The array `verts` of `UCreateMesh`: for each vertex three position floats,
three normal floats and two texture coordinates, one vertex per line, in the
order of the source. -/
def verts : List ℚ :=
  verts_face00 ++ verts_face01 ++ verts_face02 ++ verts_face03 ++
  verts_face04 ++ verts_face05 ++ verts_face06 ++ verts_face07 ++
  verts_face08 ++ verts_face09 ++ verts_face10 ++ verts_face11 ++
  verts_face12 ++ verts_face13 ++ verts_face14 ++ verts_face15 ++
  verts_face16 ++ verts_face17 ++ verts_face18 ++ verts_face19 ++
  verts_face20 ++ verts_face21 ++ verts_face22 ++ verts_face23 ++
  verts_face24 ++ verts_face25 ++ verts_face26 ++ verts_face27 ++
  verts_face28 ++ verts_face29

/-- The struct `GLMesh`. -/
structure GLMesh where
  vao : Nat
  vbo : Nat
  nVertices : Nat

/-- The size in bytes of a `GLfloat`. -/
def sizeofFloat : Nat := 4

/-- `UCreateMesh`: the vertex count is `sizeof(verts)` over the size of one
vertex of 3 + 3 + 2 floats, held in a `GLuint`; `vao` and `vbo` are the names
that `glGenVertexArrays` and `glGenBuffers` hand out. -/
def UCreateMesh (vao vbo : Nat) : GLMesh :=
  let floatsPerVertex := 3
  let floatsPerNormal := 3
  let floatsPerUV := 2
  { vao := vao,
    vbo := vbo,
    nVertices := (verts.length * sizeofFloat /
      (sizeofFloat * (floatsPerVertex + floatsPerNormal + floatsPerUV))) % 2 ^ 32 }

/-- A call `glDrawArrays(GL_TRIANGLES, first, count)` of `URender`, with the
program in use (the lamp program or the objects program) and the texture bound
to `GL_TEXTURE_2D` at the time. -/
structure DrawCall where
  lampProgram : Bool
  texture : Nat
  first : Nat
  count : Nat

/-- The draw calls of `URender`, in order: six with the objects program, each
after binding its texture, then the lamp with the lamp program. -/
def URender_drawCalls (ids : TextureIds) : List DrawCall :=
  [⟨false, ids.gTextureIdBlack, 0, 96⟩,
   ⟨false, ids.gTextureIdScreen, 96, 6⟩,
   ⟨false, ids.gTextureIdWood, 102, 6⟩,
   ⟨false, ids.gTextureIdBlack, 108, 30⟩,
   ⟨false, ids.gTextureIdKeyboard, 138, 6⟩,
   ⟨false, ids.gTextureIdPhoto, 144, 36⟩,
   ⟨true, ids.gTextureIdPhoto, 60, 36⟩]

/-! ## Notions used to state the properties -/

/-- The polled movement keys with their directions, in the order in which
`UProcessInput` is claimed to serve them. -/
def movementKeys : List (Key × Camera_Movement) :=
  [(.W, .FORWARD), (.S, .BACKWARD), (.A, .LEFT), (.D, .RIGHT), (.Q, .UP), (.E, .DOWN)]

/-- A call that changes the orientation or the zoom from pointer input, made
with the pitch constraint on. -/
def CameraCall.isMouseCall : CameraCall → Prop
  | .mouseMovement _ _ constrainPitch => constrainPitch = true
  | .mouseScroll _ => True
  | _ => False

/-- A `ProcessKeyboard` call. -/
def CameraCall.isKeyboardCall : CameraCall → Prop
  | .keyboard _ _ => True
  | _ => False

noncomputable section

/-- One of the six movement statements of `UProcessInput`:
`if (pressed) gCamera.ProcessKeyboard(direction, gDeltaTime);`. -/
def moveIf (b : ℝ) (pressed : Bool) (direction : Camera_Movement) (g : Globals) : Globals :=
  if pressed then g.call b (.keyboard direction g.gDeltaTime) else g

/-- The closing statement of `UProcessInput`, the lamp toggle on J and K. -/
def lampToggle (keys : Key → Bool) (g : Globals) : Globals :=
  if keys .J && !g.gIsLampOrbiting then { g with gIsLampOrbiting := true }
  else if keys .K && g.gIsLampOrbiting then { g with gIsLampOrbiting := false }
  else g

/-- The first statement of `UProcessInput`, the close request on ESCAPE. -/
def closeIf (pressed : Bool) (g : Globals) : Globals :=
  if pressed then { g with windowShouldClose := true } else g

/-- The camera of the program as `main` finds it, `Camera(glm::vec3(0, 0, 3))`,
with the speed 2.5 of the movement example and a sensitivity of 0.1 degrees
per pixel and a zoom of 45 degrees for the constants left open. -/
def startCamera : Camera := Camera.new ⟨0, 0, 3⟩ ⟨0, 1, 0⟩ (-90) 0 (5 / 2) (1 / 10) 45

/-- The globals after the first pointer callback of a run has reported the
position (0, 0). -/
def originSeenGlobals : Globals :=
  UMousePositionCallback 89 (initialGlobals (5 / 2) (1 / 10) 45) 0 0

/-- The globals after the pointer has been seen once at the window centre. -/
def seenGlobals : Globals :=
  { initialGlobals (5 / 2) (1 / 10) 45 with gFirstMouse := false }

end

/-- The file decodes and the decoded image has 3 or 4 channels. -/
def loadable (stbi_load : String → Option Image) (filename : String) : Bool :=
  match stbi_load filename with
  | some image => image.channels == 3 || image.channels == 4
  | none => false

/-- A pointer event: one that makes its callback call `ProcessMouseMovement` or
`ProcessMouseScroll`. -/
def Event.isPointer : Event → Bool
  | .cursorPos _ _ => true
  | .scroll _ _ => true
  | _ => false

/-- The zoom of the camera is a field of view between 1 and 45 degrees. -/
def zoomInRange (c : Camera) : Prop := 1 ≤ c.Zoom ∧ c.Zoom ≤ 45

/-- The five texture files that `main` loads, in order. -/
def textureFiles : List String :=
  ["blackPlastic.jpg", "screen.jpg", "wood.jpg", "keyboard.jpg", "photo.png"]

noncomputable section

/-- A run in which the window, GLEW and both shader programs come up and one
frame is waiting, but the image decoder finds none of the files. -/
def noFilesEnv : Env :=
  { windowCreated := true,
    glewInitOk := true,
    objectsShader := ⟨true, true, true⟩,
    lampShader := ⟨true, true, true⟩,
    stbi_load := fun _ => none,
    frameInputs := [⟨0, fun _ => false, []⟩],
    movementSpeed := 5 / 2,
    mouseSensitivity := 1 / 10,
    zoom := 45 }

end

noncomputable section

/-- The values of `gDeltaTime` in the successive iterations that the render
loop runs on the given frame inputs. -/
def frameDeltas (pitchBound : ℝ) : Globals → List FrameInput → List ℝ
  | _, [] => []
  | g, i :: rest =>
    if g.windowShouldClose then []
    else (renderLoopBody pitchBound g i).1.gDeltaTime ::
      frameDeltas pitchBound (renderLoopBody pitchBound g i).1 rest

/-- The frame times that the timing statements of the render loop compute
from successive clock readings: each reading is narrowed to `float`, and its
`float` difference to the previous narrowed reading, at first `last`, is
taken. -/
def floatClockDiffs (last : ℝ) : List ℝ → List ℝ
  | [] => []
  | t :: ts => toFloat (toFloat t - last) :: floatClockDiffs (toFloat t) ts

/-- The differences of successive clock readings, the first one taken against
`last`. -/
def clockDiffs (last : ℝ) : List ℝ → List ℝ
  | [] => []
  | t :: ts => (t - last) :: clockDiffs t ts

/-- A run in which everything comes up, all five textures load as one RGB
pixel, and two frames are rendered at the clock readings 1 and 3 with W held
down, the second one closing the window with ESCAPE. -/
def twoFramesEnv : Env :=
  { windowCreated := true,
    glewInitOk := true,
    objectsShader := ⟨true, true, true⟩,
    lampShader := ⟨true, true, true⟩,
    stbi_load := fun _ => some ⟨1, 1, 3, [0, 0, 0]⟩,
    frameInputs := [⟨1, fun k => decide (k = Key.W), []⟩,
                    ⟨3, fun k => decide (k = Key.W ∨ k = Key.ESCAPE), []⟩],
    movementSpeed := 5 / 2,
    mouseSensitivity := 1 / 10,
    zoom := 45 }

end

noncomputable section

/-- The rotation of a point about the world Y axis by `angle` radians. -/
def rotateAboutY (angle : ℝ) (p : Vec3) : Vec3 :=
  ⟨p.x * Real.cos angle + p.z * Real.sin angle, p.y,
    p.z * Real.cos angle - p.x * Real.sin angle⟩

/-- `URender` run once for each of the given frame times in turn, each frame
time being what the loop has stored in `gDeltaTime` for that frame. -/
def renderFrames (pitchBound : ℝ) (g : Globals) (frameTimes : List ℝ) : Globals :=
  frameTimes.foldl (fun g dt => (URender pitchBound { g with gDeltaTime := dt }).1) g

/-- The globals of a run with the lamp set orbiting. -/
def orbitingGlobals : Globals :=
  { initialGlobals (5 / 2) (1 / 10) 45 with gIsLampOrbiting := true }

end

/-! ## `flipImageVertically` with `int` arithmetic and checked accesses -/

/-- The largest value of a 32-bit `int`. -/
def INT_MAX : Nat := 2147483647

/-- The value that a 32-bit `int` holds when the mathematical result is `n`:
the two's complement wrap into [-2^31, 2^31). -/
def wrapInt (n : Int) : Int := (n + 2147483648) % 4294967296 - 2147483648

/-- A byte buffer under execution, together with the log of the index pairs
that the loop body has accessed so far (oldest first). -/
structure Buffer where
  bytes : List Nat
  accesses : List (Int × Int)

/-- The body of the inner loop of `flipImageVertically` without the
increments: `tmp = image[index1]; image[index1] = image[index2];
image[index2] = tmp`.  There is no result when an index lies outside the
buffer. -/
def swapChecked (s : Buffer) (index1 index2 : Int) : Option Buffer :=
  if 0 ≤ index1 ∧ index1 < s.bytes.length ∧ 0 ≤ index2 ∧ index2 < s.bytes.length then
    some ⟨swapBytes s.bytes index1.toNat index2.toNat, s.accesses ++ [(index1, index2)]⟩
  else none

/-- The inner loop of `flipImageVertically` on `int` indices, with `i`
iterations still to run. -/
def flipRowInt (s : Buffer) (index1 index2 : Int) : Nat → Option Buffer
  | 0 => some s
  | i + 1 =>
    match swapChecked s index1 index2 with
    | some s => flipRowInt s (wrapInt (index1 + 1)) (wrapInt (index2 + 1)) i
    | none => none

/-- The outer loop of `flipImageVertically` on `int` values at row `j`, with
`n` iterations still to run.  The products are taken left to right, as C
does, and each result wraps. -/
def flipRowsInt (width height channels : Int) : Nat → Int → Buffer → Option Buffer
  | 0, _, s => some s
  | n + 1, j, s =>
    let index1 := wrapInt (wrapInt (j * width) * channels)
    let index2 := wrapInt (wrapInt (wrapInt (wrapInt (height - 1) - j) * width) * channels)
    match flipRowInt s index1 index2 (wrapInt (width * channels)).toNat with
    | some s => flipRowsInt width height channels n (wrapInt (j + 1)) s
    | none => none

/-- `flipImageVertically` as the machine runs it: `int` arithmetic that wraps,
`height / 2` rounded towards zero, and every access checked against the
buffer.  The result is the buffer after the call with the accesses made, or
nothing when the call leaves the buffer. -/
def flipImageVerticallyInt (image : List Nat) (width height channels : Int) : Option Buffer :=
  flipRowsInt width height channels (Int.tdiv height 2).toNat 0 ⟨image, []⟩

/-- The index pair is the same offset `k` in an upper row `r` and in its mirror
row `h - 1 - r`, for rows of `W` bytes. -/
def mirrorPair (W h : Nat) (p : Int × Int) : Prop :=
  ∃ r k : Nat, r < h / 2 ∧ k < W ∧
    p.1 = ((r * W + k : Nat) : Int) ∧ p.2 = (((h - 1 - r) * W + k : Nat) : Int)

/-- The list `out` is `image` with its `height` rows of `rowBytes` bytes each in
reverse order: the byte at row `j`, offset `k` of `out` is the byte at row
`height - 1 - j`, offset `k` of `image`, and the lengths agree. -/
def RowsReversed (image out : List Nat) (height rowBytes : Nat) : Prop :=
  out.length = image.length ∧
  ∀ j k, j < height → k < rowBytes →
    out[j * rowBytes + k]? = image[(height - 1 - j) * rowBytes + k]?

/-! ## Theorems -/

noncomputable section

/-! ### Rounding -/

theorem roundHalfEven_intCast (n : ℤ) : roundHalfEven (n : ℝ) = n := by
  unfold roundHalfEven
  simp

theorem roundHalfEven_ge_floor (y : ℝ) : ⌊y⌋ ≤ roundHalfEven y := by
  unfold roundHalfEven
  split_ifs <;> omega

theorem roundHalfEven_le_floor_succ (y : ℝ) : roundHalfEven y ≤ ⌊y⌋ + 1 := by
  unfold roundHalfEven
  split_ifs <;> omega

theorem roundHalfEven_mono {a b : ℝ} (h : a ≤ b) : roundHalfEven a ≤ roundHalfEven b := by
  have hfl : ⌊a⌋ ≤ ⌊b⌋ := Int.floor_mono h
  rcases lt_or_eq_of_le hfl with hlt | heq
  · calc roundHalfEven a ≤ ⌊a⌋ + 1 := roundHalfEven_le_floor_succ a
      _ ≤ ⌊b⌋ := hlt
      _ ≤ roundHalfEven b := roundHalfEven_ge_floor b
  · unfold roundHalfEven
    rw [heq]
    have hab : a - (⌊b⌋ : ℝ) ≤ b - (⌊b⌋ : ℝ) := by linarith
    split_ifs <;> first | omega | (exfalso; linarith)

theorem roundHalfEven_nonneg {y : ℝ} (h : 0 ≤ y) : 0 ≤ roundHalfEven y := by
  have := roundHalfEven_mono h
  rwa [show ((0 : ℝ)) = ((0 : ℤ) : ℝ) by norm_num, roundHalfEven_intCast] at this

theorem roundBinary_zero (p : ℕ) (m : ℤ) : roundBinary p m 0 = 0 := by
  unfold roundBinary
  rw [zero_div, show ((0 : ℝ)) = ((0 : ℤ) : ℝ) by norm_num, roundHalfEven_intCast]
  simp

theorem roundBinary_nonneg (p : ℕ) (m : ℤ) {x : ℝ} (h : 0 ≤ x) : 0 ≤ roundBinary p m x := by
  unfold roundBinary
  have hu : (0 : ℝ) < 2 ^ ulpExponent p m x := zpow_pos (by norm_num) _
  have : 0 ≤ roundHalfEven (x / 2 ^ ulpExponent p m x) :=
    roundHalfEven_nonneg (div_nonneg h hu.le)
  have h2 : (0 : ℝ) ≤ (roundHalfEven (x / 2 ^ ulpExponent p m x) : ℝ) := by exact_mod_cast this
  exact mul_nonneg h2 hu.le


theorem roundBinary_le_pow (p : ℕ) (m : ℤ) (x : ℝ) :
    roundBinary p m x ≤ 2 ^ (max (Int.log 2 |x|) m + 1) := by
  unfold roundBinary ulpExponent
  set E := max (Int.log 2 |x|) m with hE
  have hu : (0 : ℝ) < 2 ^ (E - ((p : ℤ) - 1)) := zpow_pos (by norm_num) _
  have hx : x < 2 ^ (E + 1) := by
    have h1 : |x| < ((2 : ℕ) : ℝ) ^ (Int.log 2 |x| + 1) :=
      Int.lt_zpow_succ_log_self (by norm_num) _
    have h2 : ((2 : ℕ) : ℝ) ^ (Int.log 2 |x| + 1) ≤ ((2 : ℕ) : ℝ) ^ (E + 1) :=
      zpow_le_zpow_right₀ (by norm_num) (by have := le_max_left (Int.log 2 |x|) m; omega)
    have h3 := lt_of_le_of_lt (le_abs_self x) (lt_of_lt_of_le h1 h2)
    simpa using h3
  have hsplit : (2 : ℝ) ^ (E + 1) = ((2 ^ p : ℤ) : ℝ) * 2 ^ (E - ((p : ℤ) - 1)) := by
    push_cast
    rw [← zpow_natCast, ← zpow_add₀ (by norm_num : (2 : ℝ) ≠ 0)]
    congr 1
    ring
  have hq : x / 2 ^ (E - ((p : ℤ) - 1)) ≤ ((2 ^ p : ℤ) : ℝ) := by
    rw [div_le_iff₀ hu, ← hsplit]
    exact hx.le
  have hr := roundHalfEven_mono hq
  rw [roundHalfEven_intCast] at hr
  have hr2 : (roundHalfEven (x / 2 ^ (E - ((p : ℤ) - 1))) : ℝ) ≤ ((2 ^ p : ℤ) : ℝ) := by
    exact_mod_cast hr
  rw [hsplit]
  exact mul_le_mul_of_nonneg_right hr2 hu.le

theorem roundBinary_ge_pow (p : ℕ) (hp : 1 ≤ p) (m : ℤ) {x : ℝ} (h : 0 < x)
    (hm : m < Int.log 2 |x|) :
    (2 : ℝ) ^ max (Int.log 2 |x|) m ≤ roundBinary p m x := by
  unfold roundBinary ulpExponent
  rw [max_eq_left hm.le]
  set E := Int.log 2 |x| with hE
  have hu : (0 : ℝ) < 2 ^ (E - ((p : ℤ) - 1)) := zpow_pos (by norm_num) _
  have hx : (2 : ℝ) ^ E ≤ x := by
    have h1 : ((2 : ℕ) : ℝ) ^ Int.log 2 |x| ≤ |x| :=
      Int.zpow_log_le_self (by norm_num) (abs_pos.mpr h.ne')
    have h3 := h1.trans (le_of_eq (abs_of_pos h))
    simpa using h3
  have hsplit : (2 : ℝ) ^ E = ((2 ^ (p - 1) : ℤ) : ℝ) * 2 ^ (E - ((p : ℤ) - 1)) := by
    push_cast
    rw [← zpow_natCast, ← zpow_add₀ (by norm_num : (2 : ℝ) ≠ 0)]
    congr 1
    have : ((p - 1 : ℕ) : ℤ) = (p : ℤ) - 1 := by omega
    rw [this]
    ring
  have hq : ((2 ^ (p - 1) : ℤ) : ℝ) ≤ x / 2 ^ (E - ((p : ℤ) - 1)) := by
    rw [le_div_iff₀ hu, ← hsplit]
    exact hx
  have hr := roundHalfEven_mono hq
  rw [roundHalfEven_intCast] at hr
  have hr2 : ((2 ^ (p - 1) : ℤ) : ℝ) ≤ (roundHalfEven (x / 2 ^ (E - ((p : ℤ) - 1))) : ℝ) := by
    exact_mod_cast hr
  rw [hsplit]
  exact mul_le_mul_of_nonneg_right hr2 hu.le

theorem roundBinary_mono_of_nonneg (p : ℕ) (hp : 1 ≤ p) (m : ℤ) {x y : ℝ} (h0 : 0 ≤ x)
    (hxy : x ≤ y) : roundBinary p m x ≤ roundBinary p m y := by
  rcases eq_or_lt_of_le h0 with hx0 | hxpos
  · rw [← hx0, roundBinary_zero]
    exact roundBinary_nonneg p m (h0.trans hxy)
  have hypos : 0 < y := lt_of_lt_of_le hxpos hxy
  have hlog : Int.log 2 |x| ≤ Int.log 2 |y| := by
    rw [abs_of_pos hxpos, abs_of_pos hypos]
    exact Int.log_mono_right hxpos hxy
  have hE : max (Int.log 2 |x|) m ≤ max (Int.log 2 |y|) m := max_le_max hlog le_rfl
  rcases eq_or_lt_of_le hE with heq | hlt
  · unfold roundBinary ulpExponent
    rw [heq]
    have hu : (0 : ℝ) < 2 ^ (max (Int.log 2 |y|) m - ((p : ℤ) - 1)) := zpow_pos (by norm_num) _
    have hq : x / 2 ^ (max (Int.log 2 |y|) m - ((p : ℤ) - 1)) ≤
        y / 2 ^ (max (Int.log 2 |y|) m - ((p : ℤ) - 1)) :=
      div_le_div_of_nonneg_right hxy hu.le
    have hr := roundHalfEven_mono hq
    have hr2 : (roundHalfEven (x / 2 ^ (max (Int.log 2 |y|) m - ((p : ℤ) - 1))) : ℝ) ≤
        (roundHalfEven (y / 2 ^ (max (Int.log 2 |y|) m - ((p : ℤ) - 1))) : ℝ) := by
      exact_mod_cast hr
    exact mul_le_mul_of_nonneg_right hr2 hu.le
  · have hmy : m < Int.log 2 |y| := by
      have := le_max_right (Int.log 2 |x|) m
      rcases max_cases (Int.log 2 |y|) m with ⟨h1, _⟩ | ⟨h1, _⟩ <;> omega
    calc roundBinary p m x ≤ 2 ^ (max (Int.log 2 |x|) m + 1) := roundBinary_le_pow p m x
      _ ≤ 2 ^ max (Int.log 2 |y|) m := zpow_le_zpow_right₀ (by norm_num) (by omega)
      _ ≤ roundBinary p m y := roundBinary_ge_pow p hp m hypos hmy


theorem roundHalfEven_down (n : ℤ) (y : ℝ) (h1 : (n : ℝ) ≤ y) (h2 : y < n + 1 / 2) :
    roundHalfEven y = n := by
  have hfl : ⌊y⌋ = n := by
    rw [Int.floor_eq_iff]
    constructor <;> linarith
  unfold roundHalfEven
  rw [hfl, if_pos (by linarith)]

theorem roundHalfEven_up (n : ℤ) (y : ℝ) (h1 : (n : ℝ) + 1 / 2 < y) (h2 : y < n + 1) :
    roundHalfEven y = n + 1 := by
  have hfl : ⌊y⌋ = n := by
    rw [Int.floor_eq_iff]
    constructor <;> linarith
  unfold roundHalfEven
  rw [hfl, if_neg (by linarith), if_pos (by linarith)]

theorem roundHalfEven_tie_even (n : ℤ) (y : ℝ) (hy : y = n + 1 / 2) (hn : n % 2 = 0) :
    roundHalfEven y = n := by
  have hfl : ⌊y⌋ = n := by
    rw [Int.floor_eq_iff]
    constructor <;> linarith
  unfold roundHalfEven
  rw [hfl, if_neg (by linarith), if_neg (by linarith), if_pos hn]

theorem ulpExponent_eq (p : ℕ) (m : ℤ) (x : ℝ) (e : ℤ) (hm : m ≤ e)
    (hlo : (2 : ℝ) ^ e ≤ |x|) (hhi : |x| < 2 ^ (e + 1)) :
    ulpExponent p m x = e - ((p : ℤ) - 1) := by
  have hpos : 0 < |x| := lt_of_lt_of_le (zpow_pos (by norm_num) _) hlo
  have h1 : e ≤ Int.log 2 |x| := by
    rw [← Int.zpow_le_iff_le_log (by norm_num) hpos]
    simpa using hlo
  have h2 : Int.log 2 |x| < e + 1 := by
    rw [← Int.lt_zpow_iff_log_lt (by norm_num) hpos]
    simpa using hhi
  unfold ulpExponent
  rw [max_eq_left (by omega)]
  omega

theorem roundBinary_eval (p : ℕ) (m : ℤ) (x : ℝ) (e k : ℤ) (hm : m ≤ e)
    (hlo : (2 : ℝ) ^ e ≤ |x|) (hhi : |x| < 2 ^ (e + 1))
    (hk : roundHalfEven (x / 2 ^ (e - ((p : ℤ) - 1))) = k) :
    roundBinary p m x = k * 2 ^ (e - ((p : ℤ) - 1)) := by
  unfold roundBinary
  rw [ulpExponent_eq p m x e hm hlo hhi, hk]

theorem roundBinary_exact (p : ℕ) (m : ℤ) (x : ℝ) (e k : ℤ) (hm : m ≤ e)
    (hlo : (2 : ℝ) ^ e ≤ |x|) (hhi : |x| < 2 ^ (e + 1))
    (hk : x = k * 2 ^ (e - ((p : ℤ) - 1))) :
    roundBinary p m x = x := by
  have hu : (2 : ℝ) ^ (e - ((p : ℤ) - 1)) ≠ 0 := (zpow_pos (by norm_num) _).ne'
  rw [roundBinary_eval p m x e k hm hlo hhi, ← hk]
  rw [hk, mul_div_assoc, div_self hu, mul_one, roundHalfEven_intCast]

theorem toFloat_zero : toFloat 0 = 0 := roundBinary_zero _ _

theorem toDouble_zero : toDouble 0 = 0 := roundBinary_zero _ _

theorem toFloat_one : toFloat 1 = 1 := by
  refine roundBinary_exact 24 (-126) 1 0 8388608 (by norm_num) ?_ ?_ ?_ <;> norm_num

theorem toFloat_two : toFloat 2 = 2 := by
  refine roundBinary_exact 24 (-126) 2 1 8388608 (by norm_num) ?_ ?_ ?_ <;> norm_num

theorem toFloat_three : toFloat 3 = 3 := by
  refine roundBinary_exact 24 (-126) 3 1 12582912 (by norm_num) ?_ ?_ ?_ <;> norm_num

theorem toFloat_410 : toFloat 410 = 410 := by
  refine roundBinary_exact 24 (-126) 410 8 13434880 (by norm_num) ?_ ?_ ?_ <;> norm_num

theorem toFloat_290 : toFloat 290 = 290 := by
  refine roundBinary_exact 24 (-126) 290 8 9502720 (by norm_num) ?_ ?_ ?_ <;> norm_num

theorem toDouble_one : toDouble 1 = 1 := by
  refine roundBinary_exact 53 (-1022) 1 0 4503599627370496 (by norm_num) ?_ ?_ ?_ <;> norm_num

theorem toDouble_16777217 : toDouble 16777217 = 16777217 := by
  refine roundBinary_exact 53 (-1022) 16777217 24 4503599895805952 (by norm_num) ?_ ?_ ?_ <;>
    norm_num

theorem toFloat_16777217 : toFloat 16777217 = 16777216 := by
  have h : toFloat 16777217 = (8388608 : ℤ) * 2 ^ ((24 : ℤ) - (((24 : ℕ) : ℤ) - 1)) := by
    refine roundBinary_eval 24 (-126) 16777217 24 8388608 (by norm_num) ?_ ?_ ?_
    · norm_num
    · norm_num
    · exact roundHalfEven_tie_even 8388608 _ (by norm_num) (by norm_num)
  rw [h]
  norm_num

theorem toFloat_one_ulp_half : toFloat (16777217 / 16777216) = 1 := by
  have h : toFloat (16777217 / 16777216) =
      (8388608 : ℤ) * 2 ^ ((0 : ℤ) - (((24 : ℕ) : ℤ) - 1)) := by
    refine roundBinary_eval 24 (-126) (16777217 / 16777216) 0 8388608 (by norm_num) ?_ ?_ ?_
    · norm_num [abs_of_pos]
    · norm_num [abs_of_pos]
    · exact roundHalfEven_tie_even 8388608 _ (by norm_num) (by norm_num)
  rw [h]
  norm_num

theorem roundBinary_of_tiny (p : ℕ) (m : ℤ) (x : ℝ) (h0 : 0 ≤ x) (h1 : x < 2 ^ m)
    (h2 : x < 2 ^ (m - ((p : ℤ) - 1)) / 2) : roundBinary p m x = 0 := by
  rcases eq_or_lt_of_le h0 with hx0 | hxpos
  · rw [← hx0, roundBinary_zero]
  have hpos : 0 < |x| := abs_pos.mpr hxpos.ne'
  have hlog : Int.log 2 |x| < m := by
    rw [← Int.lt_zpow_iff_log_lt (by norm_num) hpos, abs_of_pos hxpos]
    simpa using h1
  have hu : ulpExponent p m x = m - ((p : ℤ) - 1) := by
    unfold ulpExponent
    rw [max_eq_right hlog.le]
  have hupos : (0 : ℝ) < 2 ^ (m - ((p : ℤ) - 1)) := zpow_pos (by norm_num) _
  have hr : roundHalfEven (x / 2 ^ (m - ((p : ℤ) - 1))) = 0 := by
    apply roundHalfEven_down
    · simp only [Int.cast_zero]
      exact div_nonneg h0 hupos.le
    · simp only [Int.cast_zero, zero_add]
      rw [div_lt_iff₀ hupos]
      linarith
  unfold roundBinary
  rw [hu, hr]
  simp

theorem toFloat_tiny : toFloat (1 / 2 ^ 200) = 0 := by
  refine roundBinary_of_tiny 24 (-126) _ (by positivity) ?_ ?_ <;> norm_num

theorem toDouble_tiny : toDouble (1 / 2 ^ 200) = 1 / 2 ^ 200 := by
  refine roundBinary_exact 53 (-1022) _ (-200) 4503599627370496 (by norm_num) ?_ ?_ ?_ <;>
    norm_num [abs_of_pos]

theorem toFloat_nonneg {x : ℝ} (h : 0 ≤ x) : 0 ≤ toFloat x := roundBinary_nonneg 24 (-126) h

theorem toDouble_nonneg {x : ℝ} (h : 0 ≤ x) : 0 ≤ toDouble x := roundBinary_nonneg 53 (-1022) h

theorem toFloat_mono_of_nonneg {x y : ℝ} (h0 : 0 ≤ x) (hxy : x ≤ y) : toFloat x ≤ toFloat y :=
  roundBinary_mono_of_nonneg 24 (by norm_num) (-126) h0 hxy

/-! ### The camera operations -/

theorem updateCameraVectors_Pitch (c : Camera) : (updateCameraVectors c).Pitch = c.Pitch := rfl

theorem updateCameraVectors_Zoom (c : Camera) : (updateCameraVectors c).Zoom = c.Zoom := rfl

theorem ProcessMouseScroll_Zoom_range (c : Camera) (y : ℝ) :
    1 ≤ (ProcessMouseScroll c y).Zoom ∧ (ProcessMouseScroll c y).Zoom ≤ 45 := by
  simp only [ProcessMouseScroll]
  split_ifs <;> constructor <;> linarith

/-! ### The call log -/

theorem call_cameraCalls (b : ℝ) (g : Globals) (k : CameraCall) :
    (g.call b k).cameraCalls = g.cameraCalls ++ [k] := rfl

theorem UProcessInput_eq (b : ℝ) (keys : Key → Bool) (g : Globals) :
    UProcessInput b keys g =
      lampToggle keys (moveIf b (keys .E) .DOWN (moveIf b (keys .Q) .UP
        (moveIf b (keys .D) .RIGHT (moveIf b (keys .A) .LEFT
          (moveIf b (keys .S) .BACKWARD (moveIf b (keys .W) .FORWARD
            (closeIf (keys .ESCAPE) g))))))) := rfl

theorem moveIf_cameraCalls (b : ℝ) (pressed : Bool) (d : Camera_Movement) (g : Globals) :
    (moveIf b pressed d g).cameraCalls =
      g.cameraCalls ++ (if pressed then [CameraCall.keyboard d g.gDeltaTime] else []) := by
  cases pressed <;> simp [moveIf, Globals.call]

theorem moveIf_gDeltaTime (b : ℝ) (pressed : Bool) (d : Camera_Movement) (g : Globals) :
    (moveIf b pressed d g).gDeltaTime = g.gDeltaTime := by
  cases pressed <;> rfl

theorem lampToggle_cameraCalls (keys : Key → Bool) (g : Globals) :
    (lampToggle keys g).cameraCalls = g.cameraCalls := by
  unfold lampToggle
  split_ifs <;> rfl

theorem closeIf_cameraCalls (pressed : Bool) (g : Globals) :
    (closeIf pressed g).cameraCalls = g.cameraCalls := by
  cases pressed <;> rfl

theorem closeIf_gDeltaTime (pressed : Bool) (g : Globals) :
    (closeIf pressed g).gDeltaTime = g.gDeltaTime := by
  cases pressed <;> rfl

theorem UProcessInput_cameraCalls (b : ℝ) (keys : Key → Bool) (g : Globals) :
    (UProcessInput b keys g).cameraCalls = g.cameraCalls ++
      (movementKeys.filter (fun kd => keys kd.1)).map
        (fun kd => CameraCall.keyboard kd.2 g.gDeltaTime) := by
  rw [UProcessInput_eq]
  simp only [lampToggle_cameraCalls, moveIf_cameraCalls, moveIf_gDeltaTime, closeIf_cameraCalls,
    closeIf_gDeltaTime, movementKeys, List.append_assoc]
  cases hW : keys .W <;> cases hS : keys .S <;> cases hA : keys .A <;> cases hD : keys .D <;>
    cases hQ : keys .Q <;> cases hE : keys .E <;> simp [hW, hS, hA, hD, hQ, hE]

theorem URender_cameraCalls (b : ℝ) (g : Globals) :
    (URender b g).1.cameraCalls = g.cameraCalls ++ [CameraCall.getViewMatrix] := by
  unfold URender
  dsimp only
  split_ifs <;> rfl

theorem UMousePositionCallback_cameraCalls (b : ℝ) (g : Globals) (xpos ypos : ℝ) :
    (UMousePositionCallback b g xpos ypos).cameraCalls = g.cameraCalls ++
      [CameraCall.mouseMovement
        (toFloat (toDouble (xpos - (if g.gFirstMouse then toFloat xpos else g.gLastX))))
        (toFloat (toDouble ((if g.gFirstMouse then toFloat ypos else g.gLastY) - ypos)))
        true] := by
  unfold UMousePositionCallback
  dsimp only
  split_ifs <;> rfl

theorem dispatchEvent_cameraCalls (b : ℝ) (g : Globals) (e : Event) :
    ∃ l, (dispatchEvent b g e).cameraCalls = g.cameraCalls ++ l ∧ ∀ k ∈ l, k.isMouseCall := by
  cases e with
  | cursorPos xpos ypos =>
    refine ⟨_, UMousePositionCallback_cameraCalls b g xpos ypos, ?_⟩
    intro k hk
    rw [List.mem_singleton] at hk
    subst hk
    rfl
  | scroll xoffset yoffset =>
    refine ⟨[CameraCall.mouseScroll yoffset], rfl, ?_⟩
    intro k hk
    rw [List.mem_singleton] at hk
    subst hk
    trivial
  | mouseButton button action mods => exact ⟨[], by simp [dispatchEvent, UMouseButtonCallback], by simp⟩
  | framebufferSize width height => exact ⟨[], by simp [dispatchEvent, UResizeWindow], by simp⟩
  | windowClose => exact ⟨[], by simp [dispatchEvent], by simp⟩

theorem glfwPollEvents_cameraCalls (b : ℝ) (events : List Event) (g : Globals) :
    ∃ l, (glfwPollEvents b g events).cameraCalls = g.cameraCalls ++ l ∧
      ∀ k ∈ l, k.isMouseCall := by
  induction events generalizing g with
  | nil => exact ⟨[], by simp [glfwPollEvents], by simp⟩
  | cons e rest ih =>
    obtain ⟨l1, h1, m1⟩ := dispatchEvent_cameraCalls b g e
    obtain ⟨l2, h2, m2⟩ := ih (dispatchEvent b g e)
    refine ⟨l1 ++ l2, ?_, ?_⟩
    · have : glfwPollEvents b g (e :: rest) = glfwPollEvents b (dispatchEvent b g e) rest := rfl
      rw [this, h2, h1, List.append_assoc]
    · intro k hk
      rcases List.mem_append.mp hk with h | h
      · exact m1 k h
      · exact m2 k h

theorem renderLoopBody_cameraCalls (b : ℝ) (g : Globals) (i : FrameInput) :
    ∃ l, (renderLoopBody b g i).1.cameraCalls = g.cameraCalls ++
        ((movementKeys.filter (fun kd => i.keys kd.1)).map
          (fun kd => CameraCall.keyboard kd.2
            (toFloat (toFloat i.currentFrame - g.gLastFrame))) ++
        [CameraCall.getViewMatrix] ++ l) ∧
      ∀ k ∈ l, k.isMouseCall := by
  obtain ⟨l, h, m⟩ := glfwPollEvents_cameraCalls b i.events
    (URender b (UProcessInput b i.keys
      { g with gDeltaTime := toFloat (toFloat i.currentFrame - g.gLastFrame),
               gLastFrame := toFloat i.currentFrame })).1
  refine ⟨l, ?_, m⟩
  have : (renderLoopBody b g i).1 = glfwPollEvents b (URender b (UProcessInput b i.keys
      { g with gDeltaTime := toFloat (toFloat i.currentFrame - g.gLastFrame),
               gLastFrame := toFloat i.currentFrame })).1
      i.events := rfl
  rw [this, h, URender_cameraCalls, UProcessInput_cameraCalls]
  simp only [List.append_assoc]

theorem main_globals (env : Env) :
    (main env).globals = initialGlobals env.movementSpeed env.mouseSensitivity env.zoom ∨
    (main env).globals = (renderLoop 89
      (initialGlobals env.movementSpeed env.mouseSensitivity env.zoom) env.frameInputs).1 := by
  unfold main
  dsimp only
  split_ifs <;> first | exact Or.inl rfl | exact Or.inr rfl

theorem URender_fovy (b : ℝ) (g : Globals) :
    (URender b g).2.fovy = radians g.gCamera.Zoom := by
  unfold URender
  dsimp only
  split_ifs <;> rfl

/-! ### The zoom stays in range once it is there -/

theorem run_zoomInRange (b : ℝ) (k : CameraCall) (c : Camera) (h : zoomInRange c) :
    zoomInRange (k.run b c) := by
  cases k with
  | keyboard d dt => cases d <;> exact h
  | mouseMovement x y cp => exact h
  | mouseScroll y => exact ProcessMouseScroll_Zoom_range c y
  | getViewMatrix => exact h

theorem UMousePositionCallback_gCamera (b : ℝ) (g : Globals) (xpos ypos : ℝ) :
    (UMousePositionCallback b g xpos ypos).gCamera =
      (CameraCall.mouseMovement
        (toFloat (toDouble (xpos - (if g.gFirstMouse then toFloat xpos else g.gLastX))))
        (toFloat (toDouble ((if g.gFirstMouse then toFloat ypos else g.gLastY) - ypos)))
        true).run b g.gCamera := by
  unfold UMousePositionCallback
  dsimp only
  split_ifs <;> rfl

theorem dispatchEvent_zoomInRange (b : ℝ) (g : Globals) (e : Event)
    (h : zoomInRange g.gCamera) : zoomInRange (dispatchEvent b g e).gCamera := by
  cases e with
  | cursorPos xpos ypos =>
    have hc : (dispatchEvent b g (Event.cursorPos xpos ypos)).gCamera =
        (UMousePositionCallback b g xpos ypos).gCamera := rfl
    rw [hc, UMousePositionCallback_gCamera]
    exact run_zoomInRange b _ _ h
  | scroll xoffset yoffset => exact ProcessMouseScroll_Zoom_range g.gCamera yoffset
  | mouseButton button action mods => exact h
  | framebufferSize width height => exact h
  | windowClose => exact h

theorem glfwPollEvents_zoomInRange (b : ℝ) (events : List Event) (g : Globals)
    (h : zoomInRange g.gCamera) : zoomInRange (glfwPollEvents b g events).gCamera := by
  induction events generalizing g with
  | nil => exact h
  | cons e rest ih => exact ih (dispatchEvent b g e) (dispatchEvent_zoomInRange b g e h)

theorem moveIf_zoomInRange (b : ℝ) (pressed : Bool) (d : Camera_Movement) (g : Globals)
    (h : zoomInRange g.gCamera) : zoomInRange (moveIf b pressed d g).gCamera := by
  cases pressed
  · exact h
  · exact run_zoomInRange b (CameraCall.keyboard d g.gDeltaTime) g.gCamera h

theorem lampToggle_gCamera (keys : Key → Bool) (g : Globals) :
    (lampToggle keys g).gCamera = g.gCamera := by
  unfold lampToggle
  split_ifs <;> rfl

theorem closeIf_gCamera (pressed : Bool) (g : Globals) :
    (closeIf pressed g).gCamera = g.gCamera := by
  cases pressed <;> rfl

theorem UProcessInput_zoomInRange (b : ℝ) (keys : Key → Bool) (g : Globals)
    (h : zoomInRange g.gCamera) : zoomInRange (UProcessInput b keys g).gCamera := by
  rw [UProcessInput_eq, lampToggle_gCamera]
  apply moveIf_zoomInRange
  apply moveIf_zoomInRange
  apply moveIf_zoomInRange
  apply moveIf_zoomInRange
  apply moveIf_zoomInRange
  apply moveIf_zoomInRange
  rw [closeIf_gCamera]
  exact h

theorem URender_gCamera (b : ℝ) (g : Globals) : (URender b g).1.gCamera = g.gCamera := by
  unfold URender
  dsimp only
  split_ifs <;> rfl

theorem radians_zoomInRange (c : Camera) (h : zoomInRange c) :
    radians 1 ≤ radians c.Zoom ∧ radians c.Zoom ≤ radians 45 := by
  have hpi : 0 ≤ Real.pi / 180 := by positivity
  exact ⟨mul_le_mul_of_nonneg_right h.1 hpi, mul_le_mul_of_nonneg_right h.2 hpi⟩

theorem renderLoopBody_zoomInRange (b : ℝ) (g : Globals) (i : FrameInput)
    (h : zoomInRange g.gCamera) :
    zoomInRange (renderLoopBody b g i).1.gCamera ∧
    radians 1 ≤ (renderLoopBody b g i).2.fovy ∧ (renderLoopBody b g i).2.fovy ≤ radians 45 := by
  have hin : zoomInRange (UProcessInput b i.keys
      { g with gDeltaTime := toFloat (toFloat i.currentFrame - g.gLastFrame),
               gLastFrame := toFloat i.currentFrame }).gCamera :=
    UProcessInput_zoomInRange b i.keys _ h
  have hbody : (renderLoopBody b g i).1 = glfwPollEvents b (URender b (UProcessInput b i.keys
      { g with gDeltaTime := toFloat (toFloat i.currentFrame - g.gLastFrame),
               gLastFrame := toFloat i.currentFrame })).1 i.events := rfl
  have hframe : (renderLoopBody b g i).2 = (URender b (UProcessInput b i.keys
      { g with gDeltaTime := toFloat (toFloat i.currentFrame - g.gLastFrame),
               gLastFrame := toFloat i.currentFrame })).2 := rfl
  refine ⟨?_, ?_⟩
  · rw [hbody]
    apply glfwPollEvents_zoomInRange
    rw [URender_gCamera]
    exact hin
  · rw [hframe, URender_fovy]
    exact radians_zoomInRange _ hin

theorem renderLoop_fovy (b : ℝ) (inputs : List FrameInput) (g : Globals)
    (h : zoomInRange g.gCamera) :
    ∀ f ∈ (renderLoop b g inputs).2, radians 1 ≤ f.fovy ∧ f.fovy ≤ radians 45 := by
  induction inputs generalizing g with
  | nil =>
    intro f hf
    simp [renderLoop] at hf
  | cons i rest ih =>
    intro f hf
    by_cases hc : g.windowShouldClose = true
    · simp [renderLoop, hc] at hf
    · simp only [renderLoop, hc, Bool.false_eq_true, if_false, List.mem_cons] at hf
      rcases hf with rfl | hf
      · exact (renderLoopBody_zoomInRange b g i h).2
      · exact ih _ (renderLoopBody_zoomInRange b g i h).1 f hf

/-! ### Pitch and zoom clamps -/

/-- C2: after `ProcessMouseScroll(yOffsetTicks)` the zoom is the old zoom minus
the ticks, clamped to [1, 45]: 1 below 1, 45 above 45, unchanged in between;
so it lies in [1, 45]; the field of view that `URender` computes after a
scroll callback is `radians` of that clamped zoom, and in every frame rendered
after a scroll callback the field of view is between 1 and 45 degrees. -/
theorem ProcessMouseScroll_zoom_clamped (c : Camera) (yOffsetTicks : ℝ) :
    (ProcessMouseScroll c yOffsetTicks).Zoom =
      (if c.Zoom - yOffsetTicks < 1 then 1
       else if c.Zoom - yOffsetTicks > 45 then 45
       else c.Zoom - yOffsetTicks) ∧
    1 ≤ (ProcessMouseScroll c yOffsetTicks).Zoom ∧
    (ProcessMouseScroll c yOffsetTicks).Zoom ≤ 45 ∧
    ∀ (pitchBound : ℝ) (g : Globals) (xoffset : ℝ),
      (URender pitchBound (UMouseScrollCallback pitchBound g xoffset yOffsetTicks)).2.fovy =
        radians (ProcessMouseScroll g.gCamera yOffsetTicks).Zoom ∧
      radians 1 ≤
        (URender pitchBound (UMouseScrollCallback pitchBound g xoffset yOffsetTicks)).2.fovy ∧
      (URender pitchBound (UMouseScrollCallback pitchBound g xoffset yOffsetTicks)).2.fovy ≤
        radians 45 ∧
      ∀ (inputs : List FrameInput),
        ∀ f ∈ (renderLoop pitchBound
            (UMouseScrollCallback pitchBound g xoffset yOffsetTicks) inputs).2,
          radians 1 ≤ f.fovy ∧ f.fovy ≤ radians 45 := by
  refine ⟨?_, (ProcessMouseScroll_Zoom_range c yOffsetTicks).1,
    (ProcessMouseScroll_Zoom_range c yOffsetTicks).2, ?_⟩
  · simp only [ProcessMouseScroll]
    split_ifs <;> first | rfl | (exfalso; linarith)
  · intro b g xoffset
    have hf : (URender b (UMouseScrollCallback b g xoffset yOffsetTicks)).2.fovy =
        radians (ProcessMouseScroll g.gCamera yOffsetTicks).Zoom := by
      rw [URender_fovy]
      rfl
    have hr := ProcessMouseScroll_Zoom_range g.gCamera yOffsetTicks
    have hpi : 0 ≤ Real.pi / 180 := by positivity
    refine ⟨hf, ?_, ?_, ?_⟩
    · rw [hf]
      exact mul_le_mul_of_nonneg_right hr.1 hpi
    · rw [hf]
      exact mul_le_mul_of_nonneg_right hr.2 hpi
    · intro inputs
      exact renderLoop_fovy b inputs _ hr

/-! ### Vector algebra -/

theorem dot_smul_left (k : ℝ) (a b : Vec3) :
    Vec3.dot (Vec3.smul k a) b = k * Vec3.dot a b := by
  simp only [Vec3.dot, Vec3.smul]
  ring

theorem dot_smul_right (k : ℝ) (a b : Vec3) :
    Vec3.dot a (Vec3.smul k b) = k * Vec3.dot a b := by
  simp only [Vec3.dot, Vec3.smul]
  ring

theorem dot_comm (a b : Vec3) : Vec3.dot a b = Vec3.dot b a := by
  simp only [Vec3.dot]
  ring

theorem dot_cross_left (a b : Vec3) : Vec3.dot (Vec3.cross a b) a = 0 := by
  simp only [Vec3.dot, Vec3.cross]
  ring

theorem dot_cross_right (a b : Vec3) : Vec3.dot (Vec3.cross a b) b = 0 := by
  simp only [Vec3.dot, Vec3.cross]
  ring

theorem dot_left_cross (a b : Vec3) : Vec3.dot a (Vec3.cross a b) = 0 := by
  simp only [Vec3.dot, Vec3.cross]
  ring

theorem dot_right_cross (a b : Vec3) : Vec3.dot b (Vec3.cross a b) = 0 := by
  simp only [Vec3.dot, Vec3.cross]
  ring

theorem dot_cross_self (a b : Vec3) :
    Vec3.dot (Vec3.cross a b) (Vec3.cross a b) =
      Vec3.dot a a * Vec3.dot b b - Vec3.dot a b ^ 2 := by
  simp only [Vec3.dot, Vec3.cross]
  ring

theorem dot_normalize_self (v : Vec3) (h : 0 < Vec3.dot v v) :
    Vec3.dot (Vec3.normalize v) (Vec3.normalize v) = 1 := by
  have hs : 0 < Real.sqrt (Vec3.dot v v) := Real.sqrt_pos.mpr h
  have hm : Real.sqrt (Vec3.dot v v) * Real.sqrt (Vec3.dot v v) = Vec3.dot v v :=
    Real.mul_self_sqrt h.le
  unfold Vec3.normalize
  rw [dot_smul_left, dot_smul_right]
  field_simp

theorem normalize_of_unit (v : Vec3) (h : Vec3.dot v v = 1) : Vec3.normalize v = v := by
  unfold Vec3.normalize
  rw [h, Real.sqrt_one]
  ext <;> simp [Vec3.smul]

theorem length_of_dot_self (v : Vec3) (h : Vec3.dot v v = 1) : Vec3.length v = 1 := by
  unfold Vec3.length
  rw [h, Real.sqrt_one]

theorem cos_radians_pos (pitch : ℝ) (hlo : -89 < pitch) (hhi : pitch < 89) :
    0 < Real.cos (radians pitch) := by
  apply Real.cos_pos_of_mem_Ioo
  have hpi := Real.pi_pos
  constructor
  · unfold radians
    nlinarith
  · unfold radians
    nlinarith

/-! ### The derived triad -/

/-- The front axis before normalisation, as the derived-vector update forms it. -/
theorem front_raw_unit (yaw pitch : ℝ) :
    Vec3.dot
      ⟨Real.cos (radians yaw) * Real.cos (radians pitch), Real.sin (radians pitch),
        Real.sin (radians yaw) * Real.cos (radians pitch)⟩
      ⟨Real.cos (radians yaw) * Real.cos (radians pitch), Real.sin (radians pitch),
        Real.sin (radians yaw) * Real.cos (radians pitch)⟩ = 1 := by
  simp only [Vec3.dot]
  have h1 := Real.sin_sq_add_cos_sq (radians yaw)
  have h2 := Real.sin_sq_add_cos_sq (radians pitch)
  nlinarith [h1, h2]

theorem updateCameraVectors_Front (c : Camera) :
    (updateCameraVectors c).Front =
      ⟨Real.cos (radians c.Yaw) * Real.cos (radians c.Pitch), Real.sin (radians c.Pitch),
        Real.sin (radians c.Yaw) * Real.cos (radians c.Pitch)⟩ := by
  have h : (updateCameraVectors c).Front = Vec3.normalize
      ⟨Real.cos (radians c.Yaw) * Real.cos (radians c.Pitch), Real.sin (radians c.Pitch),
        Real.sin (radians c.Yaw) * Real.cos (radians c.Pitch)⟩ := rfl
  rw [h, normalize_of_unit _ (front_raw_unit c.Yaw c.Pitch)]

theorem updateCameraVectors_Right (c : Camera) :
    (updateCameraVectors c).Right =
      Vec3.normalize (Vec3.cross (updateCameraVectors c).Front c.WorldUp) := rfl

theorem updateCameraVectors_Up (c : Camera) :
    (updateCameraVectors c).Up =
      Vec3.normalize (Vec3.cross (updateCameraVectors c).Right (updateCameraVectors c).Front) :=
  rfl

/-- The facts behind the orthonormal triad: the squared lengths are 1 and the
inner products vanish. -/
theorem triad_dots (c : Camera) (hup : c.WorldUp = ⟨0, 1, 0⟩)
    (hlo : -89 < c.Pitch) (hhi : c.Pitch < 89) :
    Vec3.dot (updateCameraVectors c).Front (updateCameraVectors c).Front = 1 ∧
    Vec3.dot (updateCameraVectors c).Right (updateCameraVectors c).Right = 1 ∧
    Vec3.dot (updateCameraVectors c).Up (updateCameraVectors c).Up = 1 ∧
    Vec3.dot (updateCameraVectors c).Front (updateCameraVectors c).Right = 0 ∧
    Vec3.dot (updateCameraVectors c).Front (updateCameraVectors c).Up = 0 ∧
    Vec3.dot (updateCameraVectors c).Right (updateCameraVectors c).Up = 0 := by
  have hcos := cos_radians_pos c.Pitch hlo hhi
  have hsc := Real.sin_sq_add_cos_sq (radians c.Pitch)
  have hff : Vec3.dot (updateCameraVectors c).Front (updateCameraVectors c).Front = 1 := by
    rw [updateCameraVectors_Front]
    exact front_raw_unit c.Yaw c.Pitch
  have hfw : Vec3.dot (updateCameraVectors c).Front c.WorldUp = Real.sin (radians c.Pitch) := by
    rw [updateCameraVectors_Front, hup]
    simp [Vec3.dot]
  have hww : Vec3.dot c.WorldUp c.WorldUp = 1 := by
    rw [hup]
    simp [Vec3.dot]
  have hcross : 0 < Vec3.dot (Vec3.cross (updateCameraVectors c).Front c.WorldUp)
      (Vec3.cross (updateCameraVectors c).Front c.WorldUp) := by
    rw [dot_cross_self, hff, hww, hfw]
    nlinarith [hsc, hcos]
  have hrr : Vec3.dot (updateCameraVectors c).Right (updateCameraVectors c).Right = 1 := by
    rw [updateCameraVectors_Right]
    exact dot_normalize_self _ hcross
  have hfr : Vec3.dot (updateCameraVectors c).Front (updateCameraVectors c).Right = 0 := by
    rw [updateCameraVectors_Right, Vec3.normalize, dot_smul_right, dot_left_cross,
      mul_zero]
  have hrf : Vec3.dot (updateCameraVectors c).Right (updateCameraVectors c).Front = 0 := by
    rw [dot_comm, hfr]
  have hcross2 : Vec3.dot (Vec3.cross (updateCameraVectors c).Right (updateCameraVectors c).Front)
      (Vec3.cross (updateCameraVectors c).Right (updateCameraVectors c).Front) = 1 := by
    rw [dot_cross_self, hff, hrr, hrf]
    norm_num
  refine ⟨hff, hrr, ?_, hfr, ?_, ?_⟩
  · rw [updateCameraVectors_Up]
    exact dot_normalize_self _ (by rw [hcross2]; norm_num)
  · rw [updateCameraVectors_Up, Vec3.normalize, dot_smul_right, dot_right_cross,
      mul_zero]
  · rw [updateCameraVectors_Up, Vec3.normalize, dot_smul_right, dot_left_cross,
      mul_zero]

/-- C3: for every yaw, every pitch strictly between -89 and 89 degrees and
worldUp = (0, 1, 0), the derived-vector update leaves front, right and up of
length 1 and pairwise orthogonal. -/
theorem updateCameraVectors_orthonormal (c : Camera) (hup : c.WorldUp = ⟨0, 1, 0⟩)
    (hlo : -89 < c.Pitch) (hhi : c.Pitch < 89) :
    Vec3.length (updateCameraVectors c).Front = 1 ∧
    Vec3.length (updateCameraVectors c).Right = 1 ∧
    Vec3.length (updateCameraVectors c).Up = 1 ∧
    Vec3.dot (updateCameraVectors c).Front (updateCameraVectors c).Right = 0 ∧
    Vec3.dot (updateCameraVectors c).Front (updateCameraVectors c).Up = 0 ∧
    Vec3.dot (updateCameraVectors c).Right (updateCameraVectors c).Up = 0 := by
  obtain ⟨hff, hrr, huu, hfr, hfu, hru⟩ := triad_dots c hup hlo hhi
  exact ⟨length_of_dot_self _ hff, length_of_dot_self _ hrr, length_of_dot_self _ huu,
    hfr, hfu, hru⟩

theorem radians_neg_ninety : radians (-90) = -(Real.pi / 2) := by
  unfold radians
  ring

theorem radians_zero : radians 0 = 0 := by
  unfold radians
  ring

theorem Camera_new_Front_default (position worldUp : Vec3) (speed sensitivity zoom : ℝ) :
    (Camera.new position worldUp (-90) 0 speed sensitivity zoom).Front = ⟨0, 0, -1⟩ := by
  unfold Camera.new
  rw [updateCameraVectors_Front]
  simp only [radians_neg_ninety, radians_zero, Real.cos_neg, Real.sin_neg, Real.cos_pi_div_two,
    Real.sin_pi_div_two, Real.cos_zero, Real.sin_zero]
  ext <;> simp

/-- C3, witness: the camera of the program, yaw -90 and pitch 0. -/
theorem updateCameraVectors_orthonormal_witness :
    startCamera.WorldUp = ⟨0, 1, 0⟩ ∧ -89 < startCamera.Pitch ∧ startCamera.Pitch < 89 ∧
    Vec3.length (updateCameraVectors startCamera).Front = 1 ∧
    Vec3.length (updateCameraVectors startCamera).Right = 1 ∧
    Vec3.length (updateCameraVectors startCamera).Up = 1 ∧
    Vec3.dot (updateCameraVectors startCamera).Front (updateCameraVectors startCamera).Right = 0 ∧
    Vec3.dot (updateCameraVectors startCamera).Front (updateCameraVectors startCamera).Up = 0 ∧
    Vec3.dot (updateCameraVectors startCamera).Right (updateCameraVectors startCamera).Up = 0 :=
  have hup : startCamera.WorldUp = ⟨0, 1, 0⟩ := rfl
  have hp : startCamera.Pitch = 0 := rfl
  have hlo : -89 < startCamera.Pitch := by rw [hp]; norm_num
  have hhi : startCamera.Pitch < 89 := by rw [hp]; norm_num
  ⟨hup, hlo, hhi, updateCameraVectors_orthonormal startCamera hup hlo hhi⟩

/-! ### Keyboard movement -/

/-- C4: for every camera state, direction and non-negative frame time,
`ProcessKeyboard` displaces the position by `v = movementSpeed * deltaTime`
times the axis of the direction (+front, -front, -right, +right, +worldUp,
-worldUp) and changes no other field; the vertical moves use worldUp whatever
front and up are; and the program's camera at (0, 0, 3) with yaw -90, pitch 0
and speed 2.5 is at (0, 0, 0.5) after `ProcessKeyboard(FORWARD, 1.0)`. -/
theorem ProcessKeyboard_displacement (c : Camera) (direction : Camera_Movement)
    (deltaTimeSeconds : ℝ) (_hdt : 0 ≤ deltaTimeSeconds) :
    (ProcessKeyboard c .FORWARD deltaTimeSeconds).Position =
      Vec3.add c.Position (Vec3.smul (c.MovementSpeed * deltaTimeSeconds) c.Front) ∧
    (ProcessKeyboard c .BACKWARD deltaTimeSeconds).Position =
      Vec3.add c.Position (Vec3.smul (-(c.MovementSpeed * deltaTimeSeconds)) c.Front) ∧
    (ProcessKeyboard c .LEFT deltaTimeSeconds).Position =
      Vec3.add c.Position (Vec3.smul (-(c.MovementSpeed * deltaTimeSeconds)) c.Right) ∧
    (ProcessKeyboard c .RIGHT deltaTimeSeconds).Position =
      Vec3.add c.Position (Vec3.smul (c.MovementSpeed * deltaTimeSeconds) c.Right) ∧
    (ProcessKeyboard c .UP deltaTimeSeconds).Position =
      Vec3.add c.Position (Vec3.smul (c.MovementSpeed * deltaTimeSeconds) c.WorldUp) ∧
    (ProcessKeyboard c .DOWN deltaTimeSeconds).Position =
      Vec3.add c.Position (Vec3.smul (-(c.MovementSpeed * deltaTimeSeconds)) c.WorldUp) ∧
    { (ProcessKeyboard c direction deltaTimeSeconds) with Position := c.Position } = c ∧
    (∀ (position : Vec3) (front right up : Vec3) (yaw pitch : ℝ),
      (ProcessKeyboard
          { c with
            Position := position, Front := front, Right := right, Up := up,
            Yaw := yaw, Pitch := pitch }
          .UP deltaTimeSeconds).Position =
        Vec3.add position (Vec3.smul (c.MovementSpeed * deltaTimeSeconds) c.WorldUp)) ∧
    (∀ sensitivity zoom : ℝ,
      (ProcessKeyboard (Camera.new ⟨0, 0, 3⟩ ⟨0, 1, 0⟩ (-90) 0 (5 / 2) sensitivity zoom)
        .FORWARD 1).Position = ⟨0, 0, 1 / 2⟩) := by
  refine ⟨rfl, ?_, ?_, rfl, rfl, ?_, ?_, fun _ _ _ _ _ _ => rfl, ?_⟩
  · simp only [ProcessKeyboard, Vec3.add, Vec3.sub, Vec3.smul]
    ext <;> simp <;> ring
  · simp only [ProcessKeyboard, Vec3.add, Vec3.sub, Vec3.smul]
    ext <;> simp <;> ring
  · simp only [ProcessKeyboard, Vec3.add, Vec3.sub, Vec3.smul]
    ext <;> simp <;> ring
  · cases direction <;> rfl
  · intro sensitivity zoom
    have hf := Camera_new_Front_default ⟨0, 0, 3⟩ ⟨0, 1, 0⟩ (5 / 2) sensitivity zoom
    have hp : (Camera.new ⟨0, 0, 3⟩ ⟨0, 1, 0⟩ (-90) 0 (5 / 2) sensitivity zoom).Position =
        ⟨0, 0, 3⟩ := rfl
    have hs : (Camera.new ⟨0, 0, 3⟩ ⟨0, 1, 0⟩ (-90) 0 (5 / 2) sensitivity zoom).MovementSpeed =
        5 / 2 := rfl
    simp only [ProcessKeyboard, hf, hp, hs, Vec3.add, Vec3.smul]
    ext <;> norm_num

/-- C4, witness: the program's camera moved forward for one second. -/
theorem ProcessKeyboard_displacement_witness :
    (0 : ℝ) ≤ 1 ∧ (ProcessKeyboard startCamera .FORWARD 1).Position = ⟨0, 0, 1 / 2⟩ :=
  ⟨by norm_num,
    (ProcessKeyboard_displacement startCamera .FORWARD 1 (by norm_num)).2.2.2.2.2.2.2.2
      (1 / 10) 45⟩

/-! ### The view matrix -/

theorem startCamera_Front : startCamera.Front = ⟨0, 0, -1⟩ :=
  Camera_new_Front_default _ _ _ _ _

/-- C5: for every camera state whose front and up are orthonormal, the matrix of
`GetViewMatrix()` (the look-at transform of position, position + front and up)
sends the homogeneous point (position, 1) to (0, 0, 0, 1), and `GetViewMatrix()`
hands the camera back with every field unchanged. -/
theorem GetViewMatrix_position_to_origin (c : Camera)
    (_hF : Vec3.dot c.Front c.Front = 1) (_hU : Vec3.dot c.Up c.Up = 1)
    (_hFU : Vec3.dot c.Front c.Up = 0) :
    Mat4.mulVec (GetViewMatrix c).1 ⟨c.Position.x, c.Position.y, c.Position.z, 1⟩ =
      ⟨0, 0, 0, 1⟩ ∧
    (GetViewMatrix c).2 = c := by
  refine ⟨?_, rfl⟩
  simp only [GetViewMatrix, lookAt, Mat4.mulVec, Vec3.dot]
  ext <;> simp <;> ring

theorem startCamera_triad :
    Vec3.dot startCamera.Front startCamera.Front = 1 ∧
    Vec3.dot startCamera.Up startCamera.Up = 1 ∧
    Vec3.dot startCamera.Front startCamera.Up = 0 := by
  have h := triad_dots
    { Position := ⟨0, 0, 3⟩, WorldUp := ⟨0, 1, 0⟩,
      Front := ⟨0, 0, -1⟩, Right := ⟨0, 0, 0⟩, Up := ⟨0, 0, 0⟩,
      Yaw := -90, Pitch := 0,
      MovementSpeed := 5 / 2, MouseSensitivity := 1 / 10, Zoom := 45 }
    rfl (by norm_num) (by norm_num)
  exact ⟨h.1, h.2.2.1, h.2.2.2.2.1⟩

/-- C5, witness: the camera of the program at (0, 0, 3). -/
theorem GetViewMatrix_position_to_origin_witness :
    Vec3.dot startCamera.Front startCamera.Front = 1 ∧
    Vec3.dot startCamera.Up startCamera.Up = 1 ∧
    Vec3.dot startCamera.Front startCamera.Up = 0 ∧
    Mat4.mulVec (GetViewMatrix startCamera).1 ⟨0, 0, 3, 1⟩ = ⟨0, 0, 0, 1⟩ ∧
    (GetViewMatrix startCamera).2 = startCamera :=
  ⟨startCamera_triad.1, startCamera_triad.2.1, startCamera_triad.2.2,
    GetViewMatrix_position_to_origin startCamera startCamera_triad.1 startCamera_triad.2.1
      startCamera_triad.2.2⟩

/-! ### The pointer callback -/

theorem moveIf_gFirstMouse (b : ℝ) (pressed : Bool) (d : Camera_Movement) (g : Globals) :
    (moveIf b pressed d g).gFirstMouse = g.gFirstMouse := by
  cases pressed <;> rfl

theorem lampToggle_gFirstMouse (keys : Key → Bool) (g : Globals) :
    (lampToggle keys g).gFirstMouse = g.gFirstMouse := by
  unfold lampToggle
  split_ifs <;> rfl

theorem closeIf_gFirstMouse (pressed : Bool) (g : Globals) :
    (closeIf pressed g).gFirstMouse = g.gFirstMouse := by
  cases pressed <;> rfl

theorem UProcessInput_gFirstMouse (b : ℝ) (keys : Key → Bool) (g : Globals) :
    (UProcessInput b keys g).gFirstMouse = g.gFirstMouse := by
  rw [UProcessInput_eq]
  simp only [lampToggle_gFirstMouse, moveIf_gFirstMouse, closeIf_gFirstMouse]

theorem URender_gFirstMouse (b : ℝ) (g : Globals) :
    (URender b g).1.gFirstMouse = g.gFirstMouse := by
  unfold URender
  dsimp only
  split_ifs <;> rfl

theorem UMousePositionCallback_gFirstMouse (b : ℝ) (g : Globals) (xpos ypos : ℝ) :
    (UMousePositionCallback b g xpos ypos).gFirstMouse = false := by
  unfold UMousePositionCallback
  dsimp only
  split_ifs with h
  · rfl
  · simpa [Globals.call] using h

theorem dispatchEvent_gFirstMouse (b : ℝ) (g : Globals) (e : Event)
    (h : g.gFirstMouse = false) : (dispatchEvent b g e).gFirstMouse = false := by
  cases e with
  | cursorPos xpos ypos => exact UMousePositionCallback_gFirstMouse b g xpos ypos
  | scroll xoffset yoffset => exact h
  | mouseButton button action mods => exact h
  | framebufferSize width height => exact h
  | windowClose => exact h

theorem glfwPollEvents_gFirstMouse (b : ℝ) (events : List Event) (g : Globals)
    (h : g.gFirstMouse = false) : (glfwPollEvents b g events).gFirstMouse = false := by
  induction events generalizing g with
  | nil => exact h
  | cons e rest ih => exact ih (dispatchEvent b g e) (dispatchEvent_gFirstMouse b g e h)

theorem renderLoopBody_gFirstMouse (b : ℝ) (g : Globals) (i : FrameInput)
    (h : g.gFirstMouse = false) : (renderLoopBody b g i).1.gFirstMouse = false := by
  unfold renderLoopBody
  dsimp only
  apply glfwPollEvents_gFirstMouse
  rw [URender_gFirstMouse, UProcessInput_gFirstMouse]
  exact h

theorem renderLoop_gFirstMouse (b : ℝ) (inputs : List FrameInput) (g : Globals)
    (h : g.gFirstMouse = false) : (renderLoop b g inputs).1.gFirstMouse = false := by
  induction inputs generalizing g with
  | nil => exact h
  | cons i rest ih =>
    by_cases hc : g.windowShouldClose = true
    · simpa [renderLoop, hc] using h
    · simp only [renderLoop, hc]
      exact ih _ (renderLoopBody_gFirstMouse b g i h)

/-- C6, counterexample: after a first callback at (0, 0), a callback at
(16777217, 0).  The position 2^24 + 1 is a `double` but not a `float`: the
offset handed to `ProcessMouseMovement` is 16777216, one pixel short of
xpos - lastX, and 16777216 is what is recorded as the last X.  And a callback
at (0, -2^-200), an upward move: the yOffset handed over is 0, which is not
positive. -/
theorem UMousePositionCallback_offset_rounded :
    originSeenGlobals.gFirstMouse = false ∧
    originSeenGlobals.gLastX = 0 ∧
    originSeenGlobals.gLastY = 0 ∧
    (UMousePositionCallback 89 originSeenGlobals 16777217 0).cameraCalls =
      originSeenGlobals.cameraCalls ++ [CameraCall.mouseMovement 16777216 0 true] ∧
    (UMousePositionCallback 89 originSeenGlobals 16777217 0).cameraCalls ≠
      originSeenGlobals.cameraCalls ++
        [CameraCall.mouseMovement (16777217 - originSeenGlobals.gLastX)
          (originSeenGlobals.gLastY - 0) true] ∧
    (UMousePositionCallback 89 originSeenGlobals 16777217 0).gLastX = 16777216 ∧
    (UMousePositionCallback 89 originSeenGlobals 16777217 0).gLastX ≠ 16777217 ∧
    -(1 / 2 ^ 200) < originSeenGlobals.gLastY ∧
    (UMousePositionCallback 89 originSeenGlobals 0 (-(1 / 2 ^ 200))).cameraCalls =
      originSeenGlobals.cameraCalls ++ [CameraCall.mouseMovement 0 0 true] := by
  have hf : originSeenGlobals.gFirstMouse = false :=
    UMousePositionCallback_gFirstMouse 89 _ 0 0
  have hx : originSeenGlobals.gLastX = 0 := by
    have h : originSeenGlobals.gLastX = toFloat 0 := rfl
    rw [h, toFloat_zero]
  have hy : originSeenGlobals.gLastY = 0 := by
    have h : originSeenGlobals.gLastY = toFloat 0 := rfl
    rw [h, toFloat_zero]
  have hcalls : (UMousePositionCallback 89 originSeenGlobals 16777217 0).cameraCalls =
      originSeenGlobals.cameraCalls ++ [CameraCall.mouseMovement 16777216 0 true] := by
    rw [UMousePositionCallback_cameraCalls, hf, hx, hy]
    simp only [Bool.false_eq_true, if_false, sub_zero, toDouble_16777217, toFloat_16777217,
      toDouble_zero, toFloat_zero]
  have hlast : (UMousePositionCallback 89 originSeenGlobals 16777217 0).gLastX = 16777216 := by
    have h : (UMousePositionCallback 89 originSeenGlobals 16777217 0).gLastX =
        toFloat 16777217 := by
      unfold UMousePositionCallback
      dsimp only
      split_ifs <;> rfl
    rw [h, toFloat_16777217]
  refine ⟨hf, hx, hy, hcalls, ?_, hlast, ?_, ?_, ?_⟩
  · rw [hcalls, hx, hy]
    intro h
    have h2 := List.append_cancel_left h
    simp only [List.cons.injEq, CameraCall.mouseMovement.injEq, and_true] at h2
    norm_num at h2
  · rw [hlast]
    norm_num
  · rw [hy]
    norm_num
  · rw [UMousePositionCallback_cameraCalls, hf, hx, hy]
    simp only [Bool.false_eq_true, if_false, sub_zero, zero_sub, neg_neg, toDouble_tiny,
      toFloat_tiny, toDouble_zero, toFloat_zero]

/-- C6, amended: on every mouse-position callback after the first, with
(lastX, lastY) recorded and (xpos, ypos) reported, `UMousePositionCallback`
calls `ProcessMouseMovement` with the differences xpos - lastX and
lastY - ypos (previous screen Y minus current screen Y), each computed in
`double` and narrowed to `float`; the camera takes that movement; an upward
pointer move gives a non-negative yOffset; and (xpos, ypos) narrowed to
`float` is recorded as the last position. -/
theorem UMousePositionCallback_offsets_narrowed (pitchBound : ℝ) (g : Globals)
    (xpos ypos : ℝ) (h : g.gFirstMouse = false) :
    (UMousePositionCallback pitchBound g xpos ypos).cameraCalls =
      g.cameraCalls ++
        [CameraCall.mouseMovement (toFloat (toDouble (xpos - g.gLastX)))
          (toFloat (toDouble (g.gLastY - ypos))) true] ∧
    (UMousePositionCallback pitchBound g xpos ypos).gCamera =
      ProcessMouseMovement pitchBound g.gCamera (toFloat (toDouble (xpos - g.gLastX)))
        (toFloat (toDouble (g.gLastY - ypos))) true ∧
    (ypos ≤ g.gLastY → 0 ≤ toFloat (toDouble (g.gLastY - ypos))) ∧
    (UMousePositionCallback pitchBound g xpos ypos).gLastX = toFloat xpos ∧
    (UMousePositionCallback pitchBound g xpos ypos).gLastY = toFloat ypos := by
  refine ⟨?_, ?_, ?_, ?_, ?_⟩
  · simp [UMousePositionCallback, h, Globals.call]
  · simp [UMousePositionCallback, h, Globals.call, CameraCall.run]
  · intro hy
    exact toFloat_nonneg (toDouble_nonneg (sub_nonneg.mpr hy))
  · simp [UMousePositionCallback, h, Globals.call]
  · simp [UMousePositionCallback, h, Globals.call]

/-- C6, witness: the pointer goes from the window centre (400, 300) to
(410, 290), ten pixels right and ten pixels up. -/
theorem UMousePositionCallback_offsets_narrowed_witness :
    seenGlobals.gFirstMouse = false ∧
    (UMousePositionCallback 89 seenGlobals 410 290).cameraCalls =
      seenGlobals.cameraCalls ++
        [CameraCall.mouseMovement (toFloat (toDouble (410 - seenGlobals.gLastX)))
          (toFloat (toDouble (seenGlobals.gLastY - 290))) true] ∧
    (UMousePositionCallback 89 seenGlobals 410 290).gLastX = toFloat 410 ∧
    (UMousePositionCallback 89 seenGlobals 410 290).gLastY = toFloat 290 :=
  ⟨rfl, (UMousePositionCallback_offsets_narrowed 89 seenGlobals 410 290 rfl).1,
    (UMousePositionCallback_offsets_narrowed 89 seenGlobals 410 290 rfl).2.2.2⟩

/-- C7, counterexample: the first callback of a run, at (16777217, 0).  The
position 2^24 + 1 is a `double` but not a `float`; the seeded last X is
16777216, and the callback calls `ProcessMouseMovement(1, 0)`, not (0, 0). -/
theorem UMousePositionCallback_first_offset_nonzero :
    (initialGlobals (5 / 2) (1 / 10) 45).gFirstMouse = true ∧
    (UMousePositionCallback 89 (initialGlobals (5 / 2) (1 / 10) 45) 16777217 0).cameraCalls =
      [CameraCall.mouseMovement 1 0 true] ∧
    (UMousePositionCallback 89 (initialGlobals (5 / 2) (1 / 10) 45) 16777217 0).cameraCalls ≠
      [CameraCall.mouseMovement 0 0 true] ∧
    (UMousePositionCallback 89 (initialGlobals (5 / 2) (1 / 10) 45) 16777217 0).gLastX ≠
      16777217 := by
  have hcalls : (UMousePositionCallback 89 (initialGlobals (5 / 2) (1 / 10) 45)
      16777217 0).cameraCalls = [CameraCall.mouseMovement 1 0 true] := by
    rw [UMousePositionCallback_cameraCalls]
    have hf : (initialGlobals (5 / 2) (1 / 10) 45).gFirstMouse = true := rfl
    have hc : (initialGlobals (5 / 2) (1 / 10) 45).cameraCalls = [] := rfl
    have hsub : (16777217 : ℝ) - 16777216 = 1 := by norm_num
    rw [hf, hc]
    simp only [if_true, toFloat_16777217, toFloat_zero, hsub, sub_zero, toDouble_one,
      toFloat_one, toDouble_zero, List.nil_append]
  have hlast : (UMousePositionCallback 89 (initialGlobals (5 / 2) (1 / 10) 45)
      16777217 0).gLastX = 16777216 := by
    have h : (UMousePositionCallback 89 (initialGlobals (5 / 2) (1 / 10) 45)
        16777217 0).gLastX = toFloat 16777217 := rfl
    rw [h, toFloat_16777217]
  refine ⟨rfl, hcalls, ?_, ?_⟩
  · rw [hcalls]
    intro h
    simp only [List.cons.injEq, CameraCall.mouseMovement.injEq, and_true] at h
    norm_num at h
  · rw [hlast]
    norm_num

/-- C7, amended: on the first mouse-position callback (`gFirstMouse` set),
whatever `gLastX` and `gLastY` hold, `UMousePositionCallback` records
(xpos, ypos) narrowed to `float` as the last position, calls
`ProcessMouseMovement` with the differences between the reported and the
recorded position, which are (0, 0) when xpos and ypos are `float` values, and
clears `gFirstMouse`; no later callback, and no later iteration of the render
loop, sets it again. -/
theorem UMousePositionCallback_first_narrowed (pitchBound : ℝ) (g : Globals)
    (xpos ypos : ℝ) (h : g.gFirstMouse = true) :
    (UMousePositionCallback pitchBound g xpos ypos).cameraCalls =
      g.cameraCalls ++
        [CameraCall.mouseMovement (toFloat (toDouble (xpos - toFloat xpos)))
          (toFloat (toDouble (toFloat ypos - ypos))) true] ∧
    (toFloat xpos = xpos → toFloat ypos = ypos →
      (UMousePositionCallback pitchBound g xpos ypos).cameraCalls =
        g.cameraCalls ++ [CameraCall.mouseMovement 0 0 true] ∧
      (UMousePositionCallback pitchBound g xpos ypos).gCamera =
        ProcessMouseMovement pitchBound g.gCamera 0 0 true ∧
      (UMousePositionCallback pitchBound g xpos ypos).gLastX = xpos ∧
      (UMousePositionCallback pitchBound g xpos ypos).gLastY = ypos) ∧
    (UMousePositionCallback pitchBound g xpos ypos).gLastX = toFloat xpos ∧
    (UMousePositionCallback pitchBound g xpos ypos).gLastY = toFloat ypos ∧
    (UMousePositionCallback pitchBound g xpos ypos).gFirstMouse = false ∧
    (∀ events : List Event,
      (glfwPollEvents pitchBound (UMousePositionCallback pitchBound g xpos ypos)
        events).gFirstMouse = false) ∧
    (∀ inputs : List FrameInput,
      (renderLoop pitchBound (UMousePositionCallback pitchBound g xpos ypos)
        inputs).1.gFirstMouse = false) := by
  have hf := UMousePositionCallback_gFirstMouse pitchBound g xpos ypos
  refine ⟨?_, ?_, ?_, ?_, hf, fun events => glfwPollEvents_gFirstMouse _ events _ hf,
    fun inputs => renderLoop_gFirstMouse _ inputs _ hf⟩
  · simp [UMousePositionCallback, h, Globals.call]
  · intro hx hy
    refine ⟨?_, ?_, ?_, ?_⟩
    · simp [UMousePositionCallback, h, Globals.call, hx, hy, toDouble_zero, toFloat_zero]
    · simp [UMousePositionCallback, h, Globals.call, CameraCall.run, hx, hy, toDouble_zero,
        toFloat_zero]
    · simp [UMousePositionCallback, h, Globals.call, hx]
    · simp [UMousePositionCallback, h, Globals.call, hy]
  · simp [UMousePositionCallback, h, Globals.call]
  · simp [UMousePositionCallback, h, Globals.call]

/-- C7, witness: the first callback of a run, at (410, 290), with the last
position still at the window centre. -/
theorem UMousePositionCallback_first_narrowed_witness :
    (initialGlobals (5 / 2) (1 / 10) 45).gFirstMouse = true ∧
    (UMousePositionCallback 89 (initialGlobals (5 / 2) (1 / 10) 45) 410 290).cameraCalls =
      [CameraCall.mouseMovement 0 0 true] ∧
    (UMousePositionCallback 89 (initialGlobals (5 / 2) (1 / 10) 45) 410 290).gLastX = 410 ∧
    (UMousePositionCallback 89 (initialGlobals (5 / 2) (1 / 10) 45) 410 290).gLastY = 290 ∧
    (UMousePositionCallback 89 (initialGlobals (5 / 2) (1 / 10) 45) 410 290).gFirstMouse =
      false :=
  have h := UMousePositionCallback_first_narrowed 89 (initialGlobals (5 / 2) (1 / 10) 45)
    410 290 rfl
  have he := h.2.1 toFloat_410 toFloat_290
  ⟨rfl, he.1, he.2.2.1, he.2.2.2, h.2.2.2.2.1⟩

/-! ### Keyboard polling -/

theorem moveIf_gCamera (b : ℝ) (pressed : Bool) (d : Camera_Movement) (g : Globals) :
    (moveIf b pressed d g).gCamera =
      if pressed then ProcessKeyboard g.gCamera d g.gDeltaTime else g.gCamera := by
  cases pressed <;> rfl

theorem UProcessInput_gCamera (b : ℝ) (keys : Key → Bool) (g : Globals) :
    (UProcessInput b keys g).gCamera =
      ((movementKeys.filter (fun kd => keys kd.1)).map
        (fun kd => CameraCall.keyboard kd.2 g.gDeltaTime)).foldl (CameraCall.run b) g.gCamera := by
  rw [UProcessInput_eq]
  simp only [lampToggle_gCamera, moveIf_gCamera, moveIf_gDeltaTime, closeIf_gCamera,
    closeIf_gDeltaTime, movementKeys]
  cases hW : keys .W <;> cases hS : keys .S <;> cases hA : keys .A <;> cases hD : keys .D <;>
    cases hQ : keys .Q <;> cases hE : keys .E <;>
    simp [hW, hS, hA, hD, hQ, hE, CameraCall.run]

/-- C8: for every combination of pressed keys, one call of `UProcessInput` makes
exactly the `ProcessKeyboard` calls of the pressed keys among W, S, A, D, Q, E,
with FORWARD, BACKWARD, LEFT, RIGHT, UP, DOWN respectively, in that order, each
once and each with the frame's `gDeltaTime`; a key that is not pressed gives no
call, and the camera ends as those calls leave it. -/
theorem UProcessInput_keyboard_calls (pitchBound : ℝ) (keys : Key → Bool) (g : Globals) :
    (UProcessInput pitchBound keys g).cameraCalls = g.cameraCalls ++
      (movementKeys.filter (fun kd => keys kd.1)).map
        (fun kd => CameraCall.keyboard kd.2 g.gDeltaTime) ∧
    (UProcessInput pitchBound keys g).gCamera =
      ((movementKeys.filter (fun kd => keys kd.1)).map
        (fun kd => CameraCall.keyboard kd.2 g.gDeltaTime)).foldl
          (CameraCall.run pitchBound) g.gCamera ∧
    movementKeys = [(Key.W, Camera_Movement.FORWARD), (Key.S, Camera_Movement.BACKWARD),
      (Key.A, Camera_Movement.LEFT), (Key.D, Camera_Movement.RIGHT),
      (Key.Q, Camera_Movement.UP), (Key.E, Camera_Movement.DOWN)] :=
  ⟨UProcessInput_cameraCalls pitchBound keys g, UProcessInput_gCamera pitchBound keys g, rfl⟩

/-! ### Texture loading -/

theorem UCreateTexture_fst (stbi_load : String → Option Image) (filename : String)
    (textureId : Nat) (gl : GLTextures) :
    (UCreateTexture stbi_load filename textureId gl).1 = loadable stbi_load filename := by
  unfold UCreateTexture loadable
  cases hd : stbi_load filename with
  | none => rfl
  | some image =>
    dsimp only
    by_cases h3 : image.channels = 3
    · simp [h3]
    · by_cases h4 : image.channels = 4
      · simp [h4]
      · simp [h3, h4]

theorem loadTextures_fst (stbi_load : String → Option Image) (ids : TextureIds)
    (gl : GLTextures) :
    (loadTextures stbi_load ids gl).1 = textureFiles.all (loadable stbi_load) := by
  unfold loadTextures
  simp only [UCreateTexture_fst, textureFiles, List.all_cons, List.all_nil, Bool.and_true]
  cases loadable stbi_load "blackPlastic.jpg" <;> cases loadable stbi_load "screen.jpg" <;>
    cases loadable stbi_load "wood.jpg" <;> cases loadable stbi_load "keyboard.jpg" <;>
    cases loadable stbi_load "photo.png" <;> rfl

theorem main_of_not_loadable (env : Env) (filename : String) (hf : filename ∈ textureFiles)
    (h : loadable env.stbi_load filename = false) :
    (main env).exitCode = some EXIT_FAILURE ∧ (main env).frames = [] ∧
      (main env).globals.cameraCalls = [] := by
  have hl : (loadTextures env.stbi_load ⟨0, 0, 0, 0, 0⟩ ⟨[], 0, []⟩).1 = false := by
    rw [loadTextures_fst]
    rw [Bool.eq_false_iff]
    intro hall
    rw [List.all_eq_true] at hall
    rw [hall filename hf] at h
    exact Bool.noConfusion h
  unfold main
  dsimp only
  rw [hl]
  simp only [Bool.not_false, if_true]
  split_ifs <;> exact ⟨rfl, rfl, rfl⟩

/-- C9: `UCreateTexture` reports by its return value: it returns true exactly
when the file decodes to an image with 3 or 4 channels; when decoding fails it
returns false and leaves `textureId` (and the texture state) as they were; for
every other channel count it returns false; and when a `UCreateTexture` call
on one of the five files of `main` returns false, `main` returns
`EXIT_FAILURE` with no frame rendered and no camera call made. -/
theorem UCreateTexture_pass_fail (stbi_load : String → Option Image) (filename : String)
    (textureId : Nat) (gl : GLTextures) :
    ((UCreateTexture stbi_load filename textureId gl).1 = true ↔
      ∃ image, stbi_load filename = some image ∧ (image.channels = 3 ∨ image.channels = 4)) ∧
    (stbi_load filename = none →
      (UCreateTexture stbi_load filename textureId gl).1 = false ∧
      (UCreateTexture stbi_load filename textureId gl).2.1 = textureId ∧
      (UCreateTexture stbi_load filename textureId gl).2.2 = gl) ∧
    (∀ image, stbi_load filename = some image → image.channels ≠ 3 → image.channels ≠ 4 →
      (UCreateTexture stbi_load filename textureId gl).1 = false) ∧
    (∀ env : Env, env.stbi_load = stbi_load → filename ∈ textureFiles →
      (UCreateTexture stbi_load filename textureId gl).1 = false →
      (main env).exitCode = some EXIT_FAILURE ∧ (main env).frames = [] ∧
        (main env).globals.cameraCalls = []) := by
  refine ⟨?_, ?_, ?_, ?_⟩
  · rw [UCreateTexture_fst]
    unfold loadable
    cases hd : stbi_load filename with
    | none => simp
    | some image => simp
  · intro hd
    simp [UCreateTexture, hd]
  · intro image hd h3 h4
    rw [UCreateTexture_fst]
    simp [loadable, hd, h3, h4]
  · intro env he hf hfalse
    rw [UCreateTexture_fst, ← he] at hfalse
    exact main_of_not_loadable env filename hf hfalse

/-- C9, witness: no file is found; the call for `wood.jpg` returns false and
`main` fails before the render loop although a frame is waiting. -/
theorem UCreateTexture_pass_fail_witness :
    (UCreateTexture (fun _ => none) "wood.jpg" 0 ⟨[], 0, []⟩).1 = false ∧
    (main noFilesEnv).exitCode = some EXIT_FAILURE ∧ (main noFilesEnv).frames = [] ∧
    (main noFilesEnv).globals.cameraCalls = [] :=
  have h := UCreateTexture_pass_fail (fun _ => none) "wood.jpg" 0 ⟨[], 0, []⟩
  ⟨(h.2.1 rfl).1, h.2.2.2 noFilesEnv rfl (by simp [textureFiles]) (h.2.1 rfl).1⟩

/-! ### Order of mutation and read within one iteration -/

theorem dispatchEvent_calls_count (b : ℝ) (g : Globals) (e : Event) :
    ∃ l, (dispatchEvent b g e).cameraCalls = g.cameraCalls ++ l ∧
      (∀ k ∈ l, k.isMouseCall) ∧ l.length = ([e].filter Event.isPointer).length := by
  cases e with
  | cursorPos xpos ypos =>
    refine ⟨_, UMousePositionCallback_cameraCalls b g xpos ypos, ?_, rfl⟩
    intro k hk
    rw [List.mem_singleton] at hk
    subst hk
    rfl
  | scroll xoffset yoffset =>
    refine ⟨[CameraCall.mouseScroll yoffset], rfl, ?_, rfl⟩
    intro k hk
    rw [List.mem_singleton] at hk
    subst hk
    trivial
  | mouseButton button action mods =>
    exact ⟨[], by simp [dispatchEvent, UMouseButtonCallback], by simp, rfl⟩
  | framebufferSize width height =>
    exact ⟨[], by simp [dispatchEvent, UResizeWindow], by simp, rfl⟩
  | windowClose => exact ⟨[], by simp [dispatchEvent], by simp, rfl⟩

theorem glfwPollEvents_calls_count (b : ℝ) (events : List Event) (g : Globals) :
    ∃ l, (glfwPollEvents b g events).cameraCalls = g.cameraCalls ++ l ∧
      (∀ k ∈ l, k.isMouseCall) ∧ l.length = (events.filter Event.isPointer).length := by
  induction events generalizing g with
  | nil => exact ⟨[], by simp [glfwPollEvents], by simp, rfl⟩
  | cons e rest ih =>
    obtain ⟨l1, h1, m1, c1⟩ := dispatchEvent_calls_count b g e
    obtain ⟨l2, h2, m2, c2⟩ := ih (dispatchEvent b g e)
    refine ⟨l1 ++ l2, ?_, ?_, ?_⟩
    · have : glfwPollEvents b g (e :: rest) = glfwPollEvents b (dispatchEvent b g e) rest := rfl
      rw [this, h2, h1, List.append_assoc]
    · intro k hk
      rcases List.mem_append.mp hk with h | h
      · exact m1 k h
      · exact m2 k h
    · have hsplit : (e :: rest).filter Event.isPointer =
          [e].filter Event.isPointer ++ rest.filter Event.isPointer := by
        rw [← List.filter_append]
        rfl
      rw [List.length_append, hsplit, List.length_append, c1, c2]

theorem URender_view (b : ℝ) (g : Globals) :
    (URender b g).2.view = (GetViewMatrix g.gCamera).1 := by
  unfold URender
  dsimp only
  split_ifs <;> rfl

/-- C10, counterexample: in the first iteration of a run, with no key pressed
and one cursor event pending, the call log of the iteration is the
`GetViewMatrix()` read followed by the `ProcessMouseMovement` call of the
callback: a pointer mutation of the iteration comes after its read. -/
theorem renderLoopBody_mouse_call_after_read :
    (renderLoopBody 89 (initialGlobals (5 / 2) (1 / 10) 45)
        ⟨0, fun _ => false, [Event.cursorPos 410 290]⟩).1.cameraCalls =
      [CameraCall.getViewMatrix, CameraCall.mouseMovement 0 0 true] ∧
    ¬ (∀ pre post : List CameraCall,
        (renderLoopBody 89 (initialGlobals (5 / 2) (1 / 10) 45)
          ⟨0, fun _ => false, [Event.cursorPos 410 290]⟩).1.cameraCalls =
            pre ++ [CameraCall.getViewMatrix] ++ post →
        ∀ k ∈ post, ¬ k.isMouseCall) := by
  have hbody : (renderLoopBody 89 (initialGlobals (5 / 2) (1 / 10) 45)
      ⟨0, fun _ => false, [Event.cursorPos 410 290]⟩).1 =
      UMousePositionCallback 89 (URender 89 (UProcessInput 89 (fun _ => false)
        { initialGlobals (5 / 2) (1 / 10) 45 with
          gDeltaTime :=
            toFloat (toFloat 0 - (initialGlobals (5 / 2) (1 / 10) 45).gLastFrame),
          gLastFrame := toFloat 0 })).1 410 290 := rfl
  have hcalls : (renderLoopBody 89 (initialGlobals (5 / 2) (1 / 10) 45)
      ⟨0, fun _ => false, [Event.cursorPos 410 290]⟩).1.cameraCalls =
      [CameraCall.getViewMatrix, CameraCall.mouseMovement 0 0 true] := by
    rw [hbody, UMousePositionCallback_cameraCalls, URender_cameraCalls,
      UProcessInput_cameraCalls, URender_gFirstMouse, UProcessInput_gFirstMouse]
    simp [initialGlobals, movementKeys, toFloat_410, toFloat_290, toDouble_zero, toFloat_zero]
  refine ⟨hcalls, ?_⟩
  intro hall
  exact hall [] [CameraCall.mouseMovement 0 0 true] (by rw [hcalls]; rfl)
    (CameraCall.mouseMovement 0 0 true) (List.mem_singleton.mpr rfl) rfl

/-- C10, amended: in every iteration of the render loop the `ProcessKeyboard`
calls of the frame come first, then the `GetViewMatrix()` read of `URender`,
whose matrix is that of the camera as `UProcessInput` left it, and after the
read the calls of the callbacks that `glfwPollEvents` dispatches, one
`ProcessMouseMovement` or `ProcessMouseScroll` for each pending pointer event. -/
theorem renderLoopBody_call_order (pitchBound : ℝ) (g : Globals) (i : FrameInput) :
    ∃ l : List CameraCall,
      (renderLoopBody pitchBound g i).1.cameraCalls = g.cameraCalls ++
        ((movementKeys.filter (fun kd => i.keys kd.1)).map
          (fun kd => CameraCall.keyboard kd.2
            (toFloat (toFloat i.currentFrame - g.gLastFrame))) ++
        [CameraCall.getViewMatrix] ++ l) ∧
      (∀ k ∈ l, k.isMouseCall) ∧
      l.length = (i.events.filter Event.isPointer).length ∧
      (renderLoopBody pitchBound g i).2.view =
        (GetViewMatrix (UProcessInput pitchBound i.keys
          { g with gDeltaTime := toFloat (toFloat i.currentFrame - g.gLastFrame),
                   gLastFrame := toFloat i.currentFrame }).gCamera).1 := by
  obtain ⟨l, h, m, c⟩ := glfwPollEvents_calls_count pitchBound i.events
    (URender pitchBound (UProcessInput pitchBound i.keys
      { g with gDeltaTime := toFloat (toFloat i.currentFrame - g.gLastFrame),
               gLastFrame := toFloat i.currentFrame })).1
  refine ⟨l, ?_, m, c, ?_⟩
  · have : (renderLoopBody pitchBound g i).1 = glfwPollEvents pitchBound
        (URender pitchBound (UProcessInput pitchBound i.keys
          { g with gDeltaTime := toFloat (toFloat i.currentFrame - g.gLastFrame),
                   gLastFrame := toFloat i.currentFrame })).1 i.events := rfl
    rw [this, h, URender_cameraCalls, UProcessInput_cameraCalls]
    simp only [List.append_assoc]
  · have : (renderLoopBody pitchBound g i).2 =
        (URender pitchBound (UProcessInput pitchBound i.keys
          { g with gDeltaTime := toFloat (toFloat i.currentFrame - g.gLastFrame),
                   gLastFrame := toFloat i.currentFrame })).2 := rfl
    rw [this, URender_view]

/-! ### Frame timing -/

theorem moveIf_gLastFrame (b : ℝ) (pressed : Bool) (d : Camera_Movement) (g : Globals) :
    (moveIf b pressed d g).gLastFrame = g.gLastFrame := by
  cases pressed <;> rfl

theorem lampToggle_timing (keys : Key → Bool) (g : Globals) :
    (lampToggle keys g).gDeltaTime = g.gDeltaTime ∧
    (lampToggle keys g).gLastFrame = g.gLastFrame := by
  unfold lampToggle
  split_ifs <;> exact ⟨rfl, rfl⟩

theorem closeIf_gLastFrame (pressed : Bool) (g : Globals) :
    (closeIf pressed g).gLastFrame = g.gLastFrame := by
  cases pressed <;> rfl

theorem UProcessInput_timing (b : ℝ) (keys : Key → Bool) (g : Globals) :
    (UProcessInput b keys g).gDeltaTime = g.gDeltaTime ∧
    (UProcessInput b keys g).gLastFrame = g.gLastFrame := by
  rw [UProcessInput_eq]
  simp only [(lampToggle_timing _ _).1, (lampToggle_timing _ _).2, moveIf_gDeltaTime,
    moveIf_gLastFrame, closeIf_gDeltaTime, closeIf_gLastFrame, and_self]

theorem URender_timing (b : ℝ) (g : Globals) :
    (URender b g).1.gDeltaTime = g.gDeltaTime ∧ (URender b g).1.gLastFrame = g.gLastFrame := by
  unfold URender
  dsimp only
  split_ifs <;> exact ⟨rfl, rfl⟩

theorem UMousePositionCallback_timing (b : ℝ) (g : Globals) (xpos ypos : ℝ) :
    (UMousePositionCallback b g xpos ypos).gDeltaTime = g.gDeltaTime ∧
    (UMousePositionCallback b g xpos ypos).gLastFrame = g.gLastFrame := by
  unfold UMousePositionCallback
  dsimp only
  split_ifs <;> exact ⟨rfl, rfl⟩

theorem dispatchEvent_timing (b : ℝ) (g : Globals) (e : Event) :
    (dispatchEvent b g e).gDeltaTime = g.gDeltaTime ∧
    (dispatchEvent b g e).gLastFrame = g.gLastFrame := by
  cases e with
  | cursorPos xpos ypos => exact UMousePositionCallback_timing b g xpos ypos
  | scroll xoffset yoffset => exact ⟨rfl, rfl⟩
  | mouseButton button action mods => exact ⟨rfl, rfl⟩
  | framebufferSize width height => exact ⟨rfl, rfl⟩
  | windowClose => exact ⟨rfl, rfl⟩

theorem glfwPollEvents_timing (b : ℝ) (events : List Event) (g : Globals) :
    (glfwPollEvents b g events).gDeltaTime = g.gDeltaTime ∧
    (glfwPollEvents b g events).gLastFrame = g.gLastFrame := by
  induction events generalizing g with
  | nil => exact ⟨rfl, rfl⟩
  | cons e rest ih =>
    have h := ih (dispatchEvent b g e)
    have hd := dispatchEvent_timing b g e
    have hstep : glfwPollEvents b g (e :: rest) = glfwPollEvents b (dispatchEvent b g e) rest :=
      rfl
    rw [hstep]
    exact ⟨h.1.trans hd.1, h.2.trans hd.2⟩

theorem renderLoopBody_timing (b : ℝ) (g : Globals) (i : FrameInput) :
    (renderLoopBody b g i).1.gDeltaTime = toFloat (toFloat i.currentFrame - g.gLastFrame) ∧
    (renderLoopBody b g i).1.gLastFrame = toFloat i.currentFrame := by
  have hbody : (renderLoopBody b g i).1 = glfwPollEvents b (URender b (UProcessInput b i.keys
      { g with gDeltaTime := toFloat (toFloat i.currentFrame - g.gLastFrame),
               gLastFrame := toFloat i.currentFrame })).1 i.events := rfl
  rw [hbody]
  have h1 := glfwPollEvents_timing b i.events (URender b (UProcessInput b i.keys
      { g with gDeltaTime := toFloat (toFloat i.currentFrame - g.gLastFrame),
               gLastFrame := toFloat i.currentFrame })).1
  have h2 := URender_timing b (UProcessInput b i.keys
      { g with gDeltaTime := toFloat (toFloat i.currentFrame - g.gLastFrame),
               gLastFrame := toFloat i.currentFrame })
  have h3 := UProcessInput_timing b i.keys
      { g with gDeltaTime := toFloat (toFloat i.currentFrame - g.gLastFrame),
               gLastFrame := toFloat i.currentFrame }
  exact ⟨h1.1.trans (h2.1.trans h3.1), h1.2.trans (h2.2.trans h3.2)⟩

theorem frameDeltas_prefix (b : ℝ) (inputs : List FrameInput) (g : Globals) :
    frameDeltas b g inputs <+:
      floatClockDiffs g.gLastFrame (inputs.map fun i => i.currentFrame) := by
  induction inputs generalizing g with
  | nil => exact List.prefix_refl _
  | cons i rest ih =>
    by_cases hc : g.windowShouldClose = true
    · simp only [frameDeltas, hc, if_true]
      exact List.nil_prefix
    · simp only [frameDeltas, hc, Bool.false_eq_true, if_false, List.map_cons, floatClockDiffs]
      have ht := renderLoopBody_timing b g i
      have h := ih (renderLoopBody b g i).1
      rw [ht.2] at h
      rw [ht.1]
      obtain ⟨r, hr⟩ := h
      exact ⟨r, by rw [List.cons_append, hr]⟩

theorem frameDeltas_length (b : ℝ) (inputs : List FrameInput) (g : Globals) :
    (frameDeltas b g inputs).length = (renderLoop b g inputs).2.length := by
  induction inputs generalizing g with
  | nil => rfl
  | cons i rest ih =>
    by_cases hc : g.windowShouldClose = true
    · simp [frameDeltas, renderLoop, hc]
    · simp only [frameDeltas, renderLoop, hc, Bool.false_eq_true, if_false, List.length_cons]
      rw [ih]

theorem floatClockDiffs_exact (ts : List ℝ) (last : ℝ) (h1 : ∀ t ∈ ts, toFloat t = t)
    (h2 : ∀ d ∈ clockDiffs last ts, toFloat d = d) :
    floatClockDiffs last ts = clockDiffs last ts := by
  induction ts generalizing last with
  | nil => rfl
  | cons t ts ih =>
    simp only [clockDiffs, List.mem_cons, forall_eq_or_imp] at h2
    simp only [List.mem_cons, forall_eq_or_imp] at h1
    simp only [floatClockDiffs, clockDiffs]
    rw [h1.1, h2.1, ih t h1.2 h2.2]

theorem clockDiffs_take_sum (ts : List ℝ) (a : ℝ) (n : Nat) :
    ((clockDiffs a ts).take n).sum = (ts.take n).getLastD a - a := by
  induction ts generalizing a n with
  | nil => simp [clockDiffs]
  | cons t ts ih =>
    cases n with
    | zero => simp
    | succ n =>
      simp only [clockDiffs, List.take_succ_cons, List.sum_cons, List.getLastD_cons]
      rw [ih]
      ring

theorem frameDeltas_nonneg (b : ℝ) (inputs : List FrameInput) (g : Globals)
    (h0 : ∀ i ∈ inputs, 0 ≤ i.currentFrame)
    (hlast : ∀ i ∈ inputs, g.gLastFrame ≤ toFloat i.currentFrame)
    (hmono : inputs.Pairwise (fun i j => i.currentFrame ≤ j.currentFrame)) :
    ∀ d ∈ frameDeltas b g inputs, 0 ≤ d := by
  induction inputs generalizing g with
  | nil =>
    intro d hd
    simp [frameDeltas] at hd
  | cons i rest ih =>
    intro d hd
    by_cases hc : g.windowShouldClose = true
    · simp [frameDeltas, hc] at hd
    · simp only [frameDeltas, hc, Bool.false_eq_true, if_false, List.mem_cons] at hd
      have ht := renderLoopBody_timing b g i
      rw [List.pairwise_cons] at hmono
      rcases hd with rfl | hd
      · rw [ht.1]
        exact toFloat_nonneg (sub_nonneg.mpr (hlast i (List.mem_cons_self _ _)))
      · refine ih (renderLoopBody b g i).1 (fun j hj => h0 j (List.mem_cons_of_mem _ hj)) ?_
          hmono.2 d hd
        intro j hj
        rw [ht.2]
        exact toFloat_mono_of_nonneg (h0 i (List.mem_cons_self _ _)) (hmono.1 j hj)

theorem renderLoop_keyboard_nonneg (b : ℝ) (inputs : List FrameInput) (g : Globals)
    (h0 : ∀ i ∈ inputs, 0 ≤ i.currentFrame)
    (hlast : ∀ i ∈ inputs, g.gLastFrame ≤ toFloat i.currentFrame)
    (hmono : inputs.Pairwise (fun i j => i.currentFrame ≤ j.currentFrame)) :
    ∃ l, (renderLoop b g inputs).1.cameraCalls = g.cameraCalls ++ l ∧
      ∀ d dt, CameraCall.keyboard d dt ∈ l → 0 ≤ dt := by
  induction inputs generalizing g with
  | nil => exact ⟨[], by simp [renderLoop], by simp⟩
  | cons i rest ih =>
    by_cases hc : g.windowShouldClose = true
    · exact ⟨[], by simp [renderLoop, hc], by simp⟩
    · obtain ⟨l1, h1, m1⟩ := renderLoopBody_cameraCalls b g i
      have ht := renderLoopBody_timing b g i
      rw [List.pairwise_cons] at hmono
      obtain ⟨l2, h2, m2⟩ := ih (renderLoopBody b g i).1
        (fun j hj => h0 j (List.mem_cons_of_mem _ hj))
        (by
          intro j hj
          rw [ht.2]
          exact toFloat_mono_of_nonneg (h0 i (List.mem_cons_self _ _)) (hmono.1 j hj))
        hmono.2
      refine ⟨((movementKeys.filter (fun kd => i.keys kd.1)).map
          (fun kd => CameraCall.keyboard kd.2
            (toFloat (toFloat i.currentFrame - g.gLastFrame))) ++
        [CameraCall.getViewMatrix] ++ l1) ++ l2, ?_, ?_⟩
      · simp only [renderLoop, hc, Bool.false_eq_true, if_false]
        rw [h2, h1, List.append_assoc]
      · intro d dt hk
        simp only [List.mem_append, List.mem_map, List.mem_singleton] at hk
        rcases hk with ((⟨kd, -, hkd⟩ | hk) | hk) | hk
        · injection hkd with hd hdt
          rw [← hdt]
          exact toFloat_nonneg (sub_nonneg.mpr (hlast i (List.mem_cons_self _ _)))
        · exact CameraCall.noConfusion hk
        · exact (m1 _ hk).elim
        · exact m2 d dt hk

theorem oneFrame_delta :
    (renderLoopBody 89 (initialGlobals (5 / 2) (1 / 10) 45)
      ⟨16777217 / 16777216, fun _ => false, []⟩).1.gDeltaTime = 1 := by
  rw [(renderLoopBody_timing 89 _ _).1]
  have h0 : (initialGlobals (5 / 2) (1 / 10) 45).gLastFrame = 0 := rfl
  have hi : (⟨16777217 / 16777216, fun _ => false, []⟩ : FrameInput).currentFrame =
      16777217 / 16777216 := rfl
  rw [h0, hi, toFloat_one_ulp_half, sub_zero, toFloat_one]

/-- C11, counterexample: the first frame of a run, at the clock reading
1 + 2^-24 seconds, a `double` that is not a `float`.  The frame time computed
is 1, not the reading minus the previous reading 0, and the one frame time
does not sum to the reading. -/
theorem frame_delta_not_clock_difference :
    (0 : ℝ) ≤ 16777217 / 16777216 ∧
    (initialGlobals (5 / 2) (1 / 10) 45).gLastFrame = 0 ∧
    (renderLoopBody 89 (initialGlobals (5 / 2) (1 / 10) 45)
      ⟨16777217 / 16777216, fun _ => false, []⟩).1.gDeltaTime = 1 ∧
    (renderLoopBody 89 (initialGlobals (5 / 2) (1 / 10) 45)
      ⟨16777217 / 16777216, fun _ => false, []⟩).1.gDeltaTime ≠
        16777217 / 16777216 - (initialGlobals (5 / 2) (1 / 10) 45).gLastFrame ∧
    (frameDeltas 89 (initialGlobals (5 / 2) (1 / 10) 45)
      [⟨16777217 / 16777216, fun _ => false, []⟩]).sum ≠ 16777217 / 16777216 := by
  have h0 : (initialGlobals (5 / 2) (1 / 10) 45).gLastFrame = 0 := rfl
  refine ⟨by norm_num, rfl, oneFrame_delta, ?_, ?_⟩
  · rw [oneFrame_delta, h0]
    norm_num
  · have hc : (initialGlobals (5 / 2) (1 / 10) 45).windowShouldClose = false := rfl
    simp only [frameDeltas, hc, Bool.false_eq_true, if_false, List.sum_cons, List.sum_nil,
      oneFrame_delta]
    norm_num

/-- C11, amended: the `gDeltaTime` of every iteration is the `float` difference
of the clock reading narrowed to `float` and the previous narrowed reading (0
before the first frame); for non-negative, non-decreasing clock readings the
frame times of the frames that run are these rounded differences in order,
each is non-negative, and every frame time that a run of `main` passes to
`ProcessKeyboard` is non-negative; when the readings and their successive
differences are `float` values, the frame times are the differences
themselves and the first n of them sum to the n-th reading. -/
theorem frame_deltas_rounded_of_monotone_clock (env : Env)
    (h0 : ∀ i ∈ env.frameInputs, 0 ≤ i.currentFrame)
    (hmono : env.frameInputs.Pairwise (fun i j => i.currentFrame ≤ j.currentFrame)) :
    (∀ (pitchBound : ℝ) (g : Globals) (i : FrameInput),
      (renderLoopBody pitchBound g i).1.gDeltaTime =
        toFloat (toFloat i.currentFrame - g.gLastFrame) ∧
      (renderLoopBody pitchBound g i).1.gLastFrame = toFloat i.currentFrame) ∧
    (initialGlobals env.movementSpeed env.mouseSensitivity env.zoom).gLastFrame = 0 ∧
    frameDeltas 89
        (initialGlobals env.movementSpeed env.mouseSensitivity env.zoom) env.frameInputs <+:
      floatClockDiffs 0 (env.frameInputs.map fun i => i.currentFrame) ∧
    (frameDeltas 89
        (initialGlobals env.movementSpeed env.mouseSensitivity env.zoom)
        env.frameInputs).length =
      (renderLoop 89
        (initialGlobals env.movementSpeed env.mouseSensitivity env.zoom)
        env.frameInputs).2.length ∧
    (∀ d ∈ frameDeltas 89
        (initialGlobals env.movementSpeed env.mouseSensitivity env.zoom) env.frameInputs,
      0 ≤ d) ∧
    (∀ d dt, CameraCall.keyboard d dt ∈ (main env).globals.cameraCalls → 0 ≤ dt) ∧
    ((∀ i ∈ env.frameInputs, toFloat i.currentFrame = i.currentFrame) →
      (∀ d ∈ clockDiffs 0 (env.frameInputs.map fun i => i.currentFrame), toFloat d = d) →
      frameDeltas 89
          (initialGlobals env.movementSpeed env.mouseSensitivity env.zoom) env.frameInputs <+:
        clockDiffs 0 (env.frameInputs.map fun i => i.currentFrame) ∧
      ∀ n, n ≤ (frameDeltas 89
          (initialGlobals env.movementSpeed env.mouseSensitivity env.zoom)
          env.frameInputs).length →
        ((frameDeltas 89
          (initialGlobals env.movementSpeed env.mouseSensitivity env.zoom)
          env.frameInputs).take n).sum =
        ((env.frameInputs.map fun i => i.currentFrame).take n).getLastD 0) := by
  have hlast : ∀ i ∈ env.frameInputs,
      (initialGlobals env.movementSpeed env.mouseSensitivity env.zoom).gLastFrame ≤
        toFloat i.currentFrame := fun i hi => toFloat_nonneg (h0 i hi)
  have hpre := frameDeltas_prefix 89 env.frameInputs
    (initialGlobals env.movementSpeed env.mouseSensitivity env.zoom)
  have hg0 : (initialGlobals env.movementSpeed env.mouseSensitivity env.zoom).gLastFrame = 0 :=
    rfl
  rw [hg0] at hpre
  refine ⟨fun b g i => renderLoopBody_timing b g i, rfl, hpre,
    frameDeltas_length _ _ _, frameDeltas_nonneg _ _ _ h0 hlast hmono, ?_, ?_⟩
  · intro d dt hk
    rcases main_globals env with h | h
    · rw [h] at hk
      simp [initialGlobals] at hk
    · rw [h] at hk
      obtain ⟨l, hl, m⟩ := renderLoop_keyboard_nonneg 89 env.frameInputs
        (initialGlobals env.movementSpeed env.mouseSensitivity env.zoom) h0 hlast hmono
      rw [hl] at hk
      simp only [initialGlobals, List.nil_append] at hk
      exact m d dt hk
  · intro hex hdiff
    have hexact : floatClockDiffs 0 (env.frameInputs.map fun i => i.currentFrame) =
        clockDiffs 0 (env.frameInputs.map fun i => i.currentFrame) := by
      apply floatClockDiffs_exact _ _ _ hdiff
      intro t ht
      obtain ⟨i, hi, rfl⟩ := List.mem_map.mp ht
      exact hex i hi
    rw [hexact] at hpre
    refine ⟨hpre, ?_⟩
    intro n hn
    have htake := List.prefix_iff_eq_take.mp hpre
    have hn2 : (frameDeltas 89
        (initialGlobals env.movementSpeed env.mouseSensitivity env.zoom)
        env.frameInputs).take n =
        (clockDiffs 0 (env.frameInputs.map fun i => i.currentFrame)).take n := by
      conv_lhs => rw [htake]
      rw [List.take_take, Nat.min_eq_left hn]
    rw [hn2, clockDiffs_take_sum, sub_zero]

theorem twoFramesEnv_clock :
    (∀ i ∈ twoFramesEnv.frameInputs, 0 ≤ i.currentFrame) ∧
    twoFramesEnv.frameInputs.Pairwise (fun i j => i.currentFrame ≤ j.currentFrame) := by
  constructor
  · intro i hi
    simp only [twoFramesEnv, List.mem_cons, List.mem_singleton, List.not_mem_nil, or_false] at hi
    rcases hi with rfl | rfl <;> norm_num
  · simp only [twoFramesEnv, List.pairwise_cons, List.mem_singleton, forall_eq,
      List.not_mem_nil, false_implies, implies_true, List.Pairwise.nil, and_true]
    norm_num

theorem twoFramesEnv_exact :
    (∀ i ∈ twoFramesEnv.frameInputs, toFloat i.currentFrame = i.currentFrame) ∧
    (∀ d ∈ clockDiffs 0 (twoFramesEnv.frameInputs.map fun i => i.currentFrame),
      toFloat d = d) := by
  constructor
  · intro i hi
    simp only [twoFramesEnv, List.mem_cons, List.mem_singleton, List.not_mem_nil, or_false] at hi
    rcases hi with rfl | rfl
    · exact toFloat_one
    · exact toFloat_three
  · intro d hd
    simp only [twoFramesEnv, List.map_cons, List.map_nil, clockDiffs, List.mem_cons,
      List.not_mem_nil, or_false] at hd
    rcases hd with rfl | rfl
    · rw [sub_zero]
      exact toFloat_one
    · have h : (3 : ℝ) - 1 = 2 := by norm_num
      rw [h]
      exact toFloat_two

/-- C11, witness: two frames at the clock readings 1 and 3, which are `float`
values as are their differences 1 and 2. -/
theorem frame_deltas_rounded_of_monotone_clock_witness :
    (∀ i ∈ twoFramesEnv.frameInputs, 0 ≤ i.currentFrame) ∧
    twoFramesEnv.frameInputs.Pairwise (fun i j => i.currentFrame ≤ j.currentFrame) ∧
    (∀ d ∈ frameDeltas 89
        (initialGlobals twoFramesEnv.movementSpeed twoFramesEnv.mouseSensitivity
          twoFramesEnv.zoom) twoFramesEnv.frameInputs, 0 ≤ d) ∧
    (∀ d dt, CameraCall.keyboard d dt ∈ (main twoFramesEnv).globals.cameraCalls → 0 ≤ dt) ∧
    frameDeltas 89
        (initialGlobals twoFramesEnv.movementSpeed twoFramesEnv.mouseSensitivity
          twoFramesEnv.zoom) twoFramesEnv.frameInputs <+:
      clockDiffs 0 (twoFramesEnv.frameInputs.map fun i => i.currentFrame) :=
  have h := frame_deltas_rounded_of_monotone_clock twoFramesEnv twoFramesEnv_clock.1
    twoFramesEnv_clock.2
  ⟨twoFramesEnv_clock.1, twoFramesEnv_clock.2, h.2.2.2.2.1, h.2.2.2.2.2.1,
    (h.2.2.2.2.2.2 twoFramesEnv_exact.1 twoFramesEnv_exact.2).1⟩

/-! ### The lamp toggle -/

theorem moveIf_gIsLampOrbiting (b : ℝ) (pressed : Bool) (d : Camera_Movement) (g : Globals) :
    (moveIf b pressed d g).gIsLampOrbiting = g.gIsLampOrbiting := by
  cases pressed <;> rfl

theorem closeIf_gIsLampOrbiting (pressed : Bool) (g : Globals) :
    (closeIf pressed g).gIsLampOrbiting = g.gIsLampOrbiting := by
  cases pressed <;> rfl

theorem lampToggle_gIsLampOrbiting (keys : Key → Bool) (g : Globals) :
    (lampToggle keys g).gIsLampOrbiting =
      if keys .J && !g.gIsLampOrbiting then true
      else if keys .K && g.gIsLampOrbiting then false
      else g.gIsLampOrbiting := by
  unfold lampToggle
  split_ifs <;> rfl

theorem UProcessInput_gIsLampOrbiting (b : ℝ) (keys : Key → Bool) (g : Globals) :
    (UProcessInput b keys g).gIsLampOrbiting =
      if keys .J && !g.gIsLampOrbiting then true
      else if keys .K && g.gIsLampOrbiting then false
      else g.gIsLampOrbiting := by
  rw [UProcessInput_eq, lampToggle_gIsLampOrbiting]
  simp only [moveIf_gIsLampOrbiting, closeIf_gIsLampOrbiting]

/-- C12: the lamp flag is a machine with the two states Stationary (false) and
Orbiting (true) that starts in Stationary; one call of `UProcessInput` takes
Stationary to Orbiting exactly when J is pressed and Orbiting to Stationary
exactly when K is pressed, whatever the other keys are: K does nothing in
Stationary, J does nothing in Orbiting, and with J and K both pressed the state
flips on every call. -/
theorem UProcessInput_lamp_machine (pitchBound : ℝ) (keys : Key → Bool) (g : Globals) :
    (∀ movementSpeed mouseSensitivity zoom : ℝ,
      (initialGlobals movementSpeed mouseSensitivity zoom).gIsLampOrbiting = false) ∧
    (UProcessInput pitchBound keys g).gIsLampOrbiting =
      (if g.gIsLampOrbiting = false ∧ keys .J = true then true
       else if g.gIsLampOrbiting = true ∧ keys .K = true then false
       else g.gIsLampOrbiting) ∧
    (g.gIsLampOrbiting = false →
      (UProcessInput pitchBound keys g).gIsLampOrbiting = keys .J) ∧
    (g.gIsLampOrbiting = true →
      (UProcessInput pitchBound keys g).gIsLampOrbiting = !keys .K) ∧
    (keys .J = true → keys .K = true →
      (UProcessInput pitchBound keys g).gIsLampOrbiting = !g.gIsLampOrbiting) := by
  rw [UProcessInput_gIsLampOrbiting]
  refine ⟨fun _ _ _ => rfl, ?_, ?_, ?_, ?_⟩
  · cases g.gIsLampOrbiting <;> cases keys .J <;> cases keys .K <;> rfl
  · intro h
    rw [h]
    cases keys .J <;> cases keys .K <;> rfl
  · intro h
    rw [h]
    cases keys .J <;> cases keys .K <;> rfl
  · intro hJ hK
    rw [hJ, hK]
    cases g.gIsLampOrbiting <;> rfl

/-! ### The orbit of the light -/

theorem normalize_unit_y : Vec3.normalize ⟨0, 1, 0⟩ = ⟨0, 1, 0⟩ :=
  normalize_of_unit _ (by simp [Vec3.dot])

theorem rotate_unit_y_mulVec (angle : ℝ) (p : Vec3) :
    (rotate angle ⟨0, 1, 0⟩).mulVec ⟨p.x, p.y, p.z, 1⟩ =
      ⟨p.x * Real.cos angle + p.z * Real.sin angle, p.y,
        p.z * Real.cos angle - p.x * Real.sin angle, 1⟩ := by
  unfold rotate
  simp only [normalize_unit_y, Mat4.mulVec, Vec3.smul]
  ext <;> simp <;> ring

theorem URender_gLightPosition (b : ℝ) (g : Globals) :
    (URender b g).1.gLightPosition =
      if g.gIsLampOrbiting then rotateAboutY (radians 45 * g.gDeltaTime) g.gLightPosition
      else g.gLightPosition := by
  unfold URender
  dsimp only
  split_ifs
  · show (⟨_, _, _⟩ : Vec3) = _
    rw [rotate_unit_y_mulVec]
    rfl
  · rfl

theorem URender_gIsLampOrbiting (b : ℝ) (g : Globals) :
    (URender b g).1.gIsLampOrbiting = g.gIsLampOrbiting := by
  unfold URender
  dsimp only
  split_ifs <;> rfl

theorem URender_lightPos (b : ℝ) (g : Globals) :
    (URender b g).2.lightPos = (URender b g).1.gLightPosition := rfl

theorem rotateAboutY_add (a1 a2 : ℝ) (p : Vec3) :
    rotateAboutY a2 (rotateAboutY a1 p) = rotateAboutY (a1 + a2) p := by
  simp only [rotateAboutY, Real.cos_add, Real.sin_add]
  ext <;> simp <;> ring

theorem rotateAboutY_zero (p : Vec3) : rotateAboutY 0 p = p := by
  simp [rotateAboutY]

theorem rotateAboutY_two_pi (p : Vec3) : rotateAboutY (2 * Real.pi) p = p := by
  simp [rotateAboutY]

theorem renderFrames_light (b : ℝ) (frameTimes : List ℝ) (g : Globals)
    (horb : g.gIsLampOrbiting = true) :
    (renderFrames b g frameTimes).gLightPosition =
      rotateAboutY (radians 45 * frameTimes.sum) g.gLightPosition := by
  induction frameTimes generalizing g with
  | nil => simp [renderFrames, rotateAboutY_zero]
  | cons dt rest ih =>
    have hstep : renderFrames b g (dt :: rest) =
        renderFrames b (URender b { g with gDeltaTime := dt }).1 rest := rfl
    have hl : (URender b { g with gDeltaTime := dt }).1.gLightPosition =
        rotateAboutY (radians 45 * dt) g.gLightPosition := by
      rw [URender_gLightPosition]
      simp [horb]
    have ho : (URender b { g with gDeltaTime := dt }).1.gIsLampOrbiting = true := by
      rw [URender_gIsLampOrbiting]
      exact horb
    rw [hstep, ih _ ho, hl, rotateAboutY_add, List.sum_cons, mul_add]

theorem radians_45_mul_8 : radians 45 * 8 = 2 * Real.pi := by
  unfold radians
  ring

/-- C13: when the lamp is Orbiting, the light update of `URender` is the
rotation about the world Y axis by `radians(45) * gDeltaTime`: the new position
is (x cos a + z sin a, y, z cos a - x sin a), so y is kept and so is the
squared distance x^2 + z^2 from the Y axis; when the lamp is Stationary the
light position is unchanged.  The frame is lit from the updated position. -/
theorem URender_light_rotation (pitchBound : ℝ) (g : Globals) :
    (g.gIsLampOrbiting = true →
      (URender pitchBound g).1.gLightPosition =
        rotateAboutY (radians 45 * g.gDeltaTime) g.gLightPosition ∧
      (URender pitchBound g).1.gLightPosition.x =
        g.gLightPosition.x * Real.cos (radians 45 * g.gDeltaTime) +
          g.gLightPosition.z * Real.sin (radians 45 * g.gDeltaTime) ∧
      (URender pitchBound g).1.gLightPosition.y = g.gLightPosition.y ∧
      (URender pitchBound g).1.gLightPosition.z =
        g.gLightPosition.z * Real.cos (radians 45 * g.gDeltaTime) -
          g.gLightPosition.x * Real.sin (radians 45 * g.gDeltaTime) ∧
      (URender pitchBound g).1.gLightPosition.x ^ 2 +
          (URender pitchBound g).1.gLightPosition.z ^ 2 =
        g.gLightPosition.x ^ 2 + g.gLightPosition.z ^ 2) ∧
    (g.gIsLampOrbiting = false →
      (URender pitchBound g).1.gLightPosition = g.gLightPosition) ∧
    (URender pitchBound g).2.lightPos = (URender pitchBound g).1.gLightPosition := by
  refine ⟨?_, ?_, rfl⟩
  · intro horb
    have hl : (URender pitchBound g).1.gLightPosition =
        rotateAboutY (radians 45 * g.gDeltaTime) g.gLightPosition := by
      rw [URender_gLightPosition]
      simp [horb]
    refine ⟨hl, by rw [hl]; rfl, by rw [hl]; rfl, by rw [hl]; rfl, ?_⟩
    rw [hl]
    simp only [rotateAboutY]
    have hsc := Real.sin_sq_add_cos_sq (radians 45 * g.gDeltaTime)
    nlinarith [hsc]
  · intro hst
    rw [URender_gLightPosition]
    simp [hst]

/-- C14: with the lamp Orbiting, two successive light updates with the frame
times dt1 and dt2 give the light position of one update with the frame time
dt1 + dt2; over any split of the elapsed time into frames the light is the
start position rotated about the Y axis by 45 degrees times the elapsed time;
and after 8 seconds, in one frame or in any number of frames, the light is back
at its starting position. -/
theorem URender_orbit_additive (pitchBound : ℝ) (g : Globals) (dt1 dt2 : ℝ)
    (_h1 : 0 ≤ dt1) (_h2 : 0 ≤ dt2) (horb : g.gIsLampOrbiting = true) :
    (URender pitchBound
        { (URender pitchBound { g with gDeltaTime := dt1 }).1 with gDeltaTime := dt2 }
      ).1.gLightPosition =
      (URender pitchBound { g with gDeltaTime := dt1 + dt2 }).1.gLightPosition ∧
    (∀ frameTimes : List ℝ,
      (renderFrames pitchBound g frameTimes).gLightPosition =
        rotateAboutY (radians (45 * frameTimes.sum)) g.gLightPosition) ∧
    (∀ frameTimes : List ℝ, frameTimes.sum = 8 →
      (renderFrames pitchBound g frameTimes).gLightPosition = g.gLightPosition) ∧
    (URender pitchBound { g with gDeltaTime := 8 }).1.gLightPosition = g.gLightPosition := by
  have hr : ∀ t : ℝ, radians (45 * t) = radians 45 * t := by
    intro t
    unfold radians
    ring
  refine ⟨?_, ?_, ?_, ?_⟩
  · have h2 := renderFrames_light pitchBound [dt1, dt2] g horb
    have h1 := renderFrames_light pitchBound [dt1 + dt2] g horb
    have e2 : renderFrames pitchBound g [dt1, dt2] = (URender pitchBound
        { (URender pitchBound { g with gDeltaTime := dt1 }).1 with gDeltaTime := dt2 }).1 := rfl
    have e1 : renderFrames pitchBound g [dt1 + dt2] =
        (URender pitchBound { g with gDeltaTime := dt1 + dt2 }).1 := rfl
    rw [← e2, ← e1, h2, h1]
    simp
  · intro frameTimes
    rw [renderFrames_light pitchBound frameTimes g horb, hr]
  · intro frameTimes hsum
    rw [renderFrames_light pitchBound frameTimes g horb, hsum, radians_45_mul_8,
      rotateAboutY_two_pi]
  · have h1 := renderFrames_light pitchBound [8] g horb
    have e1 : renderFrames pitchBound g [8] =
        (URender pitchBound { g with gDeltaTime := 8 }).1 := rfl
    rw [← e1, h1]
    simp only [List.sum_cons, List.sum_nil, add_zero]
    rw [radians_45_mul_8, rotateAboutY_two_pi]

/-- C14, witness: the lamp set orbiting at (0.5, 2.5, 3), frames of one and two
seconds. -/
theorem URender_orbit_additive_witness :
    (0 : ℝ) ≤ 1 ∧ (0 : ℝ) ≤ 2 ∧ orbitingGlobals.gIsLampOrbiting = true ∧
    (URender 89
        { (URender 89 { orbitingGlobals with gDeltaTime := 1 }).1 with gDeltaTime := 2 }
      ).1.gLightPosition =
      (URender 89 { orbitingGlobals with gDeltaTime := 1 + 2 }).1.gLightPosition ∧
    (URender 89 { orbitingGlobals with gDeltaTime := 8 }).1.gLightPosition =
      orbitingGlobals.gLightPosition :=
  have h := URender_orbit_additive 89 orbitingGlobals 1 2 (by norm_num) (by norm_num) rfl
  ⟨by norm_num, by norm_num, rfl, h.1, h.2.2.2⟩

/-! ### Texture names -/

theorem le_foldr_max (names : List Nat) (n : Nat) (h : n ∈ names) :
    n ≤ names.foldr max 0 := by
  induction names with
  | nil => simp at h
  | cons m rest ih =>
    rw [List.foldr_cons]
    rcases List.mem_cons.mp h with rfl | h
    · exact le_max_left _ _
    · exact le_trans (ih h) (le_max_right _ _)

theorem glGenTextures_fresh (gl : GLTextures) :
    (glGenTextures gl).2 ∉ gl.names ∧
    (glGenTextures gl).1.names = (glGenTextures gl).2 :: gl.names := by
  refine ⟨?_, rfl⟩
  intro h
  have hle := le_foldr_max gl.names _ h
  simp only [glGenTextures] at hle
  omega

theorem UCreateTexture_names (stbi_load : String → Option Image) (filename : String)
    (textureId : Nat) (gl : GLTextures) :
    (∀ n ∈ gl.names, n ∈ (UCreateTexture stbi_load filename textureId gl).2.2.names) ∧
    ((UCreateTexture stbi_load filename textureId gl).1 = true →
      (UCreateTexture stbi_load filename textureId gl).2.1 ∈
        (UCreateTexture stbi_load filename textureId gl).2.2.names) := by
  unfold UCreateTexture
  cases hd : stbi_load filename with
  | none => simp
  | some image =>
    dsimp only
    split_ifs <;> simp [glGenTextures, glBindTexture, glTexImage2D] <;>
      exact fun n hn => Or.inr hn

theorem UDestroyTexture_names (textureId : Nat) (gl : GLTextures) :
    (UDestroyTexture textureId gl).names = (glGenTextures gl).2 :: gl.names := rfl

theorem releaseTextures_names (ids : TextureIds) (gl : GLTextures) (n : Nat)
    (h : n ∈ gl.names) : n ∈ (releaseTextures ids gl).names := by
  unfold releaseTextures
  simp only [UDestroyTexture_names]
  simp [h]

theorem loadTextures_names (stbi_load : String → Option Image) (ids : TextureIds)
    (gl : GLTextures) (h : (loadTextures stbi_load ids gl).1 = true) :
    (loadTextures stbi_load ids gl).2.1.gTextureIdBlack ∈
      (loadTextures stbi_load ids gl).2.2.names ∧
    (loadTextures stbi_load ids gl).2.1.gTextureIdScreen ∈
      (loadTextures stbi_load ids gl).2.2.names ∧
    (loadTextures stbi_load ids gl).2.1.gTextureIdWood ∈
      (loadTextures stbi_load ids gl).2.2.names ∧
    (loadTextures stbi_load ids gl).2.1.gTextureIdKeyboard ∈
      (loadTextures stbi_load ids gl).2.2.names ∧
    (loadTextures stbi_load ids gl).2.1.gTextureIdPhoto ∈
      (loadTextures stbi_load ids gl).2.2.names := by
  unfold loadTextures at h ⊢
  dsimp only at h ⊢
  split_ifs at h ⊢ with h1 h2 h3 h4 h5
  simp only [Bool.not_eq_true, Bool.not_eq_false, Bool.not_eq_eq_eq_not, Bool.not_true,
    Bool.not_false] at h1 h2 h3 h4 h5
  have n1 := UCreateTexture_names stbi_load "blackPlastic.jpg" ids.gTextureIdBlack gl
  have n2 := UCreateTexture_names stbi_load "screen.jpg" ids.gTextureIdScreen
    (UCreateTexture stbi_load "blackPlastic.jpg" ids.gTextureIdBlack gl).2.2
  have n3 := UCreateTexture_names stbi_load "wood.jpg" ids.gTextureIdWood
    (UCreateTexture stbi_load "screen.jpg" ids.gTextureIdScreen
      (UCreateTexture stbi_load "blackPlastic.jpg" ids.gTextureIdBlack gl).2.2).2.2
  have n4 := UCreateTexture_names stbi_load "keyboard.jpg" ids.gTextureIdKeyboard
    (UCreateTexture stbi_load "wood.jpg" ids.gTextureIdWood
      (UCreateTexture stbi_load "screen.jpg" ids.gTextureIdScreen
        (UCreateTexture stbi_load "blackPlastic.jpg" ids.gTextureIdBlack gl).2.2).2.2).2.2
  have n5 := UCreateTexture_names stbi_load "photo.png" ids.gTextureIdPhoto
    (UCreateTexture stbi_load "keyboard.jpg" ids.gTextureIdKeyboard
      (UCreateTexture stbi_load "wood.jpg" ids.gTextureIdWood
        (UCreateTexture stbi_load "screen.jpg" ids.gTextureIdScreen
          (UCreateTexture stbi_load "blackPlastic.jpg" ids.gTextureIdBlack gl).2.2).2.2).2.2).2.2
  exact ⟨n5.1 _ (n4.1 _ (n3.1 _ (n2.1 _ (n1.2 h1)))), n5.1 _ (n4.1 _ (n3.1 _ (n2.2 h2))),
    n5.1 _ (n4.1 _ (n3.2 h3)), n5.1 _ (n4.2 h4), n5.2 h5⟩

theorem main_success (env : Env) (h : (main env).exitCode = some EXIT_SUCCESS) :
    (loadTextures env.stbi_load ⟨0, 0, 0, 0, 0⟩ ⟨[], 0, []⟩).1 = true ∧
    (main env).textureIds = (loadTextures env.stbi_load ⟨0, 0, 0, 0, 0⟩ ⟨[], 0, []⟩).2.1 ∧
    (main env).gl = releaseTextures
      (loadTextures env.stbi_load ⟨0, 0, 0, 0, 0⟩ ⟨[], 0, []⟩).2.1
      (loadTextures env.stbi_load ⟨0, 0, 0, 0, 0⟩ ⟨[], 0, []⟩).2.2 := by
  have hne : some EXIT_FAILURE ≠ some EXIT_SUCCESS := by
    simp [EXIT_FAILURE, EXIT_SUCCESS]
  unfold main at h ⊢
  dsimp only at h ⊢
  split_ifs at h ⊢ with h1 h2 h3 h4 h5
  · exact absurd h hne
  · exact absurd h hne
  · exact absurd h hne
  · exact absurd h hne
  · refine ⟨?_, rfl, rfl⟩
    simpa using h4

/-- C15: `UDestroyTexture` generates instead of deleting: for every
`textureId`, after `UDestroyTexture(textureId)` every texture name that was
allocated, `textureId` included, is still allocated, and exactly one name that
was not allocated before has been added; so when `main` has run its shutdown
sequence and exits with `EXIT_SUCCESS`, the five scene textures are all still
allocated. -/
theorem UDestroyTexture_keeps_and_adds (textureId : Nat) (gl : GLTextures) :
    (textureId ∈ gl.names → textureId ∈ (UDestroyTexture textureId gl).names) ∧
    (∀ n ∈ gl.names, n ∈ (UDestroyTexture textureId gl).names) ∧
    (∃ fresh, fresh ∉ gl.names ∧ (UDestroyTexture textureId gl).names = fresh :: gl.names) ∧
    (∀ env : Env, (main env).exitCode = some EXIT_SUCCESS →
      (main env).textureIds.gTextureIdBlack ∈ (main env).gl.names ∧
      (main env).textureIds.gTextureIdScreen ∈ (main env).gl.names ∧
      (main env).textureIds.gTextureIdWood ∈ (main env).gl.names ∧
      (main env).textureIds.gTextureIdKeyboard ∈ (main env).gl.names ∧
      (main env).textureIds.gTextureIdPhoto ∈ (main env).gl.names) := by
  refine ⟨?_, ?_, ⟨(glGenTextures gl).2, (glGenTextures_fresh gl).1, rfl⟩, ?_⟩
  · intro h
    rw [UDestroyTexture_names]
    exact List.mem_cons_of_mem _ h
  · intro n h
    rw [UDestroyTexture_names]
    exact List.mem_cons_of_mem _ h
  · intro env hexit
    obtain ⟨hload, hids, hgl⟩ := main_success env hexit
    have hn := loadTextures_names env.stbi_load ⟨0, 0, 0, 0, 0⟩ ⟨[], 0, []⟩ hload
    rw [hids, hgl]
    exact ⟨releaseTextures_names _ _ _ hn.1, releaseTextures_names _ _ _ hn.2.1,
      releaseTextures_names _ _ _ hn.2.2.1, releaseTextures_names _ _ _ hn.2.2.2.1,
      releaseTextures_names _ _ _ hn.2.2.2.2⟩

theorem moveIf_windowShouldClose (b : ℝ) (pressed : Bool) (d : Camera_Movement)
    (g : Globals) : (moveIf b pressed d g).windowShouldClose = g.windowShouldClose := by
  cases pressed <;> rfl

theorem lampToggle_windowShouldClose (keys : Key → Bool) (g : Globals) :
    (lampToggle keys g).windowShouldClose = g.windowShouldClose := by
  unfold lampToggle
  split_ifs <;> rfl

theorem closeIf_windowShouldClose (pressed : Bool) (g : Globals) :
    (closeIf pressed g).windowShouldClose = (pressed || g.windowShouldClose) := by
  cases pressed <;> rfl

theorem UProcessInput_windowShouldClose (b : ℝ) (keys : Key → Bool) (g : Globals) :
    (UProcessInput b keys g).windowShouldClose = (keys .ESCAPE || g.windowShouldClose) := by
  rw [UProcessInput_eq, lampToggle_windowShouldClose]
  simp only [moveIf_windowShouldClose, closeIf_windowShouldClose]

theorem URender_windowShouldClose (b : ℝ) (g : Globals) :
    (URender b g).1.windowShouldClose = g.windowShouldClose := by
  unfold URender
  dsimp only
  split_ifs <;> rfl

theorem renderLoopBody_windowShouldClose (b : ℝ) (g : Globals) (i : FrameInput)
    (he : i.events = []) :
    (renderLoopBody b g i).1.windowShouldClose = (i.keys .ESCAPE || g.windowShouldClose) := by
  have hbody : (renderLoopBody b g i).1 = glfwPollEvents b (URender b (UProcessInput b i.keys
      { g with gDeltaTime := toFloat (toFloat i.currentFrame - g.gLastFrame),
               gLastFrame := toFloat i.currentFrame })).1 i.events := rfl
  rw [hbody, he]
  show (URender b _).1.windowShouldClose = _
  rw [URender_windowShouldClose, UProcessInput_windowShouldClose]

theorem main_exit_success (env : Env) (hi : UInitialize env = true)
    (ho : UCreateShaderProgram env.objectsShader = true)
    (hl : UCreateShaderProgram env.lampShader = true)
    (ht : (loadTextures env.stbi_load ⟨0, 0, 0, 0, 0⟩ ⟨[], 0, []⟩).1 = true)
    (hc : (renderLoop 89
      (initialGlobals env.movementSpeed env.mouseSensitivity env.zoom)
      env.frameInputs).1.windowShouldClose = true) :
    (main env).exitCode = some EXIT_SUCCESS := by
  unfold main
  simp [hi, ho, hl, ht, hc]

theorem twoFramesEnv_exit : (main twoFramesEnv).exitCode = some EXIT_SUCCESS := by
  apply main_exit_success
  · rfl
  · rfl
  · rfl
  · rw [loadTextures_fst]
    simp [textureFiles, loadable, twoFramesEnv]
  · have h1 := renderLoopBody_windowShouldClose 89 (initialGlobals (5 / 2) (1 / 10) 45)
      ⟨1, fun k => decide (k = Key.W), []⟩ rfl
    have h2 := renderLoopBody_windowShouldClose 89
      (renderLoopBody 89 (initialGlobals (5 / 2) (1 / 10) 45)
        ⟨1, fun k => decide (k = Key.W), []⟩).1
      ⟨3, fun k => decide (k = Key.W ∨ k = Key.ESCAPE), []⟩ rfl
    have h0 : (initialGlobals (5 / 2) (1 / 10) 45).windowShouldClose = false := rfl
    simp only [h0, Bool.or_false] at h1
    have h1f : (renderLoopBody 89 (initialGlobals (5 / 2) (1 / 10) 45)
        ⟨1, fun k => decide (k = Key.W), []⟩).1.windowShouldClose = false := by
      rw [h1]
      decide
    have h2t : (renderLoopBody 89
        (renderLoopBody 89 (initialGlobals (5 / 2) (1 / 10) 45)
          ⟨1, fun k => decide (k = Key.W), []⟩).1
        ⟨3, fun k => decide (k = Key.W ∨ k = Key.ESCAPE), []⟩).1.windowShouldClose = true := by
      rw [h2, h1f]
      decide
    show (renderLoop 89 (initialGlobals (5 / 2) (1 / 10) 45)
      [⟨1, fun k => decide (k = Key.W), []⟩,
       ⟨3, fun k => decide (k = Key.W ∨ k = Key.ESCAPE), []⟩]).1.windowShouldClose = true
    simp only [renderLoop, h0, h1f, Bool.false_eq_true, if_false]
    exact h2t

/-- C15, witness: a run that renders two frames and shuts down; its five
scene textures are still allocated at exit. -/
theorem UDestroyTexture_keeps_and_adds_witness :
    (main twoFramesEnv).exitCode = some EXIT_SUCCESS ∧
    (main twoFramesEnv).textureIds.gTextureIdBlack ∈ (main twoFramesEnv).gl.names ∧
    (main twoFramesEnv).textureIds.gTextureIdScreen ∈ (main twoFramesEnv).gl.names ∧
    (main twoFramesEnv).textureIds.gTextureIdWood ∈ (main twoFramesEnv).gl.names ∧
    (main twoFramesEnv).textureIds.gTextureIdKeyboard ∈ (main twoFramesEnv).gl.names ∧
    (main twoFramesEnv).textureIds.gTextureIdPhoto ∈ (main twoFramesEnv).gl.names :=
  ⟨twoFramesEnv_exit,
    (UDestroyTexture_keeps_and_adds 0 ⟨[], 0, []⟩).2.2.2 twoFramesEnv twoFramesEnv_exit⟩

/-! ### Mesh and draw ranges -/

theorem verts_length : verts.length = 1440 := by
  unfold verts
  simp only [List.length_append]
  rfl

theorem UCreateMesh_nVertices (vao vbo : Nat) : (UCreateMesh vao vbo).nVertices = 180 := by
  simp only [UCreateMesh, verts_length, sizeofFloat]
  norm_num

theorem textured_drawCalls (ids : TextureIds) :
    (URender_drawCalls ids).filter (fun d => !d.lampProgram) =
      [⟨false, ids.gTextureIdBlack, 0, 96⟩, ⟨false, ids.gTextureIdScreen, 96, 6⟩,
       ⟨false, ids.gTextureIdWood, 102, 6⟩, ⟨false, ids.gTextureIdBlack, 108, 30⟩,
       ⟨false, ids.gTextureIdKeyboard, 138, 6⟩, ⟨false, ids.gTextureIdPhoto, 144, 36⟩] := rfl

/-- C19: the draw calls of `URender` fit the mesh of `UCreateMesh`: `verts` has
1440 floats, a multiple of 8, so `nVertices` is 1440 / 8 = 180; the six
textured draws have the ranges (0,96), (96,6), (102,6), (108,30), (138,6),
(144,36), each starting where the one before ends, pairwise disjoint, and a
vertex index lies in one of them exactly when it is below `nVertices`; the lamp
draw has the range (60,36), which ends at 96, inside the mesh. -/
theorem URender_draws_cover_mesh (vao vbo : Nat) (ids : TextureIds) :
    verts.length = 1440 ∧ verts.length % 8 = 0 ∧
    (UCreateMesh vao vbo).nVertices = verts.length / 8 ∧
    (UCreateMesh vao vbo).nVertices = 180 ∧
    ((URender_drawCalls ids).filter (fun d => !d.lampProgram)).map
        (fun d => (d.first, d.count)) =
      [(0, 96), (96, 6), (102, 6), (108, 30), (138, 6), (144, 36)] ∧
    List.Chain (fun a b : DrawCall => a.first + a.count = b.first) ⟨false, 0, 0, 0⟩
      ((URender_drawCalls ids).filter (fun d => !d.lampProgram)) ∧
    ((URender_drawCalls ids).filter (fun d => !d.lampProgram)).Pairwise
      (fun a b => a.first + a.count ≤ b.first ∨ b.first + b.count ≤ a.first) ∧
    (∀ v : Nat, v < (UCreateMesh vao vbo).nVertices ↔
      ∃ d ∈ (URender_drawCalls ids).filter (fun d => !d.lampProgram),
        d.first ≤ v ∧ v < d.first + d.count) ∧
    ((URender_drawCalls ids).filter (fun d => d.lampProgram)).map
        (fun d => (d.first, d.count)) = [(60, 36)] ∧
    (∀ d ∈ (URender_drawCalls ids).filter (fun d => d.lampProgram),
      d.first + d.count ≤ (UCreateMesh vao vbo).nVertices) := by
  have hn := UCreateMesh_nVertices vao vbo
  have hl := verts_length
  refine ⟨hl, by rw [hl], by rw [hn, hl], hn, rfl, ?_, ?_, ?_, rfl, ?_⟩
  · rw [textured_drawCalls]
    simp
  · rw [textured_drawCalls]
    simp
  · intro v
    rw [textured_drawCalls, hn]
    simp only [List.mem_cons, List.mem_singleton, List.not_mem_nil, or_false, exists_eq_or_imp,
      exists_eq_left]
    omega
  · intro d hd
    have hlamp : (URender_drawCalls ids).filter (fun d => d.lampProgram) =
        [⟨true, ids.gTextureIdPhoto, 60, 36⟩] := rfl
    rw [hlamp, List.mem_singleton] at hd
    rw [hd, hn]
    show 60 + 36 ≤ 180
    norm_num

/-! ### `flipImageVertically` -/

theorem swapBytes_length (image : List Nat) (a b : Nat) :
    (swapBytes image a b).length = image.length := by
  simp [swapBytes]

theorem swapBytes_getElem? (image : List Nat) (a b y : Nat) (ha : a < image.length)
    (hb : b < image.length) :
    (swapBytes image a b)[y]? =
      if y = b then image[a]? else if y = a then image[b]? else image[y]? := by
  simp only [swapBytes, List.getElem?_set, List.length_set, List.getD_eq_getElem?_getD,
    List.getElem?_eq_getElem ha, List.getElem?_eq_getElem hb, Option.getD_some]
  by_cases h1 : y = b
  · subst h1
    simp [hb]
  · by_cases h2 : y = a
    · subst h2
      simp [ha, h1, Ne.symm h1]
    · simp [h1, h2, Ne.symm h1, Ne.symm h2]

theorem flipRow_length (image : List Nat) (a b n : Nat) :
    (flipRow image a b n).length = image.length := by
  induction n generalizing image a b with
  | zero => rfl
  | succ n ih => rw [flipRow, ih, swapBytes_length]

theorem flipRow_getElem? (n : Nat) (image : List Nat) (a b x : Nat) (hab : a + n ≤ b)
    (hb : b + n ≤ image.length) :
    (flipRow image a b n)[x]? =
      if a ≤ x ∧ x < a + n then image[x - a + b]?
      else if b ≤ x ∧ x < b + n then image[x - b + a]?
      else image[x]? := by
  induction n generalizing image a b with
  | zero =>
    have h1 : ¬ (a ≤ x ∧ x < a + 0) := by omega
    have h2 : ¬ (b ≤ x ∧ x < b + 0) := by omega
    simp only [flipRow, h1, h2, if_false]
  | succ n ih =>
    have hlen := swapBytes_length image a b
    rw [flipRow, ih (swapBytes image a b) (a + 1) (b + 1) (by omega) (by rw [hlen]; omega)]
    simp only [swapBytes_getElem? image a b _ (by omega) (by omega)]
    split_ifs <;> first | rfl | (exfalso; omega) | (congr 1; omega)

theorem flipRows_length (w h c n j : Nat) (image : List Nat) :
    (flipRows w h c n j image).length = image.length := by
  induction n generalizing j image with
  | zero => rfl
  | succ n ih => rw [flipRows, ih, flipRow_length]

theorem row_index_lt (W r s k : Nat) (hk : k < W) (hrs : r < s) : r * W + k < s * W := by
  have h1 : (r + 1) * W ≤ s * W := Nat.mul_le_mul_right W hrs
  rw [Nat.succ_mul] at h1
  omega

theorem row_next_le (W r s : Nat) (hrs : r < s) : r * W + W ≤ s * W := by
  have h1 : (r + 1) * W ≤ s * W := Nat.mul_le_mul_right W hrs
  rw [Nat.succ_mul] at h1
  exact h1

theorem flipRows_getElem? (w h c W : Nat) (hW : w * c = W) (image0 : List Nat)
    (hlen0 : image0.length = h * W) (n j : Nat) (cur : List Nat)
    (hjn : j + n ≤ h / 2) (hlen : cur.length = image0.length)
    (hcur : ∀ r k, r < h → k < W →
      cur[r * W + k]? =
        if r < j ∨ h - j ≤ r then image0[(h - 1 - r) * W + k]?
        else image0[r * W + k]?) :
    ∀ r k, r < h → k < W →
      (flipRows w h c n j cur)[r * W + k]? =
        if r < j + n ∨ h - (j + n) ≤ r then image0[(h - 1 - r) * W + k]?
        else image0[r * W + k]? := by
  induction n generalizing j cur with
  | zero => simpa [flipRows] using hcur
  | succ n ih =>
    have ha : j * w * c = j * W := by rw [Nat.mul_assoc, hW]
    have hb : (h - 1 - j) * w * c = (h - 1 - j) * W := by rw [Nat.mul_assoc, hW]
    have hab : j * W + W ≤ (h - 1 - j) * W := row_next_le W j (h - 1 - j) (by omega)
    have hbl : (h - 1 - j) * W + W ≤ cur.length := by
      have h1 : (h - 1 - j + 1) * W ≤ h * W := Nat.mul_le_mul_right W (by omega)
      rw [Nat.succ_mul] at h1
      rw [hlen, hlen0]
      exact h1
    intro r k hr hk
    have hstep : flipRows w h c (n + 1) j cur =
        flipRows w h c n (j + 1) (flipRow cur (j * W) ((h - 1 - j) * W) W) := by
      rw [flipRows, ha, hb, hW]
    rw [hstep]
    have hres := ih (j + 1) (flipRow cur (j * W) ((h - 1 - j) * W) W)
      (by omega) (by rw [flipRow_length, hlen]) ?_ r k hr hk
    · rw [hres]
      have e1 : j + 1 + n = j + (n + 1) := by omega
      rw [e1]
    · intro r k hr hk
      rw [flipRow_getElem? W cur _ _ _ hab hbl]
      rcases Nat.lt_trichotomy r j with hlt | heq | hgt
      · -- a row above the pair: untouched by this step
        have hx := row_index_lt W r j k hk hlt
        rw [if_neg (by omega), if_neg (by omega), hcur r k hr hk,
          if_pos (Or.inl hlt), if_pos (Or.inl (by omega))]
      · -- the upper row of the pair
        subst heq
        rw [if_pos (by omega)]
        have e : r * W + k - r * W + (h - 1 - r) * W = (h - 1 - r) * W + k := by omega
        rw [e, hcur (h - 1 - r) k (by omega) hk, if_neg (by omega), if_pos (Or.inl (by omega))]
      · rcases Nat.lt_trichotomy r (h - 1 - j) with hlt2 | heq2 | hgt2
        · -- a row strictly between the pair
          have hx := row_next_le W j r hgt
          have hx2 := row_index_lt W r (h - 1 - j) k hk hlt2
          rw [if_neg (by omega), if_neg (by omega), hcur r k hr hk,
            if_neg (by omega), if_neg (by omega)]
        · -- the lower row of the pair
          subst heq2
          rw [if_neg (by omega), if_pos (by omega)]
          have e : (h - 1 - j) * W + k - (h - 1 - j) * W + j * W = j * W + k := by omega
          have e2 : h - 1 - (h - 1 - j) = j := by omega
          rw [e, hcur j k (by omega) hk, if_neg (by omega), if_pos (Or.inr (by omega)), e2]
        · -- a row below the pair
          have hx := row_next_le W (h - 1 - j) r hgt2
          rw [if_neg (by omega), if_neg (by omega), hcur r k hr hk,
            if_pos (Or.inr (by omega)), if_pos (Or.inr (by omega))]

theorem mul_assoc_rows (w h c : Nat) : w * h * c = h * (w * c) := by
  rw [Nat.mul_comm w h, Nat.mul_assoc]

theorem flipImageVertically_getElem? (image : List Nat) (w h c : Nat)
    (hlen : image.length = w * h * c) (r k : Nat) (hr : r < h) (hk : k < w * c) :
    (flipImageVertically image w h c)[r * (w * c) + k]? =
      image[(h - 1 - r) * (w * c) + k]? := by
  have h0 := flipRows_getElem? w h c (w * c) rfl image
    (by rw [hlen, mul_assoc_rows]) (h / 2) 0 image (by omega) rfl
    (by
      intro r k hr _
      rw [if_neg (by omega)]) r k hr hk
  unfold flipImageVertically
  rw [h0]
  split_ifs with hc
  · rfl
  · have e : h - 1 - r = r := by omega
    rw [e]

theorem flipImageVertically_length (image : List Nat) (w h c : Nat) :
    (flipImageVertically image w h c).length = image.length :=
  flipRows_length w h c (h / 2) 0 image

theorem flipRows_of_empty_rows (w h c : Nat) (hW : w * c = 0) (n j : Nat) (image : List Nat) :
    flipRows w h c n j image = image := by
  induction n generalizing j image with
  | zero => rfl
  | succ n ih => rw [flipRows, hW, ih, flipRow]

theorem flipImageVertically_twice (image : List Nat) (w h c : Nat)
    (hlen : image.length = w * h * c) :
    flipImageVertically (flipImageVertically image w h c) w h c = image := by
  apply List.ext_getElem?
  intro i
  have hl1 := flipImageVertically_length image w h c
  have hl2 := flipImageVertically_length (flipImageVertically image w h c) w h c
  by_cases hi : i < image.length
  · have hpos : 0 < w * c := by
      rcases Nat.eq_zero_or_pos (w * c) with h0 | h0
      · rw [hlen, mul_assoc_rows, h0, Nat.mul_zero] at hi
        exact absurd hi (Nat.not_lt_zero _)
      · exact h0
    have hdm : i / (w * c) * (w * c) + i % (w * c) = i := Nat.div_add_mod' i (w * c)
    have hk : i % (w * c) < w * c := Nat.mod_lt _ hpos
    have hr : i / (w * c) < h := by
      rw [Nat.div_lt_iff_lt_mul hpos]
      rw [hlen, mul_assoc_rows] at hi
      exact hi
    generalize i / (w * c) = q at hdm hr
    generalize i % (w * c) = m at hdm hk
    have e1 := flipImageVertically_getElem? (flipImageVertically image w h c) w h c
      (by rw [hl1, hlen]) q m hr hk
    have e2 := flipImageVertically_getElem? image w h c hlen (h - 1 - q) m (by omega) hk
    have e3 : h - 1 - (h - 1 - q) = q := by omega
    rw [hdm] at e1
    rw [e1, e2, e3, hdm]
  · rw [List.getElem?_eq_none (by omega), List.getElem?_eq_none (by omega)]

theorem wrapInt_eq (n : Int) (h0 : 0 ≤ n) (h1 : n ≤ 2147483647) : wrapInt n = n := by
  unfold wrapInt
  omega

theorem wrapInt_natCast (x : Nat) (hx : x ≤ INT_MAX) : wrapInt (x : Int) = (x : Int) := by
  unfold INT_MAX at hx
  exact wrapInt_eq _ (by omega) (by omega)

theorem swapChecked_eq (s : Buffer) (a b : Nat) (ha : a < s.bytes.length)
    (hb : b < s.bytes.length) :
    swapChecked s (a : Int) (b : Int) =
      some ⟨swapBytes s.bytes a b, s.accesses ++ [((a : Int), (b : Int))]⟩ := by
  unfold swapChecked
  rw [if_pos (by omega)]
  simp

theorem flipRowInt_eq (n : Nat) (s : Buffer) (a b : Nat) (ha : a + n ≤ s.bytes.length)
    (hb : b + n ≤ s.bytes.length) (hmax : s.bytes.length ≤ INT_MAX) :
    flipRowInt s (a : Int) (b : Int) n =
      some ⟨flipRow s.bytes a b n,
        s.accesses ++ (List.range n).map (fun k : Nat => ((a : Int) + (k : Int), (b : Int) + (k : Int)))⟩ := by
  induction n generalizing s a b with
  | zero => simp [flipRowInt, flipRow]
  | succ n ih =>
    unfold INT_MAX at hmax
    rw [flipRowInt, swapChecked_eq s a b (by omega) (by omega)]
    dsimp only
    have e1 : wrapInt ((a : Int) + 1) = ((a + 1 : Nat) : Int) := by
      rw [wrapInt_eq _ (by omega) (by omega)]
      push_cast
      rfl
    have e2 : wrapInt ((b : Int) + 1) = ((b + 1 : Nat) : Int) := by
      rw [wrapInt_eq _ (by omega) (by omega)]
      push_cast
      rfl
    rw [e1, e2, ih ⟨swapBytes s.bytes a b, s.accesses ++ [((a : Int), (b : Int))]⟩ (a + 1) (b + 1)
      (by simp only [swapBytes_length]; omega) (by simp only [swapBytes_length]; omega)
      (by simp only [swapBytes_length]; unfold INT_MAX; omega)]
    simp only [flipRow, List.range_succ_eq_map, List.map_cons, List.map_map, List.append_assoc,
      List.singleton_append, Nat.cast_zero, add_zero, Option.some.injEq, Buffer.mk.injEq,
      true_and, List.append_cancel_left_eq, List.cons.injEq]
    apply List.map_congr_left
    intro k _
    simp only [Function.comp, Nat.succ_eq_add_one]
    push_cast
    rw [Prod.mk.injEq]
    constructor <;> ring

theorem flipRowsInt_of_empty_rows (width height channels : Int)
    (hW : (wrapInt (width * channels)).toNat = 0) (n : Nat) (j : Int) (s : Buffer) :
    flipRowsInt width height channels n j s = some s := by
  induction n generalizing j with
  | zero => rfl
  | succ n ih =>
    rw [flipRowsInt, hW]
    simp only [flipRowInt]
    exact ih _

theorem flipRowsInt_eq (w h c W : Nat) (hW : w * c = W) (hpos : 0 < W)
    (hmax : h * W ≤ INT_MAX) (n j : Nat) (s : Buffer) (hjn : j + n ≤ h / 2)
    (hlen : s.bytes.length = h * W) :
    ∃ log, flipRowsInt (w : Int) (h : Int) (c : Int) n (j : Int) s =
        some ⟨flipRows w h c n j s.bytes, s.accesses ++ log⟩ ∧
      (∀ p ∈ log, mirrorPair W h p) ∧ log.length = n * W := by
  induction n generalizing j s with
  | zero => exact ⟨[], by simp [flipRowsInt, flipRows], by simp, by simp⟩
  | succ n ih =>
    unfold INT_MAX at hmax
    have hc : 0 < c := by
      rcases Nat.eq_zero_or_pos c with h0 | h0
      · rw [h0, Nat.mul_zero] at hW
        omega
      · exact h0
    have hwW : w ≤ W := by
      rw [← hW]
      exact Nat.le_mul_of_pos_right w hc
    have hjW : j * W + W ≤ (h - 1 - j) * W := row_next_le W j (h - 1 - j) (by omega)
    have hbW : (h - 1 - j) * W + W ≤ h * W := by
      have h1 : (h - 1 - j + 1) * W ≤ h * W := Nat.mul_le_mul_right W (by omega)
      rw [Nat.succ_mul] at h1
      exact h1
    have hjw : j * w ≤ j * W := Nat.mul_le_mul_left j hwW
    have h1w : (h - 1 - j) * w ≤ (h - 1 - j) * W := Nat.mul_le_mul_left _ hwW
    have hhW : h ≤ h * W := Nat.le_mul_of_pos_right h hpos
    have hWh : W ≤ h * W := Nat.le_mul_of_pos_left W (by omega)
    have ha : j * w * c = j * W := by rw [Nat.mul_assoc, hW]
    have hb : (h - 1 - j) * w * c = (h - 1 - j) * W := by rw [Nat.mul_assoc, hW]
    have b1 : W ≤ INT_MAX := by unfold INT_MAX; omega
    have b2 : j * w ≤ INT_MAX := by unfold INT_MAX; omega
    have b3 : j * W ≤ INT_MAX := by unfold INT_MAX; omega
    have b4 : h - 1 ≤ INT_MAX := by unfold INT_MAX; omega
    have b5 : h - 1 - j ≤ INT_MAX := by unfold INT_MAX; omega
    have b6 : (h - 1 - j) * w ≤ INT_MAX := by unfold INT_MAX; omega
    have b7 : (h - 1 - j) * W ≤ INT_MAX := by unfold INT_MAX; omega
    have b8 : j + 1 ≤ INT_MAX := by unfold INT_MAX; omega
    have c1 : (h : Int) - 1 = ((h - 1 : Nat) : Int) := by omega
    have c2 : ((h - 1 : Nat) : Int) - (j : Int) = ((h - 1 - j : Nat) : Int) := by omega
    have c3 : (j : Int) + 1 = ((j + 1 : Nat) : Int) := by omega
    have hra : j * W + W ≤ s.bytes.length := by omega
    have hrb : (h - 1 - j) * W + W ≤ s.bytes.length := by omega
    have hrm : s.bytes.length ≤ INT_MAX := by unfold INT_MAX; omega
    have hj1 : j + 1 + n ≤ h / 2 := by omega
    have E0 : wrapInt ((w : Int) * (c : Int)) = ((W : Nat) : Int) := by
      rw [← Nat.cast_mul, hW]
      exact wrapInt_natCast _ b1
    have E1 : wrapInt (wrapInt ((j : Int) * (w : Int)) * (c : Int)) = ((j * W : Nat) : Int) := by
      rw [← Nat.cast_mul, wrapInt_natCast _ b2, ← Nat.cast_mul, ha]
      exact wrapInt_natCast _ b3
    have E2 : wrapInt (wrapInt (wrapInt (wrapInt ((h : Int) - 1) - (j : Int)) * (w : Int)) *
        (c : Int)) = (((h - 1 - j) * W : Nat) : Int) := by
      rw [c1, wrapInt_natCast _ b4, c2, wrapInt_natCast _ b5, ← Nat.cast_mul,
        wrapInt_natCast _ b6, ← Nat.cast_mul, hb]
      exact wrapInt_natCast _ b7
    have E3 : wrapInt ((j : Int) + 1) = ((j + 1 : Nat) : Int) := by
      rw [c3]
      exact wrapInt_natCast _ b8
    have hrow := flipRowInt_eq W s (j * W) ((h - 1 - j) * W) hra hrb hrm
    obtain ⟨log2, hrest, hP2, hL2⟩ := ih (j + 1)
      ⟨flipRow s.bytes (j * W) ((h - 1 - j) * W) W,
        s.accesses ++ (List.range W).map
          (fun k : Nat => (((j * W : Nat) : Int) + (k : Int),
            (((h - 1 - j) * W : Nat) : Int) + (k : Int)))⟩
      hj1 (by simp only [flipRow_length]; exact hlen)
    refine ⟨(List.range W).map
          (fun k : Nat => (((j * W : Nat) : Int) + (k : Int),
            (((h - 1 - j) * W : Nat) : Int) + (k : Int))) ++ log2, ?_, ?_, ?_⟩
    · rw [flipRowsInt, E0, E1, E2, Int.toNat_ofNat, hrow]
      dsimp only
      rw [E3, hrest, flipRows, ha, hb, hW, List.append_assoc]
    · intro p hp
      rcases List.mem_append.mp hp with hp | hp
      · obtain ⟨k, hk, rfl⟩ := List.mem_map.mp hp
        rw [List.mem_range] at hk
        refine ⟨j, k, by clear E0 E1 E2 E3 hrow hrest; omega, hk, ?_, ?_⟩
        · push_cast
          rfl
        · push_cast
          rfl
      · exact hP2 p hp
    · rw [List.length_append, List.length_map, List.length_range, hL2, Nat.succ_mul]
      exact Nat.add_comm _ _

theorem flipImageVerticallyInt_eq (image : List Nat) (w h c : Nat)
    (hlen : image.length = w * h * c) (hmax : w * h * c ≤ INT_MAX) :
    ∃ log, flipImageVerticallyInt image (w : Int) (h : Int) (c : Int) =
        some ⟨flipImageVertically image w h c, log⟩ ∧
      (∀ p ∈ log, mirrorPair (w * c) h p) ∧ log.length = h / 2 * (w * c) := by
  have hdiv : (Int.tdiv (h : Int) 2).toNat = h / 2 := by
    have e : Int.tdiv (h : Int) 2 = ((h / 2 : Nat) : Int) := (Int.ofNat_tdiv h 2).symm
    rw [e, Int.toNat_ofNat]
  unfold flipImageVerticallyInt flipImageVertically
  rw [hdiv]
  rcases Nat.eq_zero_or_pos (w * c) with h0 | hpos
  · refine ⟨[], ?_, by simp, by simp [h0]⟩
    have hz : (wrapInt ((w : Int) * (c : Int))).toNat = 0 := by
      rw [← Nat.cast_mul, h0]
      rfl
    rw [flipRowsInt_of_empty_rows _ _ _ hz, flipRows_of_empty_rows w h c h0]
  · rw [mul_assoc_rows] at hlen hmax
    obtain ⟨log, hrun, hP, hL⟩ := flipRowsInt_eq w h c (w * c) rfl hpos hmax (h / 2) 0
      ⟨image, []⟩ (by omega) hlen
    refine ⟨log, ?_, hP, hL⟩
    simpa using hrun

theorem mirrorPair_bounds (W h : Nat) (p : Int × Int) (hp : mirrorPair W h p) :
    ∃ r : Nat, r < h / 2 ∧
      ((r * W : Nat) : Int) ≤ p.1 ∧ p.1 < ((r * W + W : Nat) : Int) ∧
      r * W + W ≤ (h - 1 - r) * W ∧
      (((h - 1 - r) * W : Nat) : Int) ≤ p.2 ∧ p.2 < (((h - 1 - r) * W + W : Nat) : Int) ∧
      (h - 1 - r) * W + W ≤ h * W := by
  obtain ⟨r, k, hr, hk, h1, h2⟩ := hp
  have hnext := row_next_le W r (h - 1 - r) (by omega)
  have hend : (h - 1 - r) * W + W ≤ h * W := by
    have h3 : (h - 1 - r + 1) * W ≤ h * W := Nat.mul_le_mul_right W (by omega)
    rw [Nat.succ_mul] at h3
    exact h3
  refine ⟨r, hr, ?_, ?_, hnext, ?_, ?_, hend⟩
  · rw [h1]
    exact_mod_cast Nat.le_add_right _ _
  · rw [h1]
    exact_mod_cast Nat.add_lt_add_left hk _
  · rw [h2]
    exact_mod_cast Nat.le_add_right _ _
  · rw [h2]
    exact_mod_cast Nat.add_lt_add_left hk _

theorem swapChecked_negative (s : Buffer) (index1 index2 : Int) (h : index2 < 0) :
    swapChecked s index1 index2 = none := by
  unfold swapChecked
  rw [if_neg]
  intro hcond
  omega

theorem flipImageVerticallyInt_overflow (image : List Nat) :
    flipImageVerticallyInt image 65536 65536 1 = none := by
  have hn : (Int.tdiv (65536 : Int) 2).toNat = 32767 + 1 := by decide
  have hi2 : wrapInt (wrapInt (wrapInt (wrapInt ((65536 : Int) - 1) - 0) * 65536) * 1) =
      -65536 := by decide
  have hcount : (wrapInt ((65536 : Int) * 1)).toNat = 65535 + 1 := by decide
  unfold flipImageVerticallyInt
  rw [hn, flipRowsInt, hi2, hcount, flipRowInt, swapChecked_negative _ _ _ (by decide)]

theorem flipImageVertically_rowsReversed (image : List Nat) (w h c : Nat)
    (hlen : image.length = w * h * c) :
    RowsReversed image (flipImageVertically image w h c) h (w * c) :=
  ⟨flipImageVertically_length image w h c,
    fun j k hj hk => flipImageVertically_getElem? image w h c hlen j k hj hk⟩

/-- C16, counterexample: for width = height = 65536 and channels = 1, with a
buffer of 65536 * 65536 * 1 bytes, the first `index2` is 65535 * 65536, which
does not fit an `int`; it wraps to -65536 and the call leaves the buffer
before any row is exchanged. -/
theorem flipImageVertically_rows_overflow :
    (List.replicate 4294967296 0).length = 65536 * 65536 * 1 ∧
    flipImageVerticallyInt (List.replicate 4294967296 0) 65536 65536 1 = none ∧
    ¬ ∃ out : Buffer,
      flipImageVerticallyInt (List.replicate 4294967296 0) 65536 65536 1 = some out ∧
      RowsReversed (List.replicate 4294967296 0) out.bytes 65536 (65536 * 1) := by
  refine ⟨by rw [List.length_replicate], flipImageVerticallyInt_overflow _, ?_⟩
  rintro ⟨out, hout, -⟩
  rw [flipImageVerticallyInt_overflow] at hout
  exact Option.noConfusion hout

/-- C16, amended: for every width, height, channels >= 0 whose product fits an
`int`, and every buffer of width * height * channels bytes,
`flipImageVertically` returns with the rows in reverse order: the byte at row
j, offset k is the original byte at row height - 1 - j, offset k, for all
j < height and k < width * channels; for odd height the middle row is as it
was. -/
theorem flipImageVertically_reverses_rows (image : List Nat) (width height channels : Nat)
    (hlen : image.length = width * height * channels)
    (hint : width * height * channels ≤ INT_MAX) :
    ∃ out : Buffer,
      flipImageVerticallyInt image (width : Int) (height : Int) (channels : Int) = some out ∧
      RowsReversed image out.bytes height (width * channels) ∧
      (height % 2 = 1 → ∀ k, k < width * channels →
        out.bytes[height / 2 * (width * channels) + k]? =
          image[height / 2 * (width * channels) + k]?) := by
  obtain ⟨log, hrun, -, -⟩ := flipImageVerticallyInt_eq image width height channels hlen hint
  have hrev := flipImageVertically_rowsReversed image width height channels hlen
  refine ⟨_, hrun, hrev, ?_⟩
  intro hodd k hk
  have hmid := hrev.2 (height / 2) k (by omega) hk
  have e : height - 1 - height / 2 = height / 2 := by omega
  rw [e] at hmid
  exact hmid

/-- C16, witness: three rows of two bytes. -/
theorem flipImageVertically_reverses_rows_witness :
    [1, 2, 3, 4, 5, 6].length = 1 * 3 * 2 ∧ 1 * 3 * 2 ≤ INT_MAX ∧
    flipImageVerticallyInt [1, 2, 3, 4, 5, 6] 1 3 2 =
      some ⟨[5, 6, 3, 4, 1, 2], [(0, 4), (1, 5)]⟩ ∧
    ∃ out : Buffer,
      flipImageVerticallyInt [1, 2, 3, 4, 5, 6] ((1 : Nat) : Int) ((3 : Nat) : Int)
        ((2 : Nat) : Int) = some out ∧
      RowsReversed [1, 2, 3, 4, 5, 6] out.bytes 3 (1 * 2) :=
  have h := flipImageVertically_reverses_rows [1, 2, 3, 4, 5, 6] 1 3 2 rfl (by decide)
  ⟨rfl, by decide, rfl, h.elim fun out ho => ⟨out, ho.1, ho.2.1⟩⟩

/-- C17, counterexample: for width = height = 65536 and channels = 1, with a
buffer of 65536 * 65536 * 1 bytes, the first of the two calls already leaves
the buffer, so two calls do not give the original buffer back. -/
theorem flipImageVertically_twice_overflow :
    (List.replicate 4294967296 0).length = 65536 * 65536 * 1 ∧
    (flipImageVerticallyInt (List.replicate 4294967296 0) 65536 65536 1).bind
      (fun out => flipImageVerticallyInt out.bytes 65536 65536 1) = none := by
  refine ⟨by rw [List.length_replicate], ?_⟩
  rw [flipImageVerticallyInt_overflow]
  rfl

/-- C17, amended: for every width, height, channels >= 0 whose product fits an
`int`, and every buffer of width * height * channels bytes, applying
`flipImageVertically` twice with the same dimensions returns the original
buffer. -/
theorem flipImageVertically_involution (image : List Nat) (width height channels : Nat)
    (hlen : image.length = width * height * channels)
    (hint : width * height * channels ≤ INT_MAX) :
    ∃ once twice : Buffer,
      flipImageVerticallyInt image (width : Int) (height : Int) (channels : Int) = some once ∧
      flipImageVerticallyInt once.bytes (width : Int) (height : Int) (channels : Int) =
        some twice ∧
      twice.bytes = image := by
  obtain ⟨log1, hrun1, -, -⟩ := flipImageVerticallyInt_eq image width height channels hlen hint
  obtain ⟨log2, hrun2, -, -⟩ := flipImageVerticallyInt_eq
    (flipImageVertically image width height channels) width height channels
    (by rw [flipImageVertically_length, hlen]) hint
  exact ⟨_, _, hrun1, hrun2, flipImageVertically_twice image width height channels hlen⟩

/-- C17, witness: three rows of two bytes, flipped and flipped back. -/
theorem flipImageVertically_involution_witness :
    [1, 2, 3, 4, 5, 6].length = 1 * 3 * 2 ∧ 1 * 3 * 2 ≤ INT_MAX ∧
    flipImageVerticallyInt [5, 6, 3, 4, 1, 2] 1 3 2 =
      some ⟨[1, 2, 3, 4, 5, 6], [(0, 4), (1, 5)]⟩ ∧
    ∃ once twice : Buffer,
      flipImageVerticallyInt [1, 2, 3, 4, 5, 6] ((1 : Nat) : Int) ((3 : Nat) : Int)
        ((2 : Nat) : Int) = some once ∧
      flipImageVerticallyInt once.bytes ((1 : Nat) : Int) ((3 : Nat) : Int)
        ((2 : Nat) : Int) = some twice ∧
      twice.bytes = [1, 2, 3, 4, 5, 6] :=
  ⟨rfl, by decide, rfl, flipImageVertically_involution [1, 2, 3, 4, 5, 6] 1 3 2 rfl (by decide)⟩

theorem flipImageVertically_unchanged (image : List Nat) (w h c : Nat)
    (h0 : h ≤ 1 ∨ w * c = 0) : flipImageVertically image w h c = image := by
  unfold flipImageVertically
  rcases h0 with h1 | hW
  · have e : h / 2 = 0 := by omega
    rw [e]
    rfl
  · exact flipRows_of_empty_rows w h c hW _ _ _

/-- C18: for every width, height, channels >= 0 whose product fits an `int`,
and a buffer of width * height * channels bytes, `flipImageVertically` returns
(after height / 2 * (width * channels) exchanges); every index it reads or
writes lies in [0, width * height * channels); each exchange pairs a byte of an
upper row r with a byte of the row height - 1 - r, and the upper row ends
before the lower one begins; the buffer keeps its length; and for height <= 1
or width * channels = 0 no byte is accessed and the buffer is as it was. -/
theorem flipImageVertically_stays_inside (image : List Nat) (width height channels : Nat)
    (hlen : image.length = width * height * channels)
    (hint : width * height * channels ≤ INT_MAX) :
    ∃ out : Buffer,
      flipImageVerticallyInt image (width : Int) (height : Int) (channels : Int) = some out ∧
      (∀ p ∈ out.accesses,
        0 ≤ p.1 ∧ p.1 < ((width * height * channels : Nat) : Int) ∧
        0 ≤ p.2 ∧ p.2 < ((width * height * channels : Nat) : Int)) ∧
      (∀ p ∈ out.accesses, ∃ r : Nat, r < height / 2 ∧
        ((r * (width * channels) : Nat) : Int) ≤ p.1 ∧
        p.1 < ((r * (width * channels) + width * channels : Nat) : Int) ∧
        r * (width * channels) + width * channels ≤ (height - 1 - r) * (width * channels) ∧
        (((height - 1 - r) * (width * channels) : Nat) : Int) ≤ p.2 ∧
        p.2 < (((height - 1 - r) * (width * channels) + width * channels : Nat) : Int)) ∧
      out.accesses.length = height / 2 * (width * channels) ∧
      out.bytes.length = image.length ∧
      ((height ≤ 1 ∨ width * channels = 0) → out.bytes = image ∧ out.accesses = []) := by
  obtain ⟨log, hrun, hP, hL⟩ := flipImageVerticallyInt_eq image width height channels hlen hint
  refine ⟨_, hrun, ?_, ?_, hL, flipImageVertically_length image width height channels, ?_⟩
  · intro p hp
    obtain ⟨r, -, b1, b2, hnext, b3, b4, hend⟩ := mirrorPair_bounds _ _ p (hP p hp)
    have e : width * height * channels = height * (width * channels) := mul_assoc_rows _ _ _
    rw [e]
    have n1 : (((r * (width * channels) + width * channels : Nat) : Int)) ≤
        ((height * (width * channels) : Nat) : Int) := by
      exact_mod_cast le_trans hnext (le_trans (Nat.le_add_right _ _) hend)
    have n2 : ((((height - 1 - r) * (width * channels) + width * channels : Nat) : Int)) ≤
        ((height * (width * channels) : Nat) : Int) := by
      exact_mod_cast hend
    have z1 : (0 : Int) ≤ ((r * (width * channels) : Nat) : Int) := Int.ofNat_nonneg _
    have z2 : (0 : Int) ≤ (((height - 1 - r) * (width * channels) : Nat) : Int) :=
      Int.ofNat_nonneg _
    exact ⟨le_trans z1 b1, lt_of_lt_of_le b2 n1, le_trans z2 b3, lt_of_lt_of_le b4 n2⟩
  · intro p hp
    obtain ⟨r, hr, b1, b2, hnext, b3, b4, -⟩ := mirrorPair_bounds _ _ p (hP p hp)
    exact ⟨r, hr, b1, b2, hnext, b3, b4⟩
  · intro h0
    refine ⟨flipImageVertically_unchanged image width height channels h0, ?_⟩
    apply List.eq_nil_of_length_eq_zero
    show log.length = 0
    rw [hL]
    rcases h0 with h1 | hW
    · have e : height / 2 = 0 := by omega
      rw [e, Nat.zero_mul]
    · rw [hW, Nat.mul_zero]

/-- C18, witness: three rows of two bytes; the two exchanges touch the index
pairs (0, 4) and (1, 5) of a buffer of six bytes. -/
theorem flipImageVertically_stays_inside_witness :
    [1, 2, 3, 4, 5, 6].length = 1 * 3 * 2 ∧ 1 * 3 * 2 ≤ INT_MAX ∧
    flipImageVerticallyInt [1, 2, 3, 4, 5, 6] 1 3 2 =
      some ⟨[5, 6, 3, 4, 1, 2], [(0, 4), (1, 5)]⟩ ∧
    ∃ out : Buffer,
      flipImageVerticallyInt [1, 2, 3, 4, 5, 6] ((1 : Nat) : Int) ((3 : Nat) : Int)
        ((2 : Nat) : Int) = some out ∧
      (∀ p ∈ out.accesses,
        0 ≤ p.1 ∧ p.1 < ((1 * 3 * 2 : Nat) : Int) ∧ 0 ≤ p.2 ∧ p.2 < ((1 * 3 * 2 : Nat) : Int)) ∧
      out.bytes.length = [1, 2, 3, 4, 5, 6].length :=
  have h := flipImageVertically_stays_inside [1, 2, 3, 4, 5, 6] 1 3 2 rfl (by decide)
  ⟨rfl, by decide, rfl, h.elim fun out ho => ⟨out, ho.1, ho.2.1, ho.2.2.2.2.1⟩⟩

end

end OpenGLScene
